import Mathlib

/-!
# AD9249 raw-to-standard event converter

A shallow embedding of `user/caribou/module/src/AD9249EventConverter.cc`
(`AD9249Event2StdEventConverter::decodeChannel` and `::Converting`) together with
the channel table of `CaribouEvent2StdEventConverter.hh`.

Conventions of the embedding.

* A `std::vector<uint8_t>` is a `List Byte` with `Byte = Fin 256`.
* Unsigned machine integers are `Nat` with the reduction modulo `2 ^ w` written out
  where the source computes in that width; `int64_t` is `Int`.
* A `double` is a value of `Double`: a finite number, held exactly as a rational, an
  infinity, or NaN; the arithmetic on finite values is exact, a division by zero
  yields an infinity or NaN, and every comparison with NaN is false.
* An `int` is an `Int` in the range of 32 bits: the static members declared `int`
  carry that range, a configuration value read as `int` is narrowed to it, and the
  narrowing of a wider value to `int` is `toInt32`.
* The static data members of the converter class form the record `ConvState`,
  threaded through `Converting`.
* A bounds-checked `vector::at` that fails yields `Fault.outOfRange` (the C++
  exception `std::out_of_range`); an unchecked access outside the container
  (`operator[]`, iterator arithmetic, dereferencing) yields `Fault.undefined`.
* The floating-point rescaling of the timestamp and the evaluation of a ROOT `TF1`
  formula are parameters of the embedding, collected in `Env`.
-/

set_option maxRecDepth 20000

namespace AD9249

/-- One element of a `std::vector<uint8_t>`. -/
abbrev Byte := Fin 256

/-- The two ways a call can fail to return. -/
inductive Fault where
  | outOfRange
  | undefined
deriving DecidableEq, Repr

/-- A `double`: a finite value, held exactly as a rational number, an infinity, or
NaN. -/
inductive Double where
  | num (q : ℚ)
  | posInf
  | negInf
  | nan
deriving DecidableEq

instance : Coe ℚ Double := ⟨Double.num⟩

instance (n : Nat) [OfNat ℚ n] : OfNat Double n := ⟨Double.num (OfNat.ofNat n)⟩

/-- The comparison `a < b` of two `double` values: false when either is NaN. -/
def Double.lt : Double → Double → Prop
  | .num x, .num y => x < y
  | .num _, .posInf => True
  | .negInf, .num _ => True
  | .negInf, .posInf => True
  | _, _ => False

instance : LT Double := ⟨Double.lt⟩

instance (a b : Double) : Decidable (a < b) :=
  match a, b with
  | .num x, .num y => inferInstanceAs (Decidable (x < y))
  | .num _, .posInf => isTrue True.intro
  | .num _, .negInf => isFalse (fun h => h)
  | .num _, .nan => isFalse (fun h => h)
  | .posInf, .num _ => isFalse (fun h => h)
  | .posInf, .posInf => isFalse (fun h => h)
  | .posInf, .negInf => isFalse (fun h => h)
  | .posInf, .nan => isFalse (fun h => h)
  | .negInf, .num _ => isTrue True.intro
  | .negInf, .posInf => isTrue True.intro
  | .negInf, .negInf => isFalse (fun h => h)
  | .negInf, .nan => isFalse (fun h => h)
  | .nan, .num _ => isFalse (fun h => h)
  | .nan, .posInf => isFalse (fun h => h)
  | .nan, .negInf => isFalse (fun h => h)
  | .nan, .nan => isFalse (fun h => h)

/-- The quotient `a / b` of a finite `double` by an `int` converted to `double`
(line 224): for `b = 0` it is NaN when `a = 0` and an infinity of the sign of `a`
otherwise. -/
def Double.divInt (a : ℚ) (b : Int) : Double :=
  if b = 0 then (if a = 0 then .nan else if 0 < a then .posInf else .negInf)
  else .num (a / (b : ℚ))

/-- The difference `a - b` of a finite `double` and a `double` (line 227). -/
def Double.subFrom (a : ℚ) : Double → Double
  | .num q => .num (a - q)
  | .posInf => .negInf
  | .negInf => .posInf
  | .nan => .nan

/-- The values of a 32-bit `int`. -/
def IsInt32 (z : Int) : Prop :=
  -2 ^ 31 ≤ z ∧ z < 2 ^ 31

instance (z : Int) : Decidable (IsInt32 z) :=
  inferInstanceAs (Decidable (_ ∧ _))

/-- Conversion of a wider integer to `int`: the value modulo `2 ^ 32` in the range
of `int` (lines 84-87 and 221). -/
def toInt32 (z : Int) : Int :=
  if z % 2 ^ 32 < 2 ^ 31 then z % 2 ^ 32 else z % 2 ^ 32 - 2 ^ 32

/-- ROOT `TF1` as constructed at line 98: a name, a formula string and a range. -/
structure TF1 where
  name : String
  formula : String
  xmin : ℚ
  xmax : ℚ
deriving DecidableEq

/-- The parts of the computation that are outside the integer and rational
fragment: `rescale` is `static_cast<uint64_t>(timestamp * 1e6 / 65.)` (line 75) and
`tf1Eval f x` is `f.Eval(x)` (line 227), for every `double` argument `x`. -/
structure Env where
  rescale : Nat → Nat
  tf1Eval : TF1 → Double → Double

/-- Modelled from the spec: the configuration object (`eudaq::Configuration` is not
part of the sources at hand) is a read-only key/value lookup with typed accessors;
`Get key default` returns the stored value, or the caller's default when the key is
absent. -/
structure Configuration where
  intValue : String → Option Int
  doubleValue : String → Option ℚ
  stringValue : String → Option String

/-- Modelled from the spec: `conf->Get(key, default)` with an `int` default. The
result is an `int`: a stored value in the range of `int` is returned as it is, one
outside that range is narrowed to it (the configurations of the examples store
values in the range only). -/
def Configuration.GetInt (conf : Configuration) (key : String) (dflt : Int) : Int :=
  toInt32 ((conf.intValue key).getD dflt)

/-- Modelled from the spec: `conf->Get(key, default)` with a `double` default. -/
def Configuration.GetDouble (conf : Configuration) (key : String) (dflt : ℚ) : ℚ :=
  (conf.doubleValue key).getD dflt

/-- Modelled from the spec: `conf->Get(key, default)` with a string default. -/
def Configuration.GetString (conf : Configuration) (key : String) (dflt : String) : String :=
  (conf.stringValue key).getD dflt

/-- Modelled from the spec: a sparse pixel entry `(column, row, value, timestamp)` of
a plane (`eudaq::StandardPlane` is not part of the sources at hand). -/
structure Pixel where
  x : Int
  y : Int
  value : Double
  time : Nat
deriving DecidableEq

/-- Modelled from the spec: a plane names one sensor (numeric id, originating
system, sensor type), declares its addressable size and holds its pixels in the
order they were pushed. -/
structure StandardPlane where
  id : Nat
  type : String
  sensor : String
  xsize : Nat
  ysize : Nat
  pixels : List Pixel
deriving DecidableEq

/-- Modelled from the spec: `plane.PushPixel(x, y, value, time)` appends one pixel. -/
def StandardPlane.PushPixel (plane : StandardPlane) (x y : Int) (value : Double) (time : Nat) :
    StandardPlane :=
  { plane with pixels := plane.pixels ++ [⟨x, y, value, time⟩] }

/-- Modelled from the spec: the standard event is a mutable accumulator holding the
detector-type label, time-begin and time-end, the trigger number and the ordered
sequence of planes. -/
structure StandardEvent where
  planes : List StandardPlane
  timeBegin : Nat
  timeEnd : Nat
  triggerN : Nat
  detectorType : String
deriving DecidableEq

/-- One line of the waveform dump file (lines 190-196): trigger counter, channel,
pixel coordinates and the samples of the channel. -/
structure DumpLine where
  trig : Nat
  ch : Nat
  x : Int
  y : Int
  samples : List Nat
deriving DecidableEq

/-- The static data members of the converter class (lines 16-33 of the source, and
the contents appended so far to the dump file). The four members declared `int`
hold values of a 32-bit `int`. -/
structure ConvState where
  trig_ : Nat
  m_configured : Bool
  m_runStartTime : Int
  m_waveform_filename : String
  m_outfile_waveforms : List DumpLine
  m_blStart : Int
  m_blEnd : Int
  m_ampStart : Int
  m_ampEnd : Int
  m_calib_range_min : ℚ
  m_calib_range_max : ℚ
  m_calib_strings : List String
  m_calib_functions : List TF1
  int_range : IsInt32 m_blStart ∧ IsInt32 m_blEnd ∧ IsInt32 m_ampStart ∧ IsInt32 m_ampEnd

/-- Default-constructed `TF1()`. -/
def TF1.default : TF1 := ⟨"", "", 0, 0⟩

/-- The initial values of the static members, lines 16-33. -/
def initialState : ConvState :=
  { trig_ := 0
    m_configured := false
    m_runStartTime := -1
    m_waveform_filename := ""
    m_outfile_waveforms := []
    m_blStart := 150
    m_blEnd := 80
    m_ampStart := 170
    m_ampEnd := 270
    m_calib_range_min := 0
    m_calib_range_max := 16384
    m_calib_strings := List.replicate 16 "x"
    m_calib_functions := List.replicate 16 TF1.default
    int_range := by decide }

/-- The channel to pixel table of the header (lines 77-79). -/
def mapping : List (Int × Int) :=
  [(1, 2), (0, 2), (1, 1), (1, 0), (0, 3), (0, 1), (0, 0), (2, 0),
   (2, 1), (3, 0), (3, 2), (3, 3), (3, 1), (2, 2), (2, 3), (1, 3)]

/-! ## decodeChannel (lines 35-76) -/

/-- Lines 48-49: `uint16_t val = data.at(i) + ((uint16_t(data.at(i + 1)) & 0x3F) << 8)`. -/
def sampleValue (lo hi : Byte) : Nat :=
  (lo.val + ((hi.val &&& 0x3F) <<< 8)) % 65536

/-- Line 58: `uint64_t ts = (data.at(i + 1) >> 6)`. -/
def sampleStatus (hi : Byte) : Nat :=
  hi.val >>> 6

/-- The little-endian 16-bit word formed by a byte pair. -/
def sampleWord (lo hi : Byte) : Nat :=
  lo.val + 256 * hi.val

/-- The loop-carried variables of `decodeChannel`: the waveform table, the
timestamp accumulator and the timestamp index `ts_i`. -/
structure DecState where
  waveforms : List (List Nat)
  timestamp : Nat
  ts_i : Nat
deriving DecidableEq

/-- Lines 52-70: the timestamp part of one loop iteration, acting on
`(timestamp, ts_i)` for channel `ch` of ADC half `adc` and status field `ts`. -/
def timestampStep (adc ch ts : Nat) (tsv : Nat × Nat) : Nat × Nat :=
  if 28 ≤ tsv.2 then tsv
  else if ch = adc * 8 + 7 then
    if tsv.2 < 8 ∧ ts &&& 1 = 0 then (tsv.1, 0) else tsv
  else ((tsv.1 + (ts <<< (2 * tsv.2))) % 2 ^ 64, tsv.2 + 1)

/-- Lines 44-70: one iteration of the loop of `decodeChannel` at byte index `i`. -/
def decodeStep (adc : Nat) (data : List Byte) (offset i : Nat) (s : DecState) :
    Except Fault DecState :=
  let ch := adc * 8 + ((i - offset) / 2) % 8
  match data[i]?, data[i + 1]? with
  | some lo, some hi =>
    match s.waveforms[ch]? with
    | none => .error .outOfRange
    | some wf =>
      let tsv := timestampStep adc ch (sampleStatus hi) (s.timestamp, s.ts_i)
      .ok { waveforms := s.waveforms.set ch (wf ++ [sampleValue lo hi])
            timestamp := tsv.1
            ts_i := tsv.2 }
  | _, _ => .error .outOfRange

/-- Line 43: `for (size_t i = offset; i < offset + size; i += 2)`, as `n` remaining
iterations from byte index `i`. -/
def decodeLoop (adc : Nat) (data : List Byte) (offset : Nat) :
    Nat → Nat → DecState → Except Fault DecState
  | 0, _, s => .ok s
  | n + 1, i, s =>
    match decodeStep adc data offset i s with
    | .error f => .error f
    | .ok s1 => decodeLoop adc data offset n (i + 2) s1

/-- The loop of `decodeChannel` before the rescaling of line 75: the index runs over
`offset, offset + 2, ...` while it is below `offset + size`, which is
`(size + 1) / 2` iterations; `ts_i` starts at 0. -/
def decodeChannelRaw (adc : Nat) (data : List Byte) (size offset : Nat)
    (waveforms : List (List Nat)) (timestamp : Nat) : Except Fault DecState :=
  decodeLoop adc data offset ((size + 1) / 2) offset
    { waveforms := waveforms, timestamp := timestamp, ts_i := 0 }

/-- `decodeChannel` (lines 35-76): the loop followed by the rescaling of the
timestamp; the result is the updated waveform table and timestamp. -/
def decodeChannel (env : Env) (adc : Nat) (data : List Byte) (size offset : Nat)
    (waveforms : List (List Nat)) (timestamp : Nat) : Except Fault (List (List Nat) × Nat) :=
  match decodeChannelRaw adc data size offset waveforms timestamp with
  | .error f => .error f
  | .ok s => .ok (s.waveforms, env.rescale s.timestamp % 2 ^ 64)

/-! ## Converting (lines 78-248) -/

/-- What a call of `Converting` did: it returned a boolean, or it did not return. -/
inductive Outcome where
  | returned (b : Bool)
  | fault (f : Fault)
deriving DecidableEq, Repr

/-- The observable result of one call: the outcome, the static members afterwards
and the standard event afterwards. -/
structure Result where
  outcome : Outcome
  state : ConvState
  event : StandardEvent

/-- Lines 94-100: the loop reading the calibration formulas, as `n` remaining
iterations from index `i`. A failing `at` stops the loop with the members as they
are at that point. -/
def readCalibration (conf : Configuration) (rmin rmax : ℚ) :
    Nat → Nat → List String → List TF1 → List String × List TF1 × Option Fault
  | 0, _, strs, fns => (strs, fns, none)
  | n + 1, i, strs, fns =>
    match mapping[i]?, strs[i]? with
    | some xy, some s =>
      let name := "calibration_px" ++ toString xy.1 ++ toString xy.2
      let s1 := conf.GetString name s
      readCalibration conf rmin rmax n (i + 1) (strs.set i s1) (fns ++ [⟨name, s1, rmin, rmax⟩])
    | _, _ => (strs, fns, some .outOfRange)

/-- Lines 84-119: the body of `if (!m_configured)`. -/
def configure (st : ConvState) (conf : Configuration) : ConvState × Option Fault :=
  let blStart := conf.GetInt "blStart" st.m_blStart
  let blEnd := conf.GetInt "blEnd" st.m_blEnd
  let ampStart := conf.GetInt "ampStart" st.m_ampStart
  let ampEnd := conf.GetInt "ampEnd" st.m_ampEnd
  let rmin := conf.GetDouble "calib_range_min" st.m_calib_range_min
  let rmax := conf.GetDouble "calib_range_max" st.m_calib_range_max
  let fname := conf.GetString "waveform_filename" ""
  let r := readCalibration conf rmin rmax st.m_calib_strings.length 0 st.m_calib_strings []
  ({ st with
      m_blStart := blStart
      m_blEnd := blEnd
      m_ampStart := ampStart
      m_ampEnd := ampEnd
      m_calib_range_min := rmin
      m_calib_range_max := rmax
      m_waveform_filename := fname
      m_calib_strings := r.1
      m_calib_functions := r.2.1
      m_configured := if r.2.2.isNone then true else st.m_configured
      int_range := by
        refine ⟨?_, ?_, ?_, ?_⟩ <;>
          (simp only [IsInt32, Configuration.GetInt, toInt32, blStart, blEnd, ampStart, ampEnd]
           split <;> omega) }, r.2.2)

/-- Lines 134-135: `(uint32_t(datablock0.at(3)) << 8) | datablock0.at(2)`. -/
def burstLength (block : List Byte) : Except Fault Nat :=
  match block[3]?, block[2]? with
  | some b3, some b2 => .ok ((b3.val <<< 8) ||| b2.val)
  | _, _ => .error .outOfRange

/-- Line 138: `burst_length * 128 * 2 * 16 + 16`, computed in `uint32_t`. -/
def evtLength (burst_length : Nat) : Nat :=
  (burst_length * 128 * 2 * 16 + 16) % 2 ^ 32

/-- Lines 152-155 and 156-163: the little-endian 32-bit size field whose first byte
is at index `base + 4`, computed in `uint32_t`. -/
def sizeField (block : List Byte) (base : Nat) : Except Fault Nat :=
  match block[base + 7]?, block[base + 6]?, block[base + 5]?, block[base + 4]? with
  | some b7, some b6, some b5, some b4 =>
    .ok (((b7.val <<< 24) + (b6.val <<< 16) + (b5.val <<< 8) + (b4.val <<< 0)) % 2 ^ 32)
  | _, _, _, _ => .error .outOfRange

/-- The waveform table and the two timestamps produced by lines 148-170. -/
structure Decoded where
  waveforms : List (List Nat)
  timestamp0 : Nat
  timestamp1 : Nat
deriving DecidableEq

/-- Lines 148-170: sixteen empty waveforms, the two sub-block size fields, and the
two calls of `decodeChannel` (`header_offset = 8`). -/
def decodeBlock (env : Env) (block : List Byte) : Except Fault Decoded :=
  match sizeField block 0 with
  | .error f => .error f
  | .ok size_ADC0 =>
    match sizeField block (8 + size_ADC0) with
    | .error f => .error f
    | .ok size_ADC1 =>
      match decodeChannel env 0 block size_ADC0 8 (List.replicate 16 []) 0 with
      | .error f => .error f
      | .ok (wfs0, timestamp0) =>
        match decodeChannel env 1 block size_ADC1 (2 * 8 + size_ADC0) wfs0 0 with
        | .error f => .error f
        | .ok (wfs1, timestamp1) => .ok ⟨wfs1, timestamp0, timestamp1⟩

/-- The loop of `std::max_element`: `n` remaining elements from position `first`,
with `largest` the position of the largest element so far; a later element
replaces it only when strictly greater. -/
def maxElementLoop (wf : List Nat) : Nat → Nat → Nat → Except Fault Nat
  | 0, _, largest => .ok largest
  | n + 1, first, largest =>
    match wf[largest]?, wf[first]? with
    | some l, some f => maxElementLoop wf n (first + 1) (if l < f then first else largest)
    | _, _ => .error .undefined

/-- Lines 210-211: the position of
`std::max_element(wf.begin() + ampStart, wf.begin() + ampEnd)`. The iterator range
has to lie inside the vector; an empty range yields its end. -/
def maxElement (wf : List Nat) (ampStart ampEnd : Int) : Except Fault Nat :=
  if 0 ≤ ampStart ∧ ampStart ≤ ampEnd ∧ ampEnd ≤ wf.length then
    if ampStart = ampEnd then .ok ampEnd.toNat
    else maxElementLoop wf (ampEnd - ampStart - 1).toNat (ampStart.toNat + 1) ampStart.toNat
  else .error .undefined

/-- Lines 221-223: `for (int i = ...; i < ...; i++) baseline += waveforms[ch][i]`, as
`n` remaining iterations from index `i`. -/
def baselineLoop (wf : List Nat) : Nat → Nat → ℚ → Except Fault ℚ
  | 0, _, baseline => .ok baseline
  | n + 1, i, baseline =>
    match wf[i]? with
    | none => .error .undefined
    | some v => baselineLoop wf n (i + 1) (baseline + v)

/-- Lines 228-231: the two range tests applied in sequence. -/
def clipAmplitude (rmin rmax : ℚ) (amplitude : Double) : Double :=
  let a := if amplitude > (rmax : Double) then (rmax : Double) else amplitude
  if a < (rmin : Double) then 0 else a

/-- Lines 209-233 for one channel with waveform `wf`: `none` when the channel is
skipped (line 216), else the pixel handed to `PushPixel`. The guard of line 214 is
evaluated in the 64-bit type of `max_posizion`. The loop index `int i` of line 221
starts at `max_posizion - m_blStart` narrowed to 32 bits, `first`, and runs while it
is below `max_posizion - m_blEnd`, `last`; when the loop runs at all, a negative
`first` makes it read `waveforms[ch][i]` at a negative index, and a `last` above the
largest `int` makes `i++` overflow, both undefined. The sum of the samples is exact
in `double`; line 224 divides it by the `int` difference `m_blStart - m_blEnd`, whose
overflow is undefined and which may be zero. -/
def channelPixel (env : Env) (st : ConvState) (timestamp0 : Nat) (ch : Nat) (wf : List Nat) :
    Except Fault (Option Pixel) :=
  match maxElement wf st.m_ampStart st.m_ampEnd with
  | .error f => .error f
  | .ok max_posizion =>
    if (max_posizion : Int) - st.m_blStart < 0 then .ok none
    else
      let first := toInt32 ((max_posizion : Int) - st.m_blStart)
      let last := (max_posizion : Int) - st.m_blEnd
      if first < last ∧ (first < 0 ∨ 2 ^ 31 - 1 < last) then .error .undefined
      else
        match baselineLoop wf (last - first).toNat first.toNat 0 with
        | .error f => .error f
        | .ok sum =>
          if ¬ IsInt32 (st.m_blStart - st.m_blEnd) then .error .undefined
          else
          let baseline := Double.divInt sum (st.m_blStart - st.m_blEnd)
          match st.m_calib_functions[ch]?, wf[max_posizion]?, mapping[ch]? with
          | none, _, _ => .error .outOfRange
          | some _, none, _ => .error .undefined
          | some _, some _, none => .error .outOfRange
          | some fn, some peak, some xy =>
            let amplitude := env.tf1Eval fn (Double.subFrom (peak : ℚ) baseline)
            .ok (some ⟨xy.1, xy.2,
              clipAmplitude st.m_calib_range_min st.m_calib_range_max amplitude,
              timestamp0⟩)

/-- Lines 207-234: `for (size_t ch = 0; ch < waveforms.size(); ch++)`, as `n`
remaining iterations from channel `ch`. -/
def pixelLoop (env : Env) (st : ConvState) (timestamp0 : Nat) (waveforms : List (List Nat)) :
    Nat → Nat → StandardPlane → Except Fault StandardPlane
  | 0, _, plane => .ok plane
  | n + 1, ch, plane =>
    match waveforms[ch]? with
    | none => .error .undefined
    | some wf =>
      match channelPixel env st timestamp0 ch wf with
      | .error f => .error f
      | .ok none => pixelLoop env st timestamp0 waveforms n (ch + 1) plane
      | .ok (some px) =>
        pixelLoop env st timestamp0 waveforms n (ch + 1) (plane.PushPixel px.x px.y px.value px.time)

/-- Lines 189-197: the lines written to the dump file, as `n` remaining iterations
from channel `ch`. -/
def dumpLoop (trig : Nat) (waveforms : List (List Nat)) :
    Nat → Nat → List DumpLine → Except Fault (List DumpLine)
  | 0, _, out => .ok out
  | n + 1, ch, out =>
    match mapping[ch]?, waveforms[ch]? with
    | some xy, some wf => dumpLoop trig waveforms n (ch + 1) (out ++ [⟨trig, ch, xy.1, xy.2, wf⟩])
    | _, _ => .error .outOfRange

/-- Conversion of a `uint64_t` to `int64_t` (line 174). -/
def toInt64 (n : Nat) : Int :=
  if n % 2 ^ 64 < 2 ^ 63 then ((n % 2 ^ 64 : Nat) : Int) else ((n % 2 ^ 64 : Nat) : Int) - 2 ^ 64

/-- Lines 239-240: `timestamp0 - m_runStartTime` in `uint64_t`. -/
def relTime (timestamp0 : Nat) (runStart : Int) : Nat :=
  (((timestamp0 : Int) - runStart) % 2 ^ 64).toNat

/-- Lines 178-179: the empty output plane. -/
def emptyPlane : StandardPlane :=
  { id := 0, type := "Caribou", sensor := "AD9249", xsize := 4, ysize := 4, pixels := [] }

/-- Lines 172-175: the run start is stored while `trig_ ≤ 1`. -/
def afterRunStart (st1 : ConvState) (timestamp0 : Nat) : ConvState :=
  if st1.trig_ ≤ 1 then { st1 with m_runStartTime := toInt64 timestamp0 } else st1

/-- `AD9249Event2StdEventConverter::Converting` (lines 78-248) on the data block 0
of the raw event, the standard event `d2` and the configuration `conf`, from the
static members `st`. -/
def Converting (env : Env) (st : ConvState) (block : List Byte) (d2 : StandardEvent)
    (conf : Configuration) : Result :=
  let cfg := if st.m_configured then (st, none) else configure st conf
  let st1 := cfg.1
  match cfg.2 with
  | some f => ⟨.fault f, st1, d2⟩
  | none =>
    match burstLength block with
    | .error f => ⟨.fault f, st1, d2⟩
    | .ok burst_length =>
      if block.length < evtLength burst_length then ⟨.returned false, st1, d2⟩
      else
        match decodeBlock env block with
        | .error f => ⟨.fault f, st1, d2⟩
        | .ok dec =>
          let st2 := afterRunStart st1 dec.timestamp0
          if st2.m_waveform_filename ≠ "" then
            match dumpLoop st2.trig_ dec.waveforms dec.waveforms.length 0 [] with
            | .error f => ⟨.fault f, st2, d2⟩
            | .ok lines =>
              ⟨.returned false,
               { st2 with
                   m_outfile_waveforms := st2.m_outfile_waveforms ++ lines
                   trig_ := (st2.trig_ + 1) % 2 ^ 64 },
               d2⟩
          else
            match pixelLoop env st2 dec.timestamp0 dec.waveforms dec.waveforms.length 0
                    emptyPlane with
            | .error f => ⟨.fault f, st2, d2⟩
            | .ok plane =>
              ⟨.returned true,
               { st2 with trig_ := (st2.trig_ + 1) % 2 ^ 64 },
               { planes := d2.planes ++ [plane]
                 timeBegin := relTime dec.timestamp0 st2.m_runStartTime
                 timeEnd := relTime dec.timestamp0 st2.m_runStartTime
                 triggerN := st2.trig_
                 detectorType := "AD9249" }⟩

/-! ## Notions used in the statements -/

/-- The 14-bit sample stored for the byte pair at byte index `i` of `data`. -/
def sampleAt (data : List Byte) (i : Nat) : Nat :=
  sampleValue (data.getD i 0) (data.getD (i + 1) 0)

/-- The size invariant of the static members: sixteen formula strings and sixteen
calibration functions. -/
def ConvState.Sized (st : ConvState) : Prop :=
  st.m_calib_strings.length = 16 ∧ st.m_calib_functions.length = 16

/-- The static members after the configuration stage of a call (lines 83-120). -/
def afterConfigure (st : ConvState) (conf : Configuration) : ConvState :=
  if st.m_configured then st else (configure st conf).1

/-- The burst length announced by bytes 2 and 3 of a block (little-endian), zero
when the block has no such bytes. -/
def headerBurst (block : List Byte) : Nat :=
  (block.getD 2 0).val + 256 * (block.getD 3 0).val

/-- A block is well formed for `Converting` when it is at least as long as the
expected event length and both sub-block size fields hold
`burstLength * 128 * 2 * 8`. -/
def WellFormedBlock (block : List Byte) : Prop :=
  headerBurst block * 128 * 2 * 16 + 16 ≤ block.length
  ∧ sizeField block 0 = .ok (headerBurst block * 128 * 2 * 8)
  ∧ sizeField block (8 + headerBurst block * 128 * 2 * 8) = .ok (headerBurst block * 128 * 2 * 8)

/-- The samples at indices `[lo, lo + n)` of a waveform. -/
def window (wf : List Nat) (lo n : Nat) : List Nat :=
  (wf.drop lo).take n

/-- The largest position the peak search of line 210 can return: the last position
of the amplitude window, or `ampEnd` itself when the window is empty. -/
def peakBound (st : ConvState) : Int :=
  if st.m_ampStart < st.m_ampEnd then st.m_ampEnd - 1 else st.m_ampEnd

/-- The amplitude window `[ampStart, ampEnd)` is inside a waveform of `len` samples,
and every access of lines 210-227 is defined whatever the samples are: either no
peak position passes the guard of line 214 (`peakBound < blStart`, every channel is
skipped), or the largest possible peak position is a position of the waveform (line
227 reads the sample there), the start of the baseline loop, at most
`peakBound - blStart`, is below `2 ^ 31` (narrowing it to `int` keeps its value),
the `int` difference `blStart - blEnd` of line 224 does not overflow, and the loop
is empty (`blStart ≤ blEnd`) or its last index, at most `peakBound - blEnd - 1`, is
below `len`. -/
def WindowsInside (st : ConvState) (len : Nat) : Prop :=
  0 ≤ st.m_ampStart ∧ st.m_ampStart ≤ st.m_ampEnd ∧ st.m_ampEnd ≤ len
  ∧ (peakBound st < st.m_blStart
    ∨ (peakBound st < len
      ∧ peakBound st - st.m_blStart < 2 ^ 31
      ∧ -2 ^ 31 ≤ st.m_blStart - st.m_blEnd
      ∧ (st.m_blStart ≤ st.m_blEnd ∨ peakBound st - st.m_blEnd ≤ len)))

/-- The pixel contributed by channel `ch` of a waveform table: the result of
`channelPixel` on that channel's own waveform (no pixel when it is skipped). -/
def pixelOf (env : Env) (st : ConvState) (ts : Nat) (wfs : List (List Nat)) (ch : Nat) :
    Option Pixel :=
  match channelPixel env st ts ch (wfs.getD ch []) with
  | .ok r => r
  | .error _ => none

/-- The raw timestamp accumulated by the loop of `decodeChannel` from 0, before the
rescaling of line 75. -/
def rawTimestamp (adc : Nat) (data : List Byte) (size offset : Nat) : Option Nat :=
  match decodeChannelRaw adc data size offset (List.replicate 16 []) 0 with
  | .ok s => some s.timestamp
  | .error _ => none

/-- The status field of sample `j` of the sub-block at byte `offset`. -/
def statusAt (data : List Byte) (offset j : Nat) : Nat :=
  sampleStatus (data.getD (offset + 2 * j + 1) 0)

/-- The timestamp variables `(timestamp, ts_i)` after the loop iterations of
`decodeChannel` for the samples `js`, in order. -/
def timestampFold (adc : Nat) (data : List Byte) (offset : Nat) (js : List Nat)
    (tsv : Nat × Nat) : Nat × Nat :=
  js.foldl (fun acc j => timestampStep adc (adc * 8 + j % 8) (statusAt data offset j) acc) tsv

/-- The contribution of the seven non-status channels of row `r` when the index at
the start of the row is `sh`: the sum of `f_c * 4 ^ (sh + c)`. -/
def rowSum (data : List Byte) (offset r sh : Nat) : Nat :=
  ((List.range 7).map (fun c => statusAt data offset (8 * r + c) * 4 ^ (sh + c))).sum

/-- The sum of the contributions of rows `0 .. s - 1`, each added from index 0. -/
def noiseSum (data : List Byte) (offset s : Nat) : Nat :=
  ((List.range s).map (fun r => rowSum data offset r 0)).sum

/-- The sum of the 28 fields of rows `s .. s + 3`, added at indices `0 .. 27`. -/
def markerSum (data : List Byte) (offset s : Nat) : Nat :=
  rowSum data offset s 0 + rowSum data offset (s + 1) 7 + rowSum data offset (s + 2) 14
    + rowSum data offset (s + 3) 21

/-- The status fields of a sub-block, one list of eight per row of eight samples. -/
def statusRows (data : List Byte) (size offset : Nat) : List (List Nat) :=
  (List.range (size / 16)).map fun r =>
    (List.range 8).map fun c => statusAt data offset (8 * r + c)

/-- A start-marker row: the status of channel 7 has its lowest bit set. -/
def isStartRow (row : List Nat) : Bool :=
  (row.getD 7 0) % 2 = 1

/-- The raw timestamp as the specification describes it: with `s` the first
start-marker row, followed by at least three more rows, the fields `f_0 .. f_27` are
the status fields of the seven non-status channels of rows `s .. s + 3` in stream
order (`f_k` is field `k % 7` of row `s + k / 7`), and the value is the sum of
`f_k * 4 ^ k`. -/
def claimedRawTimestamp (rows : List (List Nat)) : Option Nat :=
  match rows.findIdx? isStartRow with
  | none => none
  | some s =>
    if s + 3 < rows.length then
      some (((List.range 28).map
        (fun k => (rows.getD (s + k / 7) []).getD (k % 7) 0 * 4 ^ k)).sum)
    else none

/-! ## Decidability of the predicates of the statements -/

deriving instance DecidableEq for Except

instance (st : ConvState) : Decidable st.Sized :=
  inferInstanceAs (Decidable (_ ∧ _))

instance (st : ConvState) (len : Nat) : Decidable (WindowsInside st len) :=
  inferInstanceAs (Decidable (_ ∧ _ ∧ _ ∧ (_ ∨ (_ ∧ _ ∧ _ ∧ (_ ∨ _)))))

instance (block : List Byte) : Decidable (WellFormedBlock block) :=
  inferInstanceAs (Decidable (_ ∧ _ ∧ _))

/-! ## Concrete inputs used in the examples -/

/-- The environment of the examples: exact rescaling by `1e6 / 65` and every
calibration function the identity. -/
def identityEnv : Env :=
  { rescale := fun t => t * 1000000 / 65, tf1Eval := fun _ x => x }

/-- A fresh standard event. -/
def emptyEvent : StandardEvent :=
  { planes := [], timeBegin := 0, timeEnd := 0, triggerN := 0, detectorType := "" }

/-- A configuration with no key set: every `Get` returns the default. -/
def emptyConfiguration : Configuration :=
  { intValue := fun _ => none, doubleValue := fun _ => none, stringValue := fun _ => none }

/-- A configuration that sets only `waveform_filename`. -/
def dumpConfiguration : Configuration :=
  { intValue := fun _ => none
    doubleValue := fun _ => none
    stringValue := fun key => if key = "waveform_filename" then some "waveforms.txt" else none }

/-- A configuration whose windows lie inside a waveform of 128 samples. -/
def insideConfiguration : Configuration :=
  { intValue := fun key =>
      if key = "ampStart" then some 20
      else if key = "ampEnd" then some 100
      else if key = "blStart" then some 10
      else if key = "blEnd" then some 5
      else none
    doubleValue := fun _ => none
    stringValue := fun _ => none }

/-- A state for the examples: the initial members with the amplitude window
`[3, 6)` and the baseline window given by `blStart = 3`, `blEnd = 1`. -/
def shortWindowState : ConvState :=
  { initialState with
      m_ampStart := 3, m_ampEnd := 6, m_blStart := 3, m_blEnd := 1, int_range := by decide }

/-- The members of the examples with a guard that skips peaks before index 5. -/
def skipState : ConvState :=
  { initialState with
      m_ampStart := 3, m_ampEnd := 6, m_blStart := 5, m_blEnd := 1, int_range := by decide }

/-- The initial members with the amplitude window `[3, 6)` and
`blStart = blEnd = 2`: the divisor of line 224 is zero. -/
def equalBaselineState : ConvState :=
  { initialState with
      m_ampStart := 3, m_ampEnd := 6, m_blStart := 2, m_blEnd := 2, int_range := by decide }

/-- Sixteen waveforms of six samples: channel 0 peaks at index 3, the others at
index 5. -/
def skipTable : List (List Nat) :=
  [0, 0, 0, 9, 0, 0] :: List.replicate 15 [1, 1, 1, 1, 1, 7]

/-- A block with burst length 1: the header, the size field 2048 and the samples
of ADC half 0, then the second header, the size field 2048 and the samples of ADC
half 1. -/
def burstOneBlock (samples0 samples1 : List Byte) : List Byte :=
  [0, 0, 1, 0, 0, 8, 0, 0] ++ samples0 ++ [0, 0, 0, 0, 0, 8, 0, 0] ++ samples1

/-- The block with burst length 1 whose samples are all zero. -/
def zeroBlock : List Byte :=
  burstOneBlock (List.replicate 2048 0) (List.replicate 2048 0)

/-- One row of eight samples (sixteen bytes), sample `c` holding the value `c + 1`. -/
def demoRow : List Byte :=
  [1, 0, 2, 0, 3, 0, 4, 0, 5, 0, 6, 0, 7, 0, 8, 0]

/-- A sub-block of five rows. Row 0 is not a start marker (the status of its
channel 7 is 0) and its channel 0 carries the status field 1; row 1 is a start
marker (the status of its channel 7 is 1); all other status fields and all sample
values are zero. -/
def noiseThenMarker : List Byte :=
  [0, 64, 0, 0, 0, 0, 0, 0, 0, 0, 0, 0, 0, 0, 0, 0,
   0, 0, 0, 0, 0, 0, 0, 0, 0, 0, 0, 0, 0, 0, 0, 64,
   0, 0, 0, 0, 0, 0, 0, 0, 0, 0, 0, 0, 0, 0, 0, 0,
   0, 0, 0, 0, 0, 0, 0, 0, 0, 0, 0, 0, 0, 0, 0, 0,
   0, 0, 0, 0, 0, 0, 0, 0, 0, 0, 0, 0, 0, 0, 0, 0]

/-- Position `p` is the first maximum of `wf` over the indices `[a, b)`. -/
def IsFirstMax (wf : List Nat) (a b p : Nat) : Prop :=
  a ≤ p ∧ p < b
  ∧ (∀ j, a ≤ j → j < b → wf.getD j 0 ≤ wf.getD p 0)
  ∧ (∀ j, a ≤ j → j < p → wf.getD j 0 < wf.getD p 0)

/-- Lines 95-96: the configuration key of the calibration formula of the pixel
`(x, y)`. -/
def calibrationKey (xy : Int × Int) : String :=
  "calibration_px" ++ toString xy.1 ++ toString xy.2

/-- The static members and the standard event after a successful conversion
(lines 236-247). -/
def successResult (st1 : ConvState) (dec : Decoded) (plane : StandardPlane) (d2 : StandardEvent) :
    Result :=
  ⟨.returned true,
   { afterRunStart st1 dec.timestamp0 with trig_ := (st1.trig_ + 1) % 2 ^ 64 },
   { planes := d2.planes ++ [plane]
     timeBegin := relTime dec.timestamp0 (afterRunStart st1 dec.timestamp0).m_runStartTime
     timeEnd := relTime dec.timestamp0 (afterRunStart st1 dec.timestamp0).m_runStartTime
     triggerN := st1.trig_
     detectorType := "AD9249" }⟩

/-- Lines 221-223: the indices `i` at which the loop evaluates `waveforms[ch][i]`, as
`n` remaining iterations from index `i`. -/
def baselineReads : Nat → Nat → List Nat
  | 0, _ => []
  | n + 1, i => i :: baselineReads n (i + 1)

/-- The coordinates of a pixel. -/
def Pixel.coords (px : Pixel) : Int × Int := (px.x, px.y)

/-- The static members and the standard event after a call in dump mode (lines
183-202). -/
def dumpResult (st1 : ConvState) (dec : Decoded) (lines : List DumpLine) (d2 : StandardEvent) :
    Result :=
  ⟨.returned false,
   { afterRunStart st1 dec.timestamp0 with
       m_outfile_waveforms := (afterRunStart st1 dec.timestamp0).m_outfile_waveforms ++ lines
       trig_ := (st1.trig_ + 1) % 2 ^ 64 },
   d2⟩

/-- The arguments of one call of `Converting`: data block 0 of the raw event, the
standard event handed in, and the configuration object. -/
structure Call where
  block : List Byte
  event : StandardEvent
  conf : Configuration

/-- The result of a call from the static members `st`. -/
def Call.run (env : Env) (st : ConvState) (c : Call) : Result :=
  Converting env st c.block c.event c.conf

/-- The static members after a sequence of calls, each call starting from the
members the previous one left. -/
def stateAfter (env : Env) : ConvState → List Call → ConvState
  | st, [] => st
  | st, c :: cs => stateAfter env (c.run env st).state cs

/-- The results of a sequence of calls, in order. -/
def results (env : Env) : ConvState → List Call → List Result
  | _, [] => []
  | st, c :: cs => c.run env st :: results env (c.run env st).state cs

/-- The values read from the configuration at lines 84-100: the four window
bounds, the calibration range, the dump file name, the formula strings and the
calibration functions built from them. -/
structure ConfigurationCache where
  blStart : Int
  blEnd : Int
  ampStart : Int
  ampEnd : Int
  calib_range_min : ℚ
  calib_range_max : ℚ
  waveform_filename : String
  calib_strings : List String
  calib_functions : List TF1
deriving DecidableEq

/-- The cached configuration held by the static members. -/
def ConvState.cache (st : ConvState) : ConfigurationCache :=
  { blStart := st.m_blStart
    blEnd := st.m_blEnd
    ampStart := st.m_ampStart
    ampEnd := st.m_ampEnd
    calib_range_min := st.m_calib_range_min
    calib_range_max := st.m_calib_range_max
    waveform_filename := st.m_waveform_filename
    calib_strings := st.m_calib_strings
    calib_functions := st.m_calib_functions }

/-- The rescaled timestamp of ADC half 0 of a block whose call reaches line 173:
the header is readable, the block is long enough and both halves decode. -/
def eventTimestamp (env : Env) (block : List Byte) : Option Nat :=
  match burstLength block with
  | .error _ => none
  | .ok burst_length =>
    if block.length < evtLength burst_length then none
    else
      match decodeBlock env block with
      | .error _ => none
      | .ok dec => some dec.timestamp0

/-- The run start described by the specification, from the timestamps of the events
processed so far, oldest first: the timestamp of the most recent event processed
while the trigger counter was at most 1, that is the second one when there are two,
else the first; the initial value -1 of line 18 when there is none. -/
def runStartOf : List Nat → Int
  | [] => -1
  | [t0] => toInt64 t0
  | _ :: t1 :: _ => toInt64 t1

/-- The difference `a - b` reduced modulo `2 ^ 64`. -/
def subMod64 (a b : Nat) : Nat :=
  (((a : Int) - (b : Int)) % 2 ^ 64).toNat


/-- The call of the examples: the all-zero block of burst length 1, a fresh
standard event, and the configuration with the windows inside 128 samples. -/
def zeroCall : Call :=
  { block := zeroBlock, event := emptyEvent, conf := insideConfiguration }

/-- A block of 16 bytes: burst length 0 (expected event length 16), and the size
field of ADC half 0 announcing 16 bytes of samples. -/
def oversizedBlock : List Byte :=
  [0, 0, 0, 0, 16, 0, 0, 0, 0, 0, 0, 0, 0, 0, 0, 0]

/-- The number of value and sign bits of the type an operand of integer type with
`digits` value bits has after integer promotion, with `int` of 32 bits: a shift by
at least this many bits is undefined. -/
def promotedWidth (digits : Nat) (is_signed : Bool) : Nat :=
  max (digits + (if is_signed then 1 else 0)) 32

/-- Lines 36-38 of the header: `while(--length >= 0) stream << ((data >> length) & 1)`,
for `length = n` before the first decrement; `width` is the width of the promoted
type of `data`. -/
def bitLoop (data width : Nat) : Nat → String → Except Fault String
  | 0, stream => .ok stream
  | n + 1, stream =>
    if width ≤ n then .error .undefined
    else bitLoop data width n (stream ++ toString ((data >>> n) &&& 1))

/-- `eudaq::to_bit_string` (lines 23-40 of the header) for a type `T` with
`std::numeric_limits<T>::digits = digits` and
`std::numeric_limits<T>::is_signed = is_signed`, on a non-negative value `data`. -/
def to_bit_string (digits : Nat) (is_signed : Bool) (data : Nat) (length : Int)
    ( baseprefix : Bool) : Except Fault String :=
  let length1 : Int :=
    if length < 0 then (if is_signed then (digits : Int) + 1 else (digits : Int)) else length
  let stream : String := if baseprefix then "0b" else ""
  bitLoop data (promotedWidth digits is_signed) length1.toNat stream

/-- The character of bit `k` of `data`. -/
def bitChar (data k : Nat) : Char :=
  if data / 2 ^ k % 2 = 1 then '1' else '0'

/-- The characters of the `n` lowest bits of `data`, most significant first. -/
def bitsMSB (data : Nat) : Nat → List Char
  | 0 => []
  | n + 1 => bitChar data n :: bitsMSB data n

/-- The value of a string of binary digits read as a binary numeral, most
significant digit first. -/
def binaryValue (cs : List Char) : Nat :=
  cs.foldl (fun acc c => 2 * acc + (if c = '1' then 1 else 0)) 0

/-- Sample `k` of channel `ch` in a well-formed block: the samples of ADC half 0
start at byte 8, those of ADC half 1 at byte `2 * 8 + burstLength * 128 * 2 * 8`, and
sample `k` of channel `ch` is the sample number `8 * k + ch % 8` of its half. -/
def blockSample (block : List Byte) (ch k : Nat) : Nat :=
  sampleAt block ((if ch < 8 then 8 else 2 * 8 + headerBurst block * 128 * 2 * 8)
    + 2 * (8 * k + ch % 8))

/-- The pixel that channel `ch` contributes in the single-spike scenario (channel `c`
holds the only non-zero sample, of value `s`): the spike channel gives amplitude `s`;
a flat channel has its peak at `ampStart`, so it is skipped when
`ampStart < blStart` and gives amplitude 0 otherwise. -/
def spikePixel (st : ConvState) (c s ts ch : Nat) : Option Pixel :=
  if ch = c then some ⟨(mapping.getD ch (0, 0)).1, (mapping.getD ch (0, 0)).2, (s : ℚ), ts⟩
  else if st.m_ampStart < st.m_blStart then none
  else some ⟨(mapping.getD ch (0, 0)).1, (mapping.getD ch (0, 0)).2, 0, ts⟩

/-- The samples of ADC half 0 of the example: 2048 bytes, all zero except the byte
pair of sample 100 of channel 3 (bytes 1606 and 1607), which holds 1000. -/
def spikeSamples : List Byte :=
  List.replicate 1606 0 ++ [232, 3] ++ List.replicate 440 0

/-- The block of the example: burst length 1, every sample zero except sample 100 of
channel 3, which is 1000. -/
def spikeBlock : List Byte :=
  burstOneBlock spikeSamples (List.replicate 2048 0)

/-- The configuration of the example: amplitude window `[70, 120)`, `blStart = 50`,
`blEnd = 25`, so that a peak at index 100 has the baseline window `[50, 75)`. -/
def spikeConfiguration : Configuration :=
  { intValue := fun key =>
      if key = "ampStart" then some 70
      else if key = "ampEnd" then some 120
      else if key = "blStart" then some 50
      else if key = "blEnd" then some 25
      else none
    doubleValue := fun _ => none
    stringValue := fun _ => none }

/-- A configuration whose amplitude window is the empty window at the end of a
waveform of 128 samples. -/
def endWindowConfiguration : Configuration :=
  { intValue := fun key =>
      if key = "ampStart" then some 128
      else if key = "ampEnd" then some 128
      else if key = "blStart" then some 10
      else if key = "blEnd" then some 5
      else none
    doubleValue := fun _ => none
    stringValue := fun _ => none }

/-- A configuration whose `blStart` is so far below zero that the start of the
baseline loop does not fit an `int`. -/
def wrappingConfiguration : Configuration :=
  { intValue := fun key =>
      if key = "ampStart" then some 20
      else if key = "ampEnd" then some 100
      else if key = "blStart" then some (-2147483647)
      else if key = "blEnd" then some 0
      else none
    doubleValue := fun _ => none
    stringValue := fun _ => none }

/-- A configuration whose difference `blStart - blEnd` does not fit an `int`. -/
def divisorConfiguration : Configuration :=
  { intValue := fun key =>
      if key = "ampStart" then some 20
      else if key = "ampEnd" then some 100
      else if key = "blStart" then some (-1073741825)
      else if key = "blEnd" then some 1073741824
      else none
    doubleValue := fun _ => none
    stringValue := fun _ => none }

/-! # Theorems -/

/-! ## Sample decoding -/

theorem and_0x3F (x : Nat) : x &&& 0x3F = x % 64 := by
  have h := Nat.and_pow_two_sub_one_eq_mod x 6
  simpa using h

theorem sampleValue_eq (lo hi : Byte) : sampleValue lo hi = lo.val + 256 * (hi.val % 64) := by
  have hlo := lo.isLt
  have hhi := hi.isLt
  unfold sampleValue
  rw [and_0x3F, Nat.shiftLeft_eq]
  omega

theorem sampleStatus_eq (hi : Byte) : sampleStatus hi = hi.val / 64 := by
  unfold sampleStatus
  simp [Nat.shiftRight_eq_div_pow]

/-- C4. The stored sample is `lo + 256 * (hi mod 64)`, which is the little-endian
16-bit word masked with `0x3FFF` and is below 16384; the status field is `hi >> 6`,
which is the word shifted right by 14 and is at most 3; the word is recovered as
`value + 16384 * status`, so value and status determine it. -/
theorem sample_value_and_status (lo hi : Byte) :
    sampleValue lo hi = lo.val + 256 * (hi.val % 64)
    ∧ sampleValue lo hi = sampleWord lo hi &&& 0x3FFF
    ∧ sampleValue lo hi < 16384
    ∧ sampleStatus hi = hi.val >>> 6
    ∧ sampleStatus hi = sampleWord lo hi >>> 14
    ∧ sampleStatus hi ≤ 3
    ∧ sampleWord lo hi = sampleValue lo hi + 16384 * sampleStatus hi := by
  have hlo := lo.isLt
  have hhi := hi.isLt
  have hmask : sampleWord lo hi &&& 0x3FFF = sampleWord lo hi % 16384 := by
    have h := Nat.and_pow_two_sub_one_eq_mod (sampleWord lo hi) 14
    simpa using h
  have hshift : sampleWord lo hi >>> 14 = sampleWord lo hi / 16384 := by
    simp [Nat.shiftRight_eq_div_pow]
  rw [hmask, hshift, sampleValue_eq, sampleStatus_eq]
  unfold sampleWord
  refine ⟨rfl, ?_, ?_, ?_, ?_, ?_, ?_⟩
  · omega
  · omega
  · simp [sampleStatus, Nat.shiftRight_eq_div_pow]
  · omega
  · omega
  · omega

/-! ## Clipping -/

theorem Double.num_lt_num (x y : ℚ) : (Double.num x < Double.num y) ↔ x < y := Iff.rfl

theorem clipAmplitude_num (rmin rmax v : ℚ) :
    clipAmplitude rmin rmax (Double.num v)
      = Double.num (if (if v > rmax then rmax else v) < rmin then 0
          else (if v > rmax then rmax else v)) := by
  unfold clipAmplitude
  by_cases h1 : v > rmax
  · have h1d : Double.num v > Double.num rmax := h1
    simp only [h1, h1d, if_true]
    by_cases h2 : rmax < rmin
    · have h2d : Double.num rmax < Double.num rmin := h2
      simp only [h2, h2d, if_true]
      rfl
    · have h2d : ¬ Double.num rmax < Double.num rmin := h2
      simp only [h2, h2d, if_false]
  · have h1d : ¬ Double.num v > Double.num rmax := h1
    simp only [h1, h1d, if_false]
    by_cases h2 : v < rmin
    · have h2d : Double.num v < Double.num rmin := h2
      simp only [h2, h2d, if_true]
      rfl
    · have h2d : ¬ Double.num v < Double.num rmin := h2
      simp only [h2, h2d, if_false]

theorem clipAmplitude_nonfinite (rmin rmax : ℚ) :
    clipAmplitude rmin rmax Double.nan = Double.nan
    ∧ clipAmplitude rmin rmax Double.posInf
        = (if rmax < rmin then (0 : Double) else Double.num rmax)
    ∧ clipAmplitude rmin rmax Double.negInf = 0 := by
  refine ⟨rfl, ?_, rfl⟩
  unfold clipAmplitude
  have h1 : Double.posInf > Double.num rmax := True.intro
  simp only [h1, if_true]
  by_cases h2 : rmax < rmin
  · have h2d : Double.num rmax < Double.num rmin := h2
    simp only [h2, h2d, if_true]
  · have h2d : ¬ Double.num rmax < Double.num rmin := h2
    simp only [h2, h2d, if_false]

/-- C8. With `calib_range_min ≤ calib_range_max`, the emitted amplitude is the
maximum when the calibrated value exceeds it, zero when the value is below the
minimum, and the value itself otherwise; this holds for a finite value `v` and for
every `double` value `w`, the infinities and NaN included (NaN passes both tests
and is emitted itself). -/
theorem clipAmplitude_cases (rmin rmax v : ℚ) (hrange : rmin ≤ rmax) :
    (clipAmplitude rmin rmax v =
      if v > rmax then rmax else if v < rmin then 0 else v)
    ∧ ∀ w : Double, clipAmplitude rmin rmax w =
        if w > (rmax : Double) then (rmax : Double)
        else if w < (rmin : Double) then 0 else w := by
  have hnum : ∀ u : ℚ, clipAmplitude rmin rmax (Double.num u)
      = Double.num (if u > rmax then rmax else if u < rmin then 0 else u) := by
    intro u
    rw [clipAmplitude_num]
    by_cases h1 : u > rmax
    · simp only [h1, if_true]
      rw [if_neg (not_lt.mpr hrange)]
    · simp only [h1, if_false]
  refine ⟨hnum v, ?_⟩
  intro w
  cases w with
  | num u =>
    rw [hnum u]
    by_cases h1 : u > rmax
    · have h1d : Double.num u > Double.num rmax := h1
      simp only [h1, h1d, if_true]
    · have h1d : ¬ Double.num u > Double.num rmax := h1
      by_cases h2 : u < rmin
      · have h2d : Double.num u < Double.num rmin := h2
        simp only [h1, h1d, h2, h2d, if_true, if_false]
        rfl
      · have h2d : ¬ Double.num u < Double.num rmin := h2
        simp only [h1, h1d, h2, h2d, if_false]
  | posInf =>
    rw [(clipAmplitude_nonfinite rmin rmax).2.1, if_neg (not_lt.mpr hrange)]
    rfl
  | negInf => rfl
  | nan => rfl

/-- The range `(0, 16384)` and the value 20000. -/
theorem clipAmplitude_cases_witness :
    ((0 : ℚ) ≤ 16384) ∧
      clipAmplitude 0 16384 20000 =
        if (20000 : ℚ) > 16384 then 16384 else if (20000 : ℚ) < 0 then 0 else 20000 :=
  ⟨by norm_num, (clipAmplitude_cases 0 16384 20000 (by norm_num)).1⟩

/-- C9, as stated, fails: with the range `(5, 10)` the value 3 is emitted as 0, not
as `min 3 10 = 3`; with the range `(-5, 10)` the value -3 is emitted as -3, below
zero; and with the default range `(0, 16384)` a NaN value is emitted as NaN, which
is neither `min v max` nor 0. NaN is a value the conversion produces: with
`blStart = blEnd` the baseline of line 224 is `0. / 0`, and under the identity
calibration the pixel of channel 0 holds NaN. -/
theorem clipAmplitude_not_zero_floor :
    clipAmplitude 5 10 ((3 : ℚ) : Double) = ((0 : ℚ) : Double)
    ∧ clipAmplitude 5 10 ((3 : ℚ) : Double)
        ≠ ((if (0 : ℚ) ≤ 3 then min 3 10 else 0 : ℚ) : Double)
    ∧ clipAmplitude (-5) 10 ((-3 : ℚ) : Double) = ((-3 : ℚ) : Double)
    ∧ clipAmplitude (-5) 10 ((-3 : ℚ) : Double) < 0
    ∧ clipAmplitude 0 16384 Double.nan = Double.nan
    ∧ equalBaselineState.m_calib_range_min = 0
    ∧ equalBaselineState.m_calib_range_max = 16384
    ∧ equalBaselineState.m_blStart = equalBaselineState.m_blEnd
    ∧ channelPixel identityEnv equalBaselineState 7 0 [5, 5, 5, 5, 9, 1]
        = .ok (some ⟨1, 2, Double.nan, 7⟩) := by
  have e1 : clipAmplitude 5 10 ((3 : ℚ) : Double) = Double.num 0 := by
    show clipAmplitude 5 10 (Double.num 3) = Double.num 0
    rw [clipAmplitude_num]
    norm_num
  have e2 : clipAmplitude (-5) 10 ((-3 : ℚ) : Double) = Double.num (-3) := by
    show clipAmplitude (-5) 10 (Double.num (-3)) = Double.num (-3)
    rw [clipAmplitude_num]
    norm_num
  refine ⟨e1, ?_, e2, ?_, rfl, rfl, rfl, rfl, ?_⟩
  · rw [e1]
    intro h
    have h2 : (0 : ℚ) = (if (0 : ℚ) ≤ 3 then min 3 10 else 0) := Double.num.inj h
    norm_num at h2
  · rw [e2]
    show Double.num (-3) < Double.num 0
    rw [Double.num_lt_num]
    norm_num
  · decide

/-- C9, amended. When the configured minimum is zero and the maximum is not
negative (the defaults are 0 and 16384): for a finite calibrated value `v` the
emitted amplitude is `min v max` when `v ≥ 0` and 0 otherwise; `+∞` is emitted as
the maximum and `-∞` as 0; so for every calibrated value other than NaN the emitted
amplitude is a finite number between zero and the maximum. NaN is emitted as NaN. -/
theorem clipAmplitude_zero_min (rmax : ℚ) (hmax : 0 ≤ rmax) :
    (∀ v : ℚ, clipAmplitude 0 rmax v = ((if 0 ≤ v then min v rmax else 0 : ℚ) : Double))
    ∧ clipAmplitude 0 rmax Double.posInf = rmax
    ∧ clipAmplitude 0 rmax Double.negInf = ((0 : ℚ) : Double)
    ∧ clipAmplitude 0 rmax Double.nan = Double.nan
    ∧ (∀ w : Double, w ≠ Double.nan →
        ∃ q : ℚ, clipAmplitude 0 rmax w = q ∧ 0 ≤ q ∧ q ≤ rmax) := by
  have key : ∀ v : ℚ, clipAmplitude 0 rmax (Double.num v)
      = Double.num (if 0 ≤ v then min v rmax else 0) := by
    intro v
    rw [clipAmplitude_num]
    congr 1
    by_cases h1 : v > rmax
    · have h0 : 0 ≤ v := le_trans hmax (le_of_lt h1)
      rw [if_pos h1, if_neg (not_lt.mpr hmax), if_pos h0, min_eq_right (le_of_lt h1)]
    · have hle : v ≤ rmax := not_lt.mp h1
      rw [if_neg h1]
      by_cases h2 : v < 0
      · rw [if_pos h2, if_neg (not_le.mpr h2)]
      · rw [if_neg h2, if_pos (not_lt.mp h2), min_eq_left hle]
  have hinf : clipAmplitude 0 rmax Double.posInf = Double.num rmax := by
    rw [(clipAmplitude_nonfinite 0 rmax).2.1, if_neg (not_lt.mpr hmax)]
  refine ⟨key, hinf, rfl, rfl, ?_⟩
  intro w hw
  cases w with
  | num v =>
    refine ⟨_, key v, ?_, ?_⟩
    · by_cases h0 : 0 ≤ v
      · rw [if_pos h0]
        exact le_min h0 hmax
      · rw [if_neg h0]
    · by_cases h0 : 0 ≤ v
      · rw [if_pos h0]
        exact min_le_right _ _
      · rw [if_neg h0]
        exact hmax
  | posInf => exact ⟨rmax, hinf, hmax, le_refl _⟩
  | negInf => exact ⟨0, rfl, le_refl _, hmax⟩
  | nan => exact absurd rfl hw

/-- The default maximum 16384: the value 20000 is emitted as 16384. -/
theorem clipAmplitude_zero_min_witness :
    ((0 : ℚ) ≤ 16384) ∧
      clipAmplitude 0 16384 ((20000 : ℚ) : Double)
        = ((if (0 : ℚ) ≤ 20000 then min 20000 16384 else 0 : ℚ) : Double) :=
  ⟨by norm_num, (clipAmplitude_zero_min 16384 (by norm_num)).1 20000⟩

/-! ## The configuration stage -/

theorem initialState_sized : initialState.Sized := by
  constructor <;> simp [initialState]

theorem mapping_length : mapping.length = 16 := by
  simp [mapping]

theorem readCalibration_spec (conf : Configuration) (rmin rmax : ℚ) :
    ∀ (n i : Nat) (strs : List String) (fns : List TF1),
      i + n = strs.length → strs.length ≤ 16 →
      (readCalibration conf rmin rmax n i strs fns).2.2 = none
      ∧ (readCalibration conf rmin rmax n i strs fns).1.length = strs.length
      ∧ (readCalibration conf rmin rmax n i strs fns).2.1.length = fns.length + n := by
  intro n
  induction n with
  | zero => intro i strs fns _ _; simp [readCalibration]
  | succ n ih =>
    intro i strs fns hlen h16
    have hi : i < strs.length := by omega
    have hm : i < mapping.length := by rw [mapping_length]; omega
    have e1 : mapping[i]? = some mapping[i] := List.getElem?_eq_getElem hm
    have e2 : strs[i]? = some strs[i] := List.getElem?_eq_getElem hi
    simp only [readCalibration, e1, e2]
    have := ih (i + 1) (strs.set i (conf.GetString
      ("calibration_px" ++ toString mapping[i].1 ++ toString mapping[i].2) strs[i]))
      (fns ++ [⟨"calibration_px" ++ toString mapping[i].1 ++ toString mapping[i].2,
        conf.GetString ("calibration_px" ++ toString mapping[i].1 ++ toString mapping[i].2)
          strs[i], rmin, rmax⟩])
      (by simp; omega) (by simpa using h16)
    simp only [List.length_set, List.length_append, List.length_singleton] at this
    refine ⟨this.1, this.2.1, ?_⟩
    rw [this.2.2]
    omega

theorem configure_sized (st : ConvState) (conf : Configuration) (h : st.Sized) :
    (configure st conf).2 = none ∧ (configure st conf).1.Sized
    ∧ (configure st conf).1.m_configured = true := by
  have hs := readCalibration_spec conf
    (conf.GetDouble "calib_range_min" st.m_calib_range_min)
    (conf.GetDouble "calib_range_max" st.m_calib_range_max)
    st.m_calib_strings.length 0 st.m_calib_strings [] (by simp) (by rw [h.1])
  refine ⟨hs.1, ⟨?_, ?_⟩, ?_⟩
  · simp only [configure]
    rw [hs.2.1, h.1]
  · simp only [configure]
    rw [hs.2.2, h.1]
    rfl
  · simp only [configure]
    rw [hs.1]
    rfl

theorem afterConfigure_sized (st : ConvState) (conf : Configuration) (h : st.Sized) :
    (afterConfigure st conf).Sized := by
  unfold afterConfigure
  split
  · exact h
  · exact (configure_sized st conf h).2.1

theorem configStage_eq (st : ConvState) (conf : Configuration) (h : st.Sized) :
    (if st.m_configured then (st, (none : Option Fault)) else configure st conf)
      = (afterConfigure st conf, none) := by
  unfold afterConfigure
  split
  · rfl
  · exact Prod.ext rfl (configure_sized st conf h).1

/-! ## The paths through Converting -/

theorem Converting_header_fault (env : Env) (st : ConvState) (block : List Byte)
    (d2 : StandardEvent) (conf : Configuration) (h : st.Sized) (f : Fault)
    (hb : burstLength block = .error f) :
    Converting env st block d2 conf = ⟨.fault f, afterConfigure st conf, d2⟩ := by
  simp only [Converting, configStage_eq st conf h, hb]

theorem Converting_insufficient (env : Env) (st : ConvState) (block : List Byte)
    (d2 : StandardEvent) (conf : Configuration) (h : st.Sized) (burst : Nat)
    (hb : burstLength block = .ok burst) (hlen : block.length < evtLength burst) :
    Converting env st block d2 conf = ⟨.returned false, afterConfigure st conf, d2⟩ := by
  simp only [Converting, configStage_eq st conf h, hb, hlen, if_true]

theorem Converting_decode_fault (env : Env) (st : ConvState) (block : List Byte)
    (d2 : StandardEvent) (conf : Configuration) (h : st.Sized) (burst : Nat) (f : Fault)
    (hb : burstLength block = .ok burst) (hlen : ¬ block.length < evtLength burst)
    (hd : decodeBlock env block = .error f) :
    Converting env st block d2 conf = ⟨.fault f, afterConfigure st conf, d2⟩ := by
  simp only [Converting, configStage_eq st conf h, hb, hlen, if_false, hd]

theorem afterRunStart_fields (st1 : ConvState) (t : Nat) :
    (afterRunStart st1 t).m_waveform_filename = st1.m_waveform_filename
    ∧ (afterRunStart st1 t).trig_ = st1.trig_
    ∧ (afterRunStart st1 t).m_blStart = st1.m_blStart
    ∧ (afterRunStart st1 t).m_blEnd = st1.m_blEnd
    ∧ (afterRunStart st1 t).m_ampStart = st1.m_ampStart
    ∧ (afterRunStart st1 t).m_ampEnd = st1.m_ampEnd
    ∧ (afterRunStart st1 t).m_calib_functions = st1.m_calib_functions
    ∧ (afterRunStart st1 t).m_calib_range_min = st1.m_calib_range_min
    ∧ (afterRunStart st1 t).m_calib_range_max = st1.m_calib_range_max := by
  unfold afterRunStart
  split <;> simp

theorem Converting_dump (env : Env) (st : ConvState) (block : List Byte)
    (d2 : StandardEvent) (conf : Configuration) (h : st.Sized) (burst : Nat) (dec : Decoded)
    (hb : burstLength block = .ok burst) (hlen : ¬ block.length < evtLength burst)
    (hd : decodeBlock env block = .ok dec)
    (hdump : (afterConfigure st conf).m_waveform_filename ≠ "") :
    (Converting env st block d2 conf).outcome ≠ .returned true
    ∧ (Converting env st block d2 conf).event = d2 := by
  have hdump2 : (afterRunStart (afterConfigure st conf) dec.timestamp0).m_waveform_filename ≠ ""
    := by rw [(afterRunStart_fields _ _).1]; exact hdump
  simp only [Converting, configStage_eq st conf h, hb, hlen, if_false, hd]
  rw [if_pos hdump2]
  split <;> simp

theorem Converting_pixels (env : Env) (st : ConvState) (block : List Byte)
    (d2 : StandardEvent) (conf : Configuration) (h : st.Sized) (burst : Nat) (dec : Decoded)
    (hb : burstLength block = .ok burst) (hlen : ¬ block.length < evtLength burst)
    (hd : decodeBlock env block = .ok dec)
    (hdump : (afterConfigure st conf).m_waveform_filename = "") :
    Converting env st block d2 conf =
      match pixelLoop env (afterRunStart (afterConfigure st conf) dec.timestamp0)
          dec.timestamp0 dec.waveforms dec.waveforms.length 0 emptyPlane with
      | .error f => ⟨.fault f, afterRunStart (afterConfigure st conf) dec.timestamp0, d2⟩
      | .ok plane =>
        ⟨.returned true,
         { afterRunStart (afterConfigure st conf) dec.timestamp0 with
             trig_ := ((afterConfigure st conf).trig_ + 1) % 2 ^ 64 },
         { planes := d2.planes ++ [plane]
           timeBegin := relTime dec.timestamp0
             (afterRunStart (afterConfigure st conf) dec.timestamp0).m_runStartTime
           timeEnd := relTime dec.timestamp0
             (afterRunStart (afterConfigure st conf) dec.timestamp0).m_runStartTime
           triggerN := (afterConfigure st conf).trig_
           detectorType := "AD9249" }⟩ := by
  have hdump2 : ¬ (afterRunStart (afterConfigure st conf) dec.timestamp0).m_waveform_filename ≠ ""
    := by rw [(afterRunStart_fields _ _).1]; simpa using hdump
  have htrig := (afterRunStart_fields (afterConfigure st conf) dec.timestamp0).2.1
  simp only [Converting, configStage_eq st conf h, hb, hlen, if_false, hd]
  rw [if_neg hdump2]
  simp only [htrig]

/-! ## The header and the length check -/

theorem headerBurst_lt (block : List Byte) : headerBurst block < 65536 := by
  unfold headerBurst
  have h2 := (block.getD 2 0).isLt
  have h3 := (block.getD 3 0).isLt
  omega

theorem burstLength_short (block : List Byte) (h : block.length < 4) :
    burstLength block = .error .outOfRange := by
  have e : block[3]? = none := List.getElem?_eq_none (by omega)
  simp [burstLength, e]

theorem burstLength_long (block : List Byte) (h : 4 ≤ block.length) :
    burstLength block = .ok (headerBurst block) := by
  have h3 : 3 < block.length := by omega
  have h2 : 2 < block.length := by omega
  have e3 : block[3]? = some block[3] := List.getElem?_eq_getElem h3
  have e2 : block[2]? = some block[2] := List.getElem?_eq_getElem h2
  have d3 : block.getD 3 0 = block[3] := by simp [List.getD, e3]
  have d2 : block.getD 2 0 = block[2] := by simp [List.getD, e2]
  simp only [burstLength, e3, e2, headerBurst, d3, d2]
  have hor := Nat.mul_add_lt_is_or (show (block[2]).val < 2 ^ 8 from (block[2]).isLt)
    (block[3]).val
  rw [Nat.shiftLeft_eq, Nat.mul_comm, ← hor]
  congr 1
  omega

theorem evtLength_eq (burst : Nat) (h : burst < 65536) :
    evtLength burst = burst * 128 * 2 * 16 + 16 := by
  unfold evtLength
  apply Nat.mod_eq_of_lt
  omega

/-- For a block of at least four bytes, from static members that satisfy the size
invariant: when the block is shorter than `burstLength * 128 * 2 * 16 + 16`, the
call returns false, and the standard event is as before. -/
theorem Converting_truncated_returns_false (env : Env) (st : ConvState) (block : List Byte)
    (d2 : StandardEvent) (conf : Configuration) (h : st.Sized) (h4 : 4 ≤ block.length)
    (hlen : block.length < headerBurst block * 128 * 2 * 16 + 16) :
    Converting env st block d2 conf = ⟨.returned false, afterConfigure st conf, d2⟩ := by
  apply Converting_insufficient env st block d2 conf h (headerBurst block)
    (burstLength_long block h4)
  rw [evtLength_eq _ (headerBurst_lt block)]
  exact hlen

/-- A block of fewer than four bytes makes the header read of lines 134-135 throw,
before the length check is reached. -/
theorem Converting_short_block (env : Env) (st : ConvState) (block : List Byte)
    (d2 : StandardEvent) (conf : Configuration) (h : st.Sized) (h4 : block.length < 4) :
    Converting env st block d2 conf = ⟨.fault .outOfRange, afterConfigure st conf, d2⟩ :=
  Converting_header_fault env st block d2 conf h _ (burstLength_short block h4)

/-- C1 (failing input). On a first call with a block of three bytes, which is
shorter than every expected event length, `Converting` does not return false: the
read `datablock0.at(3)` of line 135 throws `std::out_of_range`. The same holds for
the empty block. -/
theorem Converting_three_byte_block_throws (env : Env) (d2 : StandardEvent)
    (conf : Configuration) (b0 b1 b2 : Byte) :
    (Converting env initialState [b0, b1, b2] d2 conf).outcome = .fault .outOfRange
    ∧ (Converting env initialState [] d2 conf).outcome = .fault .outOfRange
    ∧ [b0, b1, b2].length < headerBurst [b0, b1, b2] * 128 * 2 * 16 + 16 := by
  refine ⟨?_, ?_, ?_⟩
  · rw [Converting_short_block env initialState _ d2 conf initialState_sized (by simp)]
  · rw [Converting_short_block env initialState _ d2 conf initialState_sized (by simp)]
  · simp

/-! ## Dump mode -/

/-- With a dump file configured, no call returns true and no call changes the
standard event, whatever the block; a call that passes the bounds-checked reads
returns false. -/
theorem Converting_dump_never_converts (env : Env) (st : ConvState) (block : List Byte)
    (d2 : StandardEvent) (conf : Configuration) (h : st.Sized)
    (hdump : (afterConfigure st conf).m_waveform_filename ≠ "") :
    (Converting env st block d2 conf).outcome ≠ .returned true
    ∧ (Converting env st block d2 conf).event = d2 := by
  cases hb : burstLength block with
  | error f => rw [Converting_header_fault env st block d2 conf h f hb]; simp
  | ok burst =>
    by_cases hlen : block.length < evtLength burst
    · rw [Converting_insufficient env st block d2 conf h burst hb hlen]; simp
    · cases hd : decodeBlock env block with
      | error f => rw [Converting_decode_fault env st block d2 conf h burst f hb hlen hd]; simp
      | ok dec => exact Converting_dump env st block d2 conf h burst dec hb hlen hd hdump

/-- C3 (failing input). On a first call whose configuration names a dump file, a
block of three bytes does not make `Converting` return false: the header read of
line 135 throws `std::out_of_range` (the standard event is untouched). -/
theorem Converting_dump_short_block_throws (env : Env) (d2 : StandardEvent) (b0 b1 b2 : Byte) :
    (afterConfigure initialState dumpConfiguration).m_waveform_filename = "waveforms.txt"
    ∧ (Converting env initialState [b0, b1, b2] d2 dumpConfiguration).outcome
        = .fault .outOfRange
    ∧ (Converting env initialState [b0, b1, b2] d2 dumpConfiguration).event = d2 := by
  refine ⟨?_, ?_, ?_⟩
  · simp [afterConfigure, configure, initialState, dumpConfiguration, Configuration.GetString]
  · rw [Converting_short_block env initialState _ d2 _ initialState_sized (by simp)]
  · rw [Converting_short_block env initialState _ d2 _ initialState_sized (by simp)]

/-! ## Channel demultiplexing -/

theorem decodeStep_waveforms (adc : Nat) (data : List Byte) (offset k : Nat) (s : DecState)
    (hadc : adc ≤ 1) (hw : s.waveforms.length = 16) (hin : offset + 2 * k + 2 ≤ data.length) :
    ∃ s1, decodeStep adc data offset (offset + 2 * k) s = .ok s1
      ∧ s1.waveforms = s.waveforms.set (adc * 8 + k % 8)
          (s.waveforms.getD (adc * 8 + k % 8) [] ++ [sampleAt data (offset + 2 * k)]) := by
  have h0 : offset + 2 * k < data.length := by omega
  have h1 : offset + 2 * k + 1 < data.length := by omega
  have e0 : data[offset + 2 * k]? = some data[offset + 2 * k] := List.getElem?_eq_getElem h0
  have e1 : data[offset + 2 * k + 1]? = some data[offset + 2 * k + 1] :=
    List.getElem?_eq_getElem h1
  have hk : (offset + 2 * k - offset) / 2 = k := by omega
  have hch : adc * 8 + k % 8 < s.waveforms.length := by omega
  have ew : s.waveforms[adc * 8 + k % 8]? = some s.waveforms[adc * 8 + k % 8] :=
    List.getElem?_eq_getElem hch
  have hstep : decodeStep adc data offset (offset + 2 * k) s = .ok
      { waveforms := s.waveforms.set (adc * 8 + k % 8)
          (s.waveforms[adc * 8 + k % 8] ++
            [sampleValue data[offset + 2 * k] data[offset + 2 * k + 1]])
        timestamp := (timestampStep adc (adc * 8 + k % 8)
          (sampleStatus data[offset + 2 * k + 1]) (s.timestamp, s.ts_i)).1
        ts_i := (timestampStep adc (adc * 8 + k % 8)
          (sampleStatus data[offset + 2 * k + 1]) (s.timestamp, s.ts_i)).2 } := by
    simp only [decodeStep, e0, e1, hk, ew]
  refine ⟨_, hstep, ?_⟩
  simp [sampleAt, List.getD_eq_getElem?_getD, e0, e1, ew]

theorem decodeLoop_waveforms (adc : Nat) (data : List Byte) (offset : Nat) (hadc : adc ≤ 1) :
    ∀ (n k : Nat) (s : DecState), s.waveforms.length = 16 →
      offset + 2 * (k + n) ≤ data.length →
      ∃ s1, decodeLoop adc data offset n (offset + 2 * k) s = .ok s1
        ∧ s1.waveforms.length = 16
        ∧ ∀ ch, s1.waveforms.getD ch [] = s.waveforms.getD ch [] ++
            ((List.range' k n).filter (fun j => adc * 8 + j % 8 = ch)).map
              (fun j => sampleAt data (offset + 2 * j)) := by
  intro n
  induction n with
  | zero =>
    intro k s hw _
    exact ⟨s, rfl, hw, by simp⟩
  | succ n ih =>
    intro k s hw hin
    obtain ⟨s1, hs1, hw1⟩ := decodeStep_waveforms adc data offset k s hadc hw (by omega)
    have hlen1 : s1.waveforms.length = 16 := by rw [hw1, List.length_set]; exact hw
    obtain ⟨s2, hs2, hlen2, hw2⟩ := ih (k + 1) s1 hlen1 (by omega)
    refine ⟨s2, ?_, hlen2, ?_⟩
    · simp only [decodeLoop, hs1]
      have : offset + 2 * k + 2 = offset + 2 * (k + 1) := by omega
      rw [this]
      exact hs2
    · intro ch
      rw [hw2 ch, List.range'_succ, List.filter_cons]
      have hch : adc * 8 + k % 8 < s.waveforms.length := by omega
      by_cases hc : adc * 8 + k % 8 = ch
      · have e : s1.waveforms.getD ch [] =
            s.waveforms.getD ch [] ++ [sampleAt data (offset + 2 * k)] := by
          rw [hw1, hc, List.getD_eq_getElem?_getD, List.getElem?_set_self (by omega)]
          rfl
        rw [e]
        simp [hc]
      · have e : s1.waveforms.getD ch [] = s.waveforms.getD ch [] := by
          rw [hw1, List.getD_eq_getElem?_getD, List.getElem?_set_ne hc,
            ← List.getD_eq_getElem?_getD]
        rw [e]
        simp [hc]

theorem filter_row_residue (c : Nat) (hc : c < 8) {β : Type} (f : Nat → β) :
    ∀ m : Nat, ((List.range' 0 (8 * m)).filter (fun j => j % 8 = c)).map f
      = (List.range m).map (fun r => f (8 * r + c)) := by
  intro m
  induction m with
  | zero => simp
  | succ m ih =>
    have hsplit : List.range' 0 (8 * (m + 1)) = List.range' 0 (8 * m) ++ List.range' (8 * m) 8 := by
      have h := List.range'_append 0 (8 * m) 8 1
      simp only [Nat.zero_add, Nat.one_mul] at h
      rw [h]
      congr 1
      omega
    rw [hsplit, List.filter_append, List.map_append, ih, List.range_succ, List.map_append]
    congr 1
    have hr : List.range' (8 * m) 8 = [8 * m, 8 * m + 1, 8 * m + 2, 8 * m + 3, 8 * m + 4,
        8 * m + 5, 8 * m + 6, 8 * m + 7] := by
      simp [List.range']
    rw [hr]
    have e0 : (8 * m) % 8 = 0 := by omega
    have e1 : (8 * m + 1) % 8 = 1 := by omega
    have e2 : (8 * m + 2) % 8 = 2 := by omega
    have e3 : (8 * m + 3) % 8 = 3 := by omega
    have e4 : (8 * m + 4) % 8 = 4 := by omega
    have e5 : (8 * m + 5) % 8 = 5 := by omega
    have e6 : (8 * m + 6) % 8 = 6 := by omega
    have e7 : (8 * m + 7) % 8 = 7 := by omega
    interval_cases c <;> simp [List.filter_cons, e0, e1, e2, e3, e4, e5, e6, e7]

theorem decodeChannelRaw_waveforms (adc : Nat) (data : List Byte) (size offset : Nat)
    (wfs : List (List Nat)) (ts : Nat) (hadc : adc ≤ 1) (hsize : size % 16 = 0)
    (hin : offset + size ≤ data.length) (hw : wfs.length = 16) :
    ∃ s1, decodeChannelRaw adc data size offset wfs ts = .ok s1
      ∧ s1.waveforms.length = 16
      ∧ (∀ c, c < 8 → s1.waveforms.getD (adc * 8 + c) [] = wfs.getD (adc * 8 + c) [] ++
          (List.range (size / 16)).map (fun k => sampleAt data (offset + 2 * (8 * k + c))))
      ∧ (∀ ch, (ch < adc * 8 ∨ adc * 8 + 8 ≤ ch) → s1.waveforms.getD ch [] = wfs.getD ch []) := by
  have hn : (size + 1) / 2 = 8 * (size / 16) := by omega
  obtain ⟨s1, hs1, hlen, hch⟩ := decodeLoop_waveforms adc data offset hadc (8 * (size / 16)) 0
    { waveforms := wfs, timestamp := ts, ts_i := 0 } hw (by omega)
  refine ⟨s1, ?_, hlen, ?_, ?_⟩
  · unfold decodeChannelRaw
    rw [hn]
    simpa using hs1
  · intro c hc
    rw [hch (adc * 8 + c)]
    congr 1
    have hfilter : (List.range' 0 (8 * (size / 16))).filter (fun j => adc * 8 + j % 8 = adc * 8 + c)
        = (List.range' 0 (8 * (size / 16))).filter (fun j => j % 8 = c) := by
      apply List.filter_congr
      intro j _
      simp
    rw [hfilter]
    exact filter_row_residue c hc (fun j => sampleAt data (offset + 2 * j)) (size / 16)
  · intro ch hne
    rw [hch ch]
    have hnil : (List.range' 0 (8 * (size / 16))).filter (fun j => adc * 8 + j % 8 = ch) = [] := by
      rw [List.filter_eq_nil_iff]
      intro j _
      have hj : j % 8 < 8 := Nat.mod_lt _ (by omega)
      simp only [decide_eq_true_eq]
      omega
    rw [hnil]
    simp

theorem decodeChannel_waveforms (env : Env) (adc : Nat) (data : List Byte) (size offset : Nat)
    (wfs : List (List Nat)) (ts : Nat) (hadc : adc ≤ 1) (hsize : size % 16 = 0)
    (hin : offset + size ≤ data.length) (hw : wfs.length = 16) :
    ∃ wfs1 ts1, decodeChannel env adc data size offset wfs ts = .ok (wfs1, ts1)
      ∧ wfs1.length = 16
      ∧ (∀ c, c < 8 → wfs1.getD (adc * 8 + c) [] = wfs.getD (adc * 8 + c) [] ++
          (List.range (size / 16)).map (fun k => sampleAt data (offset + 2 * (8 * k + c))))
      ∧ (∀ ch, (ch < adc * 8 ∨ adc * 8 + 8 ≤ ch) → wfs1.getD ch [] = wfs.getD ch []) := by
  obtain ⟨s1, hs1, hlen, hsame, hother⟩ :=
    decodeChannelRaw_waveforms adc data size offset wfs ts hadc hsize hin hw
  refine ⟨s1.waveforms, env.rescale s1.timestamp % 2 ^ 64, ?_, hlen, hsame, hother⟩
  simp only [decodeChannel, hs1]

theorem decodeBlock_wellFormed (env : Env) (block : List Byte) (hwf : WellFormedBlock block) :
    ∃ dec, decodeBlock env block = .ok dec
      ∧ dec.waveforms.length = 16
      ∧ ∀ ch, ch < 16 → (dec.waveforms.getD ch []).length = headerBurst block * 128 := by
  obtain ⟨hlen, hs0, hs1⟩ := hwf
  obtain ⟨wfs0, ts0, hd0, hl0, hsame0, hother0⟩ := decodeChannel_waveforms env 0 block
    (headerBurst block * 128 * 2 * 8) 8 (List.replicate 16 []) 0 (by omega) (by omega)
    (by omega) (by simp)
  obtain ⟨wfs1, ts1, hd1, hl1, hsame1, hother1⟩ := decodeChannel_waveforms env 1 block
    (headerBurst block * 128 * 2 * 8) (2 * 8 + headerBurst block * 128 * 2 * 8) wfs0 0
    (by omega) (by omega) (by omega) hl0
  refine ⟨⟨wfs1, ts0, ts1⟩, ?_, hl1, ?_⟩
  · simp only [decodeBlock, hs0, hs1, hd0, hd1]
  · intro ch hch
    have hdiv : headerBurst block * 128 * 2 * 8 / 16 = headerBurst block * 128 := by omega
    have hrep : ∀ c, (List.replicate 16 ([] : List Nat)).getD c [] = [] := by
      intro c
      rw [List.getD_eq_getElem?_getD, List.getElem?_replicate]
      split <;> rfl
    by_cases h8 : ch < 8
    · have e1 := hother1 ch (Or.inl (by omega))
      have e0 := hsame0 ch h8
      simp only [Nat.zero_mul, Nat.zero_add] at e0
      rw [e1, e0, hrep, hdiv]
      simp
    · have e1 := hsame1 (ch - 8) (by omega)
      have e0 := hother0 (1 * 8 + (ch - 8)) (Or.inr (by omega))
      have hidx : 1 * 8 + (ch - 8) = ch := by omega
      rw [hidx] at e1 e0
      rw [e1, e0, hrep, hdiv]
      simp

/-! ## Peak search and baseline -/

theorem maxElementLoop_inRange (wf : List Nat) :
    ∀ (n first largest : Nat), largest < first → first + n ≤ wf.length →
      ∃ p, maxElementLoop wf n first largest = .ok p ∧ largest ≤ p ∧ p < first + n := by
  intro n
  induction n with
  | zero =>
    intro first largest hlt _
    exact ⟨largest, rfl, le_refl _, by omega⟩
  | succ n ih =>
    intro first largest hlt hlen
    have h1 : largest < wf.length := by omega
    have h2 : first < wf.length := by omega
    have e1 : wf[largest]? = some wf[largest] := List.getElem?_eq_getElem h1
    have e2 : wf[first]? = some wf[first] := List.getElem?_eq_getElem h2
    simp only [maxElementLoop, e1, e2]
    by_cases hc : wf[largest] < wf[first]
    · rw [if_pos hc]
      obtain ⟨p, hp, hle, hlt2⟩ := ih (first + 1) first (by omega) (by omega)
      exact ⟨p, hp, by omega, by omega⟩
    · rw [if_neg hc]
      obtain ⟨p, hp, hle, hlt2⟩ := ih (first + 1) largest (by omega) (by omega)
      exact ⟨p, hp, hle, by omega⟩

theorem maxElement_inWindow (wf : List Nat) (ampStart ampEnd : Int) (h0 : 0 ≤ ampStart)
    (hlt : ampStart < ampEnd) (hlen : ampEnd ≤ wf.length) :
    ∃ p : Nat, maxElement wf ampStart ampEnd = .ok p ∧ ampStart ≤ p ∧ (p : Int) < ampEnd := by
  have hcond : 0 ≤ ampStart ∧ ampStart ≤ ampEnd ∧ ampEnd ≤ wf.length :=
    ⟨h0, le_of_lt hlt, hlen⟩
  have hne : ¬ ampStart = ampEnd := ne_of_lt hlt
  obtain ⟨p, hp, hle, hlt2⟩ := maxElementLoop_inRange wf (ampEnd - ampStart - 1).toNat
    (ampStart.toNat + 1) ampStart.toNat (by omega) (by omega)
  refine ⟨p, ?_, by omega, by omega⟩
  simp only [maxElement, hcond, and_self, if_true, hne, if_false]
  exact hp

theorem baselineLoop_sum (wf : List Nat) :
    ∀ (n i : Nat) (acc : ℚ), i + n ≤ wf.length →
      baselineLoop wf n i acc = .ok (acc + (((window wf i n).sum : Nat) : ℚ)) := by
  intro n
  induction n with
  | zero =>
    intro i acc _
    simp [baselineLoop, window]
  | succ n ih =>
    intro i acc hlen
    have hi : i < wf.length := by omega
    have e : wf[i]? = some wf[i] := List.getElem?_eq_getElem hi
    have hdrop : wf.drop i = wf[i] :: wf.drop (i + 1) := List.drop_eq_getElem_cons hi
    simp only [baselineLoop, e]
    rw [ih (i + 1) (acc + (wf[i] : ℚ)) (by omega)]
    simp only [window, hdrop, List.take_succ_cons, List.sum_cons, Nat.cast_add]
    rw [add_assoc]

theorem window_length (wf : List Nat) (lo n : Nat) (h : lo + n ≤ wf.length) :
    (window wf lo n).length = n := by
  simp only [window, List.length_take, List.length_drop]
  omega

/-! ## The pixel of one channel -/

theorem baselineLoop_window (wf : List Nat) (n i : Nat) (acc : ℚ)
    (h : n = 0 ∨ i + n ≤ wf.length) :
    baselineLoop wf n i acc = .ok (acc + (((window wf i n).sum : Nat) : ℚ)) := by
  rcases h with h | h
  · subst h
    simp [baselineLoop, window]
  · exact baselineLoop_sum wf n i acc h

theorem channelPixel_skipped (env : Env) (st : ConvState) (ts ch : Nat) (wf : List Nat) (p : Nat)
    (hmax : maxElement wf st.m_ampStart st.m_ampEnd = .ok p)
    (hguard : (p : Int) - st.m_blStart < 0) :
    channelPixel env st ts ch wf = .ok none := by
  simp only [channelPixel, hmax, hguard, if_true]

theorem maxElement_le_length (wf : List Nat) (ampStart ampEnd : Int) (p : Nat)
    (h : maxElement wf ampStart ampEnd = .ok p) :
    ampStart ≤ p ∧ (p : Int) ≤ ampEnd ∧ p ≤ wf.length ∧ (ampStart < ampEnd → p < wf.length) := by
  unfold maxElement at h
  by_cases hc : 0 ≤ ampStart ∧ ampStart ≤ ampEnd ∧ ampEnd ≤ wf.length
  · rw [if_pos hc] at h
    by_cases he : ampStart = ampEnd
    · rw [if_pos he] at h
      injection h with h
      omega
    · have hlt : ampStart < ampEnd := by omega
      obtain ⟨q, hq, h1, h2⟩ := maxElement_inWindow wf ampStart ampEnd hc.1 hlt hc.2.2
      unfold maxElement at hq
      rw [if_pos hc, if_neg he] at hq
      rw [if_neg he, hq] at h
      injection h with h
      omega
  · rw [if_neg hc] at h
    exact absurd h (by simp)

theorem toInt32_of_int32 (z : Int) (h : IsInt32 z) : toInt32 z = z := by
  unfold IsInt32 at h
  unfold toInt32
  split <;> omega

theorem maxElement_defined (wf : List Nat) (st : ConvState) (h0 : 0 ≤ st.m_ampStart)
    (hle : st.m_ampStart ≤ st.m_ampEnd) (hlen : st.m_ampEnd ≤ wf.length) :
    ∃ p : Nat, maxElement wf st.m_ampStart st.m_ampEnd = .ok p
      ∧ st.m_ampStart ≤ p ∧ (p : Int) ≤ peakBound st := by
  by_cases hlt : st.m_ampStart < st.m_ampEnd
  · obtain ⟨p, hp, h1, h2⟩ := maxElement_inWindow wf _ _ h0 hlt hlen
    refine ⟨p, hp, h1, ?_⟩
    rw [peakBound, if_pos hlt]
    omega
  · have he : st.m_ampStart = st.m_ampEnd := by omega
    have hcond : 0 ≤ st.m_ampStart ∧ st.m_ampStart ≤ st.m_ampEnd ∧ st.m_ampEnd ≤ wf.length :=
      ⟨h0, hle, hlen⟩
    refine ⟨st.m_ampEnd.toNat, ?_, by omega, ?_⟩
    · unfold maxElement
      rw [if_pos hcond, if_pos he]
    · rw [peakBound, if_neg hlt]
      omega

theorem maxElement_int32 (st : ConvState) (wf : List Nat) (p : Nat)
    (hmax : maxElement wf st.m_ampStart st.m_ampEnd = .ok p) : (p : Int) < 2 ^ 31 := by
  have h1 := (maxElement_le_length wf _ _ p hmax).2.1
  have h2 := st.int_range.2.2.2
  unfold IsInt32 at h2
  omega

theorem channelPixel_pushed (env : Env) (st : ConvState) (ts ch : Nat) (wf : List Nat) (p : Nat)
    (fn : TF1) (xy : Int × Int)
    (hmax : maxElement wf st.m_ampStart st.m_ampEnd = .ok p)
    (hguard : ¬ (p : Int) - st.m_blStart < 0)
    (hnarrow : (p : Int) - st.m_blStart < 2 ^ 31)
    (hbase : st.m_blStart ≤ st.m_blEnd
      ∨ ((p : Int) - st.m_blEnd ≤ wf.length ∧ (p : Int) - st.m_blEnd < 2 ^ 31))
    (hdiv : IsInt32 (st.m_blStart - st.m_blEnd))
    (hp : p < wf.length)
    (hfn : st.m_calib_functions[ch]? = some fn) (hxy : mapping[ch]? = some xy) :
    channelPixel env st ts ch wf = .ok (some ⟨xy.1, xy.2,
      clipAmplitude st.m_calib_range_min st.m_calib_range_max
        (env.tf1Eval fn (Double.subFrom (wf[p] : ℚ) (Double.divInt
          (((window wf ((p : Int) - st.m_blStart).toNat (st.m_blStart - st.m_blEnd).toNat).sum
            : Nat) : ℚ) (st.m_blStart - st.m_blEnd)))), ts⟩) := by
  have hfirst : toInt32 ((p : Int) - st.m_blStart) = (p : Int) - st.m_blStart :=
    toInt32_of_int32 _ (by unfold IsInt32; omega)
  have hcond : ¬ ((p : Int) - st.m_blStart < (p : Int) - st.m_blEnd
      ∧ 2 ^ 31 - 1 < (p : Int) - st.m_blEnd) := by
    omega
  have hcount : ((p : Int) - st.m_blEnd) - ((p : Int) - st.m_blStart)
      = st.m_blStart - st.m_blEnd := by ring
  have hloop := baselineLoop_window wf (st.m_blStart - st.m_blEnd).toNat
    ((p : Int) - st.m_blStart).toNat 0 (by omega)
  have hpeak : wf[p]? = some wf[p] := List.getElem?_eq_getElem hp
  simp only [channelPixel, hmax, hguard, if_false, hfirst, false_or, hcond, hcount, hloop, hdiv,
    not_true_eq_false, hfn, hpeak, hxy, zero_add]

theorem channelPixel_pushed_num (env : Env) (st : ConvState) (ts ch : Nat) (wf : List Nat)
    (p : Nat) (fn : TF1) (xy : Int × Int)
    (hmax : maxElement wf st.m_ampStart st.m_ampEnd = .ok p)
    (hguard : ¬ (p : Int) - st.m_blStart < 0)
    (hnarrow : (p : Int) - st.m_blStart < 2 ^ 31)
    (hbase : st.m_blStart ≤ st.m_blEnd
      ∨ ((p : Int) - st.m_blEnd ≤ wf.length ∧ (p : Int) - st.m_blEnd < 2 ^ 31))
    (hdiv : IsInt32 (st.m_blStart - st.m_blEnd)) (hne : st.m_blStart ≠ st.m_blEnd)
    (hp : p < wf.length)
    (hfn : st.m_calib_functions[ch]? = some fn) (hxy : mapping[ch]? = some xy) :
    channelPixel env st ts ch wf = .ok (some ⟨xy.1, xy.2,
      clipAmplitude st.m_calib_range_min st.m_calib_range_max
        (env.tf1Eval fn (Double.num ((wf[p] : ℚ) -
          (((window wf ((p : Int) - st.m_blStart).toNat (st.m_blStart - st.m_blEnd).toNat).sum
            : Nat) : ℚ) / ((st.m_blStart - st.m_blEnd : Int) : ℚ)))), ts⟩) := by
  have hd : ¬ st.m_blStart - st.m_blEnd = 0 := by omega
  rw [channelPixel_pushed env st ts ch wf p fn xy hmax hguard hnarrow hbase hdiv hp hfn hxy]
  simp only [Double.divInt, hd, if_false, Double.subFrom]

theorem channelPixel_defined (env : Env) (st : ConvState) (ts ch : Nat) (wf : List Nat)
    (hfn : ch < st.m_calib_functions.length) (hch : ch < 16) (hlen31 : wf.length < 2 ^ 31)
    (hwin : WindowsInside st wf.length) :
    ∃ r, channelPixel env st ts ch wf = .ok r := by
  obtain ⟨h0, hle, hlen, hbl⟩ := hwin
  obtain ⟨p, hmax, hp1, hp2⟩ := maxElement_defined wf st h0 hle hlen
  by_cases hguard : (p : Int) - st.m_blStart < 0
  · exact ⟨none, channelPixel_skipped env st ts ch wf p hmax hguard⟩
  · rcases hbl with hbl | ⟨hb1, hb2, hb3, hb4⟩
    · omega
    · have hm : ch < mapping.length := by rw [mapping_length]; exact hch
      exact ⟨_, channelPixel_pushed env st ts ch wf p st.m_calib_functions[ch] mapping[ch]
        hmax hguard (by omega) (by omega) (by unfold IsInt32; omega) (by omega)
        (List.getElem?_eq_getElem hfn) (List.getElem?_eq_getElem hm)⟩

theorem clipAmplitude_inside (rmin rmax v : ℚ) (h1 : rmin ≤ v) (h2 : v ≤ rmax) :
    clipAmplitude rmin rmax (Double.num v) = Double.num v := by
  rw [clipAmplitude_num, if_neg (not_lt.mpr h2), if_neg (not_lt.mpr h1)]

theorem sum_of_constant (l : List Nat) (b : Nat) (h : ∀ v ∈ l, v = b) :
    l.sum = l.length * b := by
  induction l with
  | nil => simp
  | cons a t ih =>
    have ha : a = b := h a (List.mem_cons_self a t)
    have ht := ih (fun v hv => h v (List.mem_cons_of_mem a hv))
    simp only [List.sum_cons, List.length_cons, ht, ha]
    ring

/-- C7. For a channel that passes the guard of line 214 (`p - blStart ≥ 0` for its
peak position `p`), with `0 ≤ blEnd < blStart`: the baseline loop sums the
`blStart - blEnd` samples at indices `[p - blStart, p - blEnd)`, the baseline is
their arithmetic mean, and the calibration function is applied to
`peak - baseline`. When those samples all equal `b`, the calibration function is
the identity and `peak - b` lies in the calibration range, the pixel value is
`peak - b`. -/
theorem channelPixel_baseline_mean (env : Env) (st : ConvState) (ts ch : Nat) (wf : List Nat)
    (p : Nat) (fn : TF1) (xy : Int × Int)
    (hmax : maxElement wf st.m_ampStart st.m_ampEnd = .ok p) (hp : p < wf.length)
    (hguard : ¬ (p : Int) - st.m_blStart < 0)
    (hblEnd : 0 ≤ st.m_blEnd) (hbl : st.m_blEnd < st.m_blStart)
    (hfn : st.m_calib_functions[ch]? = some fn) (hxy : mapping[ch]? = some xy) :
    ∃ samples : List Nat, ∃ px : Pixel,
      samples = window wf ((p : Int) - st.m_blStart).toNat (st.m_blStart - st.m_blEnd).toNat
      ∧ (samples.length : Int) = st.m_blStart - st.m_blEnd
      ∧ (∀ j, j < samples.length → samples[j]? = wf[((p : Int) - st.m_blStart).toNat + j]?)
      ∧ (((p : Int) - st.m_blStart).toNat + samples.length : Int) = (p : Int) - st.m_blEnd
      ∧ channelPixel env st ts ch wf = .ok (some px)
      ∧ px.value = clipAmplitude st.m_calib_range_min st.m_calib_range_max
          (env.tf1Eval fn
            (Double.num ((wf[p] : ℚ) - ((samples.sum : Nat) : ℚ) / (samples.length : ℚ))))
      ∧ (∀ b : Nat, (∀ v ∈ samples, v = b) →
          (∀ x : ℚ, env.tf1Eval fn (Double.num x) = Double.num x) →
          st.m_calib_range_min ≤ (wf[p] : ℚ) - b → (wf[p] : ℚ) - b ≤ st.m_calib_range_max →
          px.value = Double.num ((wf[p] : ℚ) - b)) := by
  have hbase : ((p : Int) - st.m_blStart).toNat + (st.m_blStart - st.m_blEnd).toNat
      ≤ wf.length := by omega
  have hp31 := maxElement_int32 st wf p hmax
  have hblStart := st.int_range.1
  unfold IsInt32 at hblStart
  have hlen := window_length wf _ _ hbase
  have hcast : (((st.m_blStart - st.m_blEnd).toNat : Nat) : Int) = st.m_blStart - st.m_blEnd := by
    omega
  have hcastQ : (((st.m_blStart - st.m_blEnd).toNat : Nat) : ℚ)
      = ((st.m_blStart - st.m_blEnd : Int) : ℚ) := by
    have h := hcast
    generalize (st.m_blStart - st.m_blEnd).toNat = n at h
    rw [← h]
    exact (Int.cast_natCast n).symm
  have hpix := channelPixel_pushed_num env st ts ch wf p fn xy hmax hguard (by omega)
    (Or.inr ⟨by omega, by omega⟩) (by unfold IsInt32; omega) (by omega) hp hfn hxy
  refine ⟨_, _, rfl, ?_, ?_, ?_, hpix, ?_, ?_⟩
  · rw [hlen]; exact hcast
  · intro j hj
    simp only [window, List.getElem?_take, List.getElem?_drop]
    rw [hlen] at hj
    rw [if_pos hj]
  · rw [hlen]; omega
  · simp only [hlen, hcastQ]
  · intro b hflat hid hlo hhi
    have hsum := sum_of_constant _ b hflat
    rw [hlen] at hsum
    have hn : ((st.m_blStart - st.m_blEnd : Int) : ℚ) ≠ 0 := by
      have : st.m_blStart - st.m_blEnd ≠ 0 := by omega
      exact_mod_cast this
    have hmean : (((window wf ((p : Int) - st.m_blStart).toNat
        (st.m_blStart - st.m_blEnd).toNat).sum : Nat) : ℚ)
        / ((st.m_blStart - st.m_blEnd : Int) : ℚ) = b := by
      rw [hsum, Nat.cast_mul, hcastQ]
      exact mul_div_cancel_left₀ _ hn
    simp only [hmean, hid]
    exact clipAmplitude_inside _ _ _ hlo hhi

/-- The waveform `[5, 5, 5, 5, 9, 1]` with the amplitude window `[3, 6)`, `blStart = 3` and
`blEnd = 1`: the peak 9 at index 4 over the flat baseline 5 gives the pixel value 4. -/
theorem channelPixel_baseline_mean_witness :
    maxElement [5, 5, 5, 5, 9, 1] shortWindowState.m_ampStart shortWindowState.m_ampEnd = .ok 4
    ∧ ∃ px, channelPixel identityEnv shortWindowState 7 0 [5, 5, 5, 5, 9, 1] = .ok (some px)
        ∧ px.value = 4 := by
  obtain ⟨samples, px, hs, _, _, _, hpx, _, hflat⟩ :=
    channelPixel_baseline_mean identityEnv shortWindowState 7 0 [5, 5, 5, 5, 9, 1] 4
      TF1.default (1, 2) (by rfl) (by decide) (by decide) (by decide) (by decide)
      (by rfl) (by rfl)
  refine ⟨by rfl, px, hpx, ?_⟩
  have h := hflat 5 (by subst hs; decide) (fun _ => rfl)
    (by norm_num [shortWindowState, initialState])
    (by norm_num [shortWindowState, initialState])
  rw [h]
  norm_num
  rfl

/-! ## The pixel loop -/

theorem pixelLoop_channelwise (env : Env) (st : ConvState) (ts : Nat) (wfs : List (List Nat)) :
    ∀ (n ch : Nat) (plane : StandardPlane), ch + n ≤ wfs.length →
      (∀ c, ch ≤ c → c < ch + n → ∃ r, channelPixel env st ts c (wfs.getD c []) = .ok r) →
      pixelLoop env st ts wfs n ch plane = .ok
        { plane with pixels := plane.pixels ++ (List.range' ch n).filterMap (pixelOf env st ts wfs) }
    := by
  intro n
  induction n with
  | zero =>
    intro ch plane _ _
    simp [pixelLoop]
  | succ n ih =>
    intro ch plane hlen hdef
    have hch : ch < wfs.length := by omega
    have e : wfs[ch]? = some wfs[ch] := List.getElem?_eq_getElem hch
    have eD : wfs.getD ch [] = wfs[ch] := by
      rw [List.getD_eq_getElem?_getD, e]; rfl
    obtain ⟨r, hr⟩ := hdef ch (le_refl _) (by omega)
    have hpo : pixelOf env st ts wfs ch = r := by
      simp only [pixelOf, hr]
    rw [eD] at hr
    have ih2 := fun pl => ih (ch + 1) pl (by omega)
      (fun c h1 h2 => hdef c (by omega) (by omega))
    rw [List.range'_succ, List.filterMap_cons, hpo]
    cases r with
    | none =>
      simp only [pixelLoop, e, hr]
      exact ih2 plane
    | some px =>
      simp only [pixelLoop, e, hr]
      rw [ih2]
      simp [StandardPlane.PushPixel]

theorem pixelLoop_fault_first (env : Env) (st : ConvState) (ts : Nat) (wfs : List (List Nat))
    (n ch : Nat) (plane : StandardPlane) (wf : List Nat) (f : Fault)
    (hwf : wfs[ch]? = some wf) (hf : channelPixel env st ts ch wf = .error f) :
    pixelLoop env st ts wfs (n + 1) ch plane = .error f := by
  simp only [pixelLoop, hwf, hf]

theorem burstOneBlock_header (s0 s1 : List Byte) : headerBurst (burstOneBlock s0 s1) = 1 := by
  simp [headerBurst, burstOneBlock]

theorem burstOneBlock_wellFormed (s0 s1 : List Byte) (h0 : s0.length = 2048)
    (h1 : s1.length = 2048) : WellFormedBlock (burstOneBlock s0 s1) := by
  have e : ∀ j, j < 8 →
      (burstOneBlock s0 s1)[2056 + j]? = ([0, 0, 0, 0, 0, 8, 0, 0] : List Byte)[j]? := by
    intro j hj
    unfold burstOneBlock
    rw [List.append_assoc, List.append_assoc, List.getElem?_append_right (by simp; omega),
      List.getElem?_append_right (by simp; omega), List.getElem?_append_left (by simp; omega)]
    congr 1
    simp
    omega
  unfold WellFormedBlock
  rw [burstOneBlock_header]
  refine ⟨?_, ?_, ?_⟩
  · simp [burstOneBlock, h0, h1]
  · simp [sizeField, burstOneBlock]
    rfl
  · simp only [sizeField, e 7 (by omega), e 6 (by omega), e 5 (by omega), e 4 (by omega)]
    rfl

theorem zeroBlock_wellFormed : WellFormedBlock zeroBlock :=
  burstOneBlock_wellFormed _ _ (List.length_replicate _ _) (List.length_replicate _ _)

theorem afterConfigure_trig (st : ConvState) (conf : Configuration) :
    (afterConfigure st conf).trig_ = st.trig_ := by
  unfold afterConfigure
  split
  · rfl
  · rfl

theorem pixelLoop_complete (env : Env) (st : ConvState) (ts : Nat) (wfs : List (List Nat))
    (hw : wfs.length = 16)
    (hdef : ∀ ch, ch < 16 → ∃ r, channelPixel env st ts ch (wfs.getD ch []) = .ok r) :
    pixelLoop env st ts wfs wfs.length 0 emptyPlane = .ok
      { emptyPlane with pixels := (List.range 16).filterMap (pixelOf env st ts wfs) } := by
  have h := pixelLoop_channelwise env st ts wfs 16 0 emptyPlane (by omega)
    (fun c _ hc => hdef c (by omega))
  rw [hw, h, List.range_eq_range']
  simp [emptyPlane]

theorem pixelLoop_defined (env : Env) (st : ConvState) (ts : Nat) (wfs : List (List Nat))
    (hfn : st.m_calib_functions.length = 16) (hw : wfs.length = 16)
    (hlen31 : ∀ ch, ch < 16 → (wfs.getD ch []).length < 2 ^ 31)
    (hwin : ∀ ch, ch < 16 → WindowsInside st (wfs.getD ch []).length) :
    pixelLoop env st ts wfs wfs.length 0 emptyPlane = .ok
      { emptyPlane with pixels := (List.range 16).filterMap (pixelOf env st ts wfs) } :=
  pixelLoop_complete env st ts wfs hw
    (fun c hc => channelPixel_defined env st ts c _ (by omega) hc (hlen31 c hc) (hwin c hc))

theorem filterMap_skip {α β : Type} (f : α → Option β) (c : α) [DecidableEq α] (hc : f c = none) :
    ∀ l : List α, l.filterMap f = (l.filter (fun x => x ≠ c)).filterMap f := by
  intro l
  induction l with
  | nil => rfl
  | cons a t ih =>
    by_cases ha : a = c
    · subst ha
      simp [List.filterMap_cons, hc, ih]
    · simp [List.filterMap_cons, List.filter_cons, ha, ih]

theorem filterMap_agree {α β : Type} (f g : α → Option β) (c : α) [DecidableEq α]
    (h : ∀ x, x ≠ c → f x = g x) :
    ∀ l : List α, (l.filter (fun x => x ≠ c)).filterMap f = (l.filter (fun x => x ≠ c)).filterMap g
    := by
  intro l
  apply List.filterMap_congr
  intro x hx
  have hx2 := (List.mem_filter.mp hx).2
  exact h x (by simpa using hx2)

/-- C10. For a table of sixteen waveforms on which the computation of every channel
is defined (no access outside a waveform), the pixel loop of lines 207-234
completes and the pixels of the plane are, in channel order, the pixels `pixelOf`
of the channels, each computed from that channel's own waveform, the static
members and the event timestamp. For a channel `c` whose peak position `p` has
`p - blStart < 0`: no pixel is pushed for `c`, the pixels are those of the other
channels, and they are the pixels the other channels get in any table that differs
from this one only in the waveform of channel `c` (for instance one in which `c`
is not skipped). -/
theorem pixelLoop_channel_skip (env : Env) (st : ConvState) (ts : Nat) (wfs : List (List Nat))
    (hw : wfs.length = 16)
    (hdef : ∀ ch, ch < 16 → ∃ r, channelPixel env st ts ch (wfs.getD ch []) = .ok r) :
    ∃ plane, pixelLoop env st ts wfs wfs.length 0 emptyPlane = .ok plane
      ∧ plane.pixels = (List.range 16).filterMap (pixelOf env st ts wfs)
      ∧ ∀ c p, c < 16 → maxElement (wfs.getD c []) st.m_ampStart st.m_ampEnd = .ok p →
          (p : Int) - st.m_blStart < 0 →
          pixelOf env st ts wfs c = none
          ∧ plane.pixels = ((List.range 16).filter (fun ch => ch ≠ c)).filterMap
              (pixelOf env st ts wfs)
          ∧ ∀ wfs2 : List (List Nat), wfs2.length = 16 →
              (∀ ch, ch < 16 → ∃ r, channelPixel env st ts ch (wfs2.getD ch []) = .ok r) →
              (∀ d, d ≠ c → wfs2.getD d [] = wfs.getD d []) →
              ∃ plane2, pixelLoop env st ts wfs2 wfs2.length 0 emptyPlane = .ok plane2
                ∧ plane2.pixels = (List.range 16).filterMap (pixelOf env st ts wfs2)
                ∧ (∀ d, d ≠ c → pixelOf env st ts wfs2 d = pixelOf env st ts wfs d)
                ∧ plane.pixels = ((List.range 16).filter (fun ch => ch ≠ c)).filterMap
                    (pixelOf env st ts wfs2) := by
  refine ⟨_, pixelLoop_complete env st ts wfs hw hdef, rfl, ?_⟩
  intro c p _ hmax hguard
  have hnone : pixelOf env st ts wfs c = none := by
    simp only [pixelOf, channelPixel_skipped env st ts c _ p hmax hguard]
  have hfilter := filterMap_skip (pixelOf env st ts wfs) c hnone (List.range 16)
  refine ⟨hnone, hfilter, ?_⟩
  intro wfs2 hw2 hdef2 hagree
  have hsame : ∀ d, d ≠ c → pixelOf env st ts wfs2 d = pixelOf env st ts wfs d := by
    intro d hd
    simp only [pixelOf, hagree d hd]
  refine ⟨_, pixelLoop_complete env st ts wfs2 hw2 hdef2, rfl, hsame, ?_⟩
  show (List.range 16).filterMap (pixelOf env st ts wfs) = _
  rw [hfilter]
  exact (filterMap_agree _ _ c hsame (List.range 16)).symm

theorem skipTable_windows : ∀ ch, ch < 16 → WindowsInside skipState (skipTable.getD ch []).length := by
  intro ch hch
  have hlen : (skipTable.getD ch []).length = 6 := by
    interval_cases ch <;> rfl
  rw [hlen]
  unfold WindowsInside
  decide

/-- In `skipTable` under `skipState` channel 0 peaks at index 3, before `blStart = 5`:
it is skipped and the plane holds the pixels of the other fifteen channels. -/
theorem pixelLoop_channel_skip_witness :
    maxElement (skipTable.getD 0 []) skipState.m_ampStart skipState.m_ampEnd = .ok 3
    ∧ ((3 : Nat) : Int) - skipState.m_blStart < 0
    ∧ ∃ plane, pixelLoop identityEnv skipState 0 skipTable skipTable.length 0 emptyPlane = .ok plane
        ∧ pixelOf identityEnv skipState 0 skipTable 0 = none
        ∧ plane.pixels = ((List.range 16).filter (fun ch => ch ≠ 0)).filterMap
            (pixelOf identityEnv skipState 0 skipTable) := by
  obtain ⟨plane, hpl, _, hskip⟩ := pixelLoop_channel_skip identityEnv skipState 0 skipTable
    (by rfl) (fun ch hch => channelPixel_defined identityEnv skipState 0 ch _
      (by rw [show skipState.m_calib_functions.length = 16 from rfl]; exact hch) hch
      (by interval_cases ch <;> decide) (skipTable_windows ch hch))
  have h := hskip 0 3 (by omega) (by rfl) (by decide)
  exact ⟨by rfl, by decide, plane, hpl, h.1, h.2.1⟩

theorem WindowsInside_afterRunStart (st1 : ConvState) (t len : Nat)
    (h : WindowsInside st1 len) : WindowsInside (afterRunStart st1 t) len := by
  have hf := afterRunStart_fields st1 t
  unfold WindowsInside peakBound at h ⊢
  rw [hf.2.2.1, hf.2.2.2.1, hf.2.2.2.2.1, hf.2.2.2.2.2.1]
  exact h

theorem Converting_wellFormed (env : Env) (st : ConvState) (block : List Byte)
    (d2 : StandardEvent) (conf : Configuration) (h : st.Sized) (hwf : WellFormedBlock block)
    (hdump : (afterConfigure st conf).m_waveform_filename = "")
    (hwin : WindowsInside (afterConfigure st conf) (headerBurst block * 128)) :
    ∃ dec, decodeBlock env block = .ok dec ∧
      Converting env st block d2 conf =
        ⟨.returned true,
         { afterRunStart (afterConfigure st conf) dec.timestamp0 with
             trig_ := (st.trig_ + 1) % 2 ^ 64 },
         { planes := d2.planes ++ [{ emptyPlane with pixels := ((List.range 16).filterMap
               (pixelOf env (afterRunStart (afterConfigure st conf) dec.timestamp0)
                 dec.timestamp0 dec.waveforms)) }]
           timeBegin := relTime dec.timestamp0
             (afterRunStart (afterConfigure st conf) dec.timestamp0).m_runStartTime
           timeEnd := relTime dec.timestamp0
             (afterRunStart (afterConfigure st conf) dec.timestamp0).m_runStartTime
           triggerN := st.trig_
           detectorType := "AD9249" }⟩ := by
  obtain ⟨dec, hdec, hlen16, hlens⟩ := decodeBlock_wellFormed env block hwf
  have h4 : 4 ≤ block.length := by have := hwf.1; omega
  have hb := burstLength_long block h4
  have hlen : ¬ block.length < evtLength (headerBurst block) := by
    rw [evtLength_eq _ (headerBurst_lt block)]
    have := hwf.1
    omega
  have hsized := afterConfigure_sized st conf h
  have hf := afterRunStart_fields (afterConfigure st conf) dec.timestamp0
  have hloop := pixelLoop_defined env (afterRunStart (afterConfigure st conf) dec.timestamp0)
    dec.timestamp0 dec.waveforms (by rw [hf.2.2.2.2.2.2.1]; exact hsized.2) hlen16
    (fun ch hch => by
      rw [hlens ch hch]
      have := headerBurst_lt block
      omega)
    (fun ch hch => by
      rw [hlens ch hch]
      exact WindowsInside_afterRunStart _ _ _ hwin)
  refine ⟨dec, hdec, ?_⟩
  rw [Converting_pixels env st block d2 conf h _ dec hb hlen hdec hdump, hloop,
    afterConfigure_trig]

end AD9249

namespace AD9249

theorem insideConfiguration_fields :
    (afterConfigure initialState insideConfiguration).m_waveform_filename = ""
    ∧ (afterConfigure initialState insideConfiguration).m_ampStart = 20
    ∧ (afterConfigure initialState insideConfiguration).m_ampEnd = 100
    ∧ (afterConfigure initialState insideConfiguration).m_blStart = 10
    ∧ (afterConfigure initialState insideConfiguration).m_blEnd = 5 := by
  simp [afterConfigure, configure, initialState, insideConfiguration, Configuration.GetInt,
    Configuration.GetString, toInt32]

theorem Converting_dump_eq (env : Env) (st : ConvState) (block : List Byte)
    (d2 : StandardEvent) (conf : Configuration) (h : st.Sized) (burst : Nat) (dec : Decoded)
    (hb : burstLength block = .ok burst) (hlen : ¬ block.length < evtLength burst)
    (hd : decodeBlock env block = .ok dec)
    (hdump : (afterConfigure st conf).m_waveform_filename ≠ "") :
    Converting env st block d2 conf =
      match dumpLoop (afterConfigure st conf).trig_ dec.waveforms dec.waveforms.length 0 [] with
      | .error f => ⟨.fault f, afterRunStart (afterConfigure st conf) dec.timestamp0, d2⟩
      | .ok lines =>
        ⟨.returned false,
         { afterRunStart (afterConfigure st conf) dec.timestamp0 with
             m_outfile_waveforms :=
               (afterRunStart (afterConfigure st conf) dec.timestamp0).m_outfile_waveforms ++ lines
             trig_ := ((afterConfigure st conf).trig_ + 1) % 2 ^ 64 },
         d2⟩ := by
  have hdump2 : (afterRunStart (afterConfigure st conf) dec.timestamp0).m_waveform_filename ≠ ""
    := by rw [(afterRunStart_fields _ _).1]; exact hdump
  have htrig := (afterRunStart_fields (afterConfigure st conf) dec.timestamp0).2.1
  simp only [Converting, configStage_eq st conf h, hb, hlen, if_false, hd]
  rw [if_pos hdump2]
  simp only [htrig]

theorem Converting_sized (env : Env) (st : ConvState) (block : List Byte)
    (d2 : StandardEvent) (conf : Configuration) (h : st.Sized) :
    (Converting env st block d2 conf).state.Sized := by
  have hs := afterConfigure_sized st conf h
  have hrs : ∀ t, (afterRunStart (afterConfigure st conf) t).Sized := by
    intro t
    unfold afterRunStart
    split
    · exact hs
    · exact hs
  cases hb : burstLength block with
  | error f => rw [Converting_header_fault env st block d2 conf h f hb]; exact hs
  | ok burst =>
    by_cases hlen : block.length < evtLength burst
    · rw [Converting_insufficient env st block d2 conf h burst hb hlen]; exact hs
    · cases hd : decodeBlock env block with
      | error f => rw [Converting_decode_fault env st block d2 conf h burst f hb hlen hd]; exact hs
      | ok dec =>
        by_cases hdump : (afterConfigure st conf).m_waveform_filename = ""
        · rw [Converting_pixels env st block d2 conf h burst dec hb hlen hd hdump]
          split
          · exact hrs _
          · exact hrs _
        · rw [Converting_dump_eq env st block d2 conf h burst dec hb hlen hd hdump]
          split
          · exact hrs _
          · exact hrs _

/-- C5. For `adc` in {0, 1}, a sub-block whose size is a multiple of 16 and lies
inside the data, and a table of sixteen waveforms: `decodeChannel` returns, each of
the channels `8 * adc + c` (`c < 8`) has `size / 16` samples appended, the `k`-th
being the 14-bit value of the byte pair at `offset + 2 * (8 * k + c)`, and the eight
channels of the other ADC half are unchanged. Hence on a well-formed block the two
calls made by `Converting` leave `burstLength * 128` samples in each of the sixteen
channels. -/
theorem decodeChannel_demultiplexes :
    (∀ (env : Env) (adc : Nat) (data : List Byte) (size offset : Nat) (wfs : List (List Nat))
        (ts : Nat),
        adc ≤ 1 → size % 16 = 0 → offset + size ≤ data.length → wfs.length = 16 →
        ∃ wfs1 ts1, decodeChannel env adc data size offset wfs ts = .ok (wfs1, ts1)
          ∧ wfs1.length = 16
          ∧ (∀ c, c < 8 → wfs1.getD (8 * adc + c) [] = wfs.getD (8 * adc + c) [] ++
              (List.range (size / 16)).map (fun k => sampleAt data (offset + 2 * (8 * k + c))))
          ∧ (∀ c, c < 8 → wfs1.getD (8 * (1 - adc) + c) [] = wfs.getD (8 * (1 - adc) + c) []))
    ∧ (∀ (env : Env) (block : List Byte), WellFormedBlock block →
        ∃ dec, decodeBlock env block = .ok dec
          ∧ dec.waveforms.length = 16
          ∧ ∀ ch, ch < 16 → (dec.waveforms.getD ch []).length = headerBurst block * 128) := by
  refine ⟨?_, fun env block hwf => decodeBlock_wellFormed env block hwf⟩
  intro env adc data size offset wfs ts hadc hsize hin hw
  obtain ⟨wfs1, ts1, hd, hlen, hsame, hother⟩ :=
    decodeChannel_waveforms env adc data size offset wfs ts hadc hsize hin hw
  refine ⟨wfs1, ts1, hd, hlen, ?_, ?_⟩
  · intro c hc
    rw [Nat.mul_comm 8 adc]
    exact hsame c hc
  · intro c _
    exact hother _ (by omega)

/-- One row of eight samples decoded into an empty table, and the all-zero block of
burst length 1. -/
theorem decodeChannel_demultiplexes_witness :
    (∃ wfs1 ts1, decodeChannel identityEnv 0 demoRow 16 0 (List.replicate 16 []) 0
        = .ok (wfs1, ts1)
      ∧ wfs1.getD 3 [] = [4] ∧ wfs1.getD 11 [] = [])
    ∧ (WellFormedBlock zeroBlock
      ∧ ∃ dec, decodeBlock identityEnv zeroBlock = .ok dec
          ∧ (dec.waveforms.getD 15 []).length = 128) := by
  constructor
  · obtain ⟨wfs1, ts1, hd, _, hsame, hother⟩ := decodeChannel_demultiplexes.1 identityEnv 0
      demoRow 16 0 (List.replicate 16 []) 0 (by decide) (by decide) (by decide) (by rfl)
    refine ⟨wfs1, ts1, hd, ?_, ?_⟩
    · rw [hsame 3 (by decide)]
      decide
    · rw [hother 3 (by decide)]
      decide
  · obtain ⟨dec, hd, _, hlens⟩ := decodeChannel_demultiplexes.2 identityEnv zeroBlock
      zeroBlock_wellFormed
    refine ⟨zeroBlock_wellFormed, dec, hd, ?_⟩
    rw [hlens 15 (by decide), zeroBlock, burstOneBlock_header]

/-- C6 (failing input). In `noiseThenMarker` the first start-marker row is row 1 and
three more rows follow; all status fields from row 1 on are zero, so the sum the
claim describes is 0. The loop of `decodeChannel` has already added the field 1 of
row 0 (at position 0) when the index is reset at the end of row 0, and the
accumulated timestamp is not reset with it: the raw timestamp is 1. -/
theorem decodeChannel_keeps_fields_before_marker :
    (statusRows noiseThenMarker 80 0).findIdx? isStartRow = some 1
    ∧ (statusRows noiseThenMarker 80 0).length = 5
    ∧ claimedRawTimestamp (statusRows noiseThenMarker 80 0) = some 0
    ∧ rawTimestamp 0 noiseThenMarker 80 0 = some 1 := by
  refine ⟨by decide, by decide, by decide, by decide⟩

/-! ## Timestamp reconstruction -/

theorem timestampFold_append (adc : Nat) (data : List Byte) (offset : Nat) (js ks : List Nat)
    (tsv : Nat × Nat) :
    timestampFold adc data offset (js ++ ks) tsv
      = timestampFold adc data offset ks (timestampFold adc data offset js tsv) := by
  simp only [timestampFold, List.foldl_append]

theorem shift_eq_pow4 (f x : Nat) : f <<< (2 * x) = f * 4 ^ x := by
  rw [Nat.shiftLeft_eq, Nat.pow_mul]

theorem timestampFold_data (adc : Nat) (data : List Byte) (offset r : Nat) :
    ∀ (n c0 t i : Nat), c0 + n ≤ 7 → i + n ≤ 28 → t < 2 ^ 64 →
      timestampFold adc data offset (List.range' (8 * r + c0) n) (t, i)
        = ((t + ((List.range n).map
            (fun k => statusAt data offset (8 * r + c0 + k) * 4 ^ (i + k))).sum) % 2 ^ 64,
           i + n) := by
  intro n
  induction n with
  | zero =>
    intro c0 t i _ _ ht
    have hmod : t % 2 ^ 64 = t := Nat.mod_eq_of_lt ht
    simp only [timestampFold, List.range'_zero, List.foldl_nil, List.range_zero, List.map_nil,
      List.sum_nil, Nat.add_zero, hmod]
  | succ n ih =>
    intro c0 t i hc hi ht
    have hcat := @List.range'_concat 1 (8 * r + c0) n
    rw [Nat.one_mul] at hcat
    rw [hcat, timestampFold_append, ih c0 t i (by omega) (by omega) ht]
    have hmod : (8 * r + (c0 + n)) % 8 = c0 + n := by omega
    have h28 : ¬ 28 ≤ i + n := by omega
    have hch : ¬ adc * 8 + (c0 + n) = adc * 8 + 7 := by omega
    simp only [timestampFold, List.foldl_cons, List.foldl_nil, timestampStep, hmod, h28,
      if_false, hch, shift_eq_pow4, Nat.mod_add_mod, List.range_succ, List.map_append,
      List.map_cons, List.map_nil, List.sum_append, List.sum_cons, List.sum_nil, Nat.add_zero,
      Nat.add_assoc]

theorem timestampFold_row (adc : Nat) (data : List Byte) (offset r t i : Nat)
    (hi : i = 0 ∨ i = 7 ∨ i = 14 ∨ i = 21) (ht : t < 2 ^ 64) :
    timestampFold adc data offset (List.range' (8 * r) 8) (t, i)
      = ((t + rowSum data offset r i) % 2 ^ 64,
          if i = 0 ∧ statusAt data offset (8 * r + 7) &&& 1 = 0 then 0 else i + 7) := by
  have hcat := @List.range'_concat 1 (8 * r) 7
  rw [Nat.one_mul] at hcat
  have hdata := timestampFold_data adc data offset r 7 0 t i (by omega) (by omega) ht
  rw [Nat.add_zero] at hdata
  rw [hcat, timestampFold_append, hdata]
  have hmod : (8 * r + 7) % 8 = 7 := by omega
  have hsum : ((List.range 7).map
      (fun k => statusAt data offset (8 * r + k) * 4 ^ (i + k))).sum
      = rowSum data offset r i := rfl
  rw [hsum]
  simp only [timestampFold, List.foldl_cons, List.foldl_nil, timestampStep, hmod]
  rcases hi with h | h | h | h
  · subst h
    simp
    split <;> rfl
  · subst h
    simp
  · subst h
    simp
  · subst h
    simp

theorem timestampFold_full (adc : Nat) (data : List Byte) (offset : Nat) (js : List Nat)
    (t i : Nat) (hi : 28 ≤ i) : timestampFold adc data offset js (t, i) = (t, i) := by
  induction js with
  | nil => rfl
  | cons j js ih =>
    simp only [timestampFold, List.foldl_cons] at ih ⊢
    have : timestampStep adc (adc * 8 + j % 8) (statusAt data offset j) (t, i) = (t, i) := by
      simp [timestampStep, hi]
    rw [this]
    exact ih

theorem timestampFold_row_later (adc : Nat) (data : List Byte) (offset r t i : Nat)
    (hi : i = 7 ∨ i = 14 ∨ i = 21) (ht : t < 2 ^ 64) :
    timestampFold adc data offset (List.range' (8 * r) 8) (t, i)
      = ((t + rowSum data offset r i) % 2 ^ 64, i + 7) := by
  rw [timestampFold_row adc data offset r t i (Or.inr hi) ht]
  have hne : ¬ (i = 0 ∧ statusAt data offset (8 * r + 7) &&& 1 = 0) := by
    intro h
    omega
  rw [if_neg hne]

theorem range_rows_succ (a n : Nat) :
    List.range' (8 * a) (8 * (n + 1))
      = List.range' (8 * a) (8 * n) ++ List.range' (8 * (a + n)) 8 := by
  have h := List.range'_append (8 * a) (8 * n) 8 1
  rw [Nat.one_mul] at h
  have e1 : 8 * a + 8 * n = 8 * (a + n) := by omega
  have e2 : 8 + 8 * n = 8 * (n + 1) := by omega
  rw [e1, e2] at h
  exact h.symm

theorem timestampFold_noise (adc : Nat) (data : List Byte) (offset : Nat) :
    ∀ (s t : Nat), t < 2 ^ 64 →
      (∀ r, r < s → statusAt data offset (8 * r + 7) &&& 1 = 0) →
      timestampFold adc data offset (List.range' (8 * 0) (8 * s)) (t, 0)
        = ((t + noiseSum data offset s) % 2 ^ 64, 0) := by
  intro s
  induction s with
  | zero =>
    intro t ht _
    have hmod : t % 2 ^ 64 = t := Nat.mod_eq_of_lt ht
    simp only [timestampFold, noiseSum, Nat.mul_zero, List.range'_zero, List.foldl_nil,
      List.range_zero, List.map_nil, List.sum_nil, Nat.add_zero, hmod]
  | succ s ih =>
    intro t ht hnoise
    rw [range_rows_succ, timestampFold_append, ih t ht (fun r hr => hnoise r (by omega)),
      Nat.zero_add, timestampFold_row adc data offset s _ 0 (Or.inl rfl)
        (Nat.mod_lt _ (by decide))]
    have hbit := hnoise s (by omega)
    have hsum : noiseSum data offset (s + 1) = noiseSum data offset s + rowSum data offset s 0 := by
      simp only [noiseSum, List.range_succ, List.map_append, List.map_cons, List.map_nil,
        List.sum_append, List.sum_cons, List.sum_nil, Nat.add_zero]
    rw [hsum, Nat.mod_add_mod, if_pos ⟨rfl, hbit⟩, Nat.add_assoc]

theorem timestampFold_marker (adc : Nat) (data : List Byte) (offset s t : Nat)
    (ht : t < 2 ^ 64) (hstart : statusAt data offset (8 * s + 7) &&& 1 = 1) :
    timestampFold adc data offset (List.range' (8 * s) (8 * 4)) (t, 0)
      = ((t + markerSum data offset s) % 2 ^ 64, 28) := by
  have hlt : ∀ x : Nat, x % 2 ^ 64 < 2 ^ 64 := fun x => Nat.mod_lt _ (by decide)
  have hne : ¬ ((0 : Nat) = 0 ∧ statusAt data offset (8 * s + 7) &&& 1 = 0) := by
    rw [hstart]
    decide
  rw [range_rows_succ, range_rows_succ, range_rows_succ, range_rows_succ]
  simp only [Nat.mul_zero, List.range'_zero, List.nil_append, Nat.add_zero,
    timestampFold_append]
  rw [timestampFold_row adc data offset s t 0 (Or.inl rfl) ht, if_neg hne,
    timestampFold_row_later adc data offset (s + 1) _ 7 (Or.inl rfl) (hlt _),
    timestampFold_row_later adc data offset (s + 2) _ 14 (Or.inr (Or.inl rfl)) (hlt _),
    timestampFold_row_later adc data offset (s + 3) _ 21 (Or.inr (Or.inr rfl)) (hlt _)]
  simp only [Nat.mod_add_mod, markerSum, Nat.add_assoc]

theorem decodeStep_timestamp (adc : Nat) (data : List Byte) (offset k : Nat) (s : DecState)
    (hadc : adc ≤ 1) (hw : s.waveforms.length = 16) (hin : offset + 2 * k + 2 ≤ data.length) :
    ∃ s1, decodeStep adc data offset (offset + 2 * k) s = .ok s1
      ∧ s1.waveforms.length = 16
      ∧ (s1.timestamp, s1.ts_i) = timestampStep adc (adc * 8 + k % 8) (statusAt data offset k)
          (s.timestamp, s.ts_i) := by
  have h0 : offset + 2 * k < data.length := by omega
  have h1 : offset + 2 * k + 1 < data.length := by omega
  have e0 : data[offset + 2 * k]? = some data[offset + 2 * k] := List.getElem?_eq_getElem h0
  have e1 : data[offset + 2 * k + 1]? = some data[offset + 2 * k + 1] :=
    List.getElem?_eq_getElem h1
  have hk : (offset + 2 * k - offset) / 2 = k := by omega
  have hch : adc * 8 + k % 8 < s.waveforms.length := by omega
  have ew : s.waveforms[adc * 8 + k % 8]? = some s.waveforms[adc * 8 + k % 8] :=
    List.getElem?_eq_getElem hch
  have hstep : decodeStep adc data offset (offset + 2 * k) s = .ok
      { waveforms := s.waveforms.set (adc * 8 + k % 8)
          (s.waveforms[adc * 8 + k % 8] ++
            [sampleValue data[offset + 2 * k] data[offset + 2 * k + 1]])
        timestamp := (timestampStep adc (adc * 8 + k % 8)
          (sampleStatus data[offset + 2 * k + 1]) (s.timestamp, s.ts_i)).1
        ts_i := (timestampStep adc (adc * 8 + k % 8)
          (sampleStatus data[offset + 2 * k + 1]) (s.timestamp, s.ts_i)).2 } := by
    simp only [decodeStep, e0, e1, hk, ew]
  refine ⟨_, hstep, ?_, ?_⟩
  · simp [hw]
  · simp [statusAt, List.getD_eq_getElem?_getD, e1]

theorem decodeLoop_timestamp (adc : Nat) (data : List Byte) (offset : Nat) (hadc : adc ≤ 1) :
    ∀ (n k : Nat) (s : DecState), s.waveforms.length = 16 →
      offset + 2 * (k + n) ≤ data.length →
      ∃ s1, decodeLoop adc data offset n (offset + 2 * k) s = .ok s1
        ∧ (s1.timestamp, s1.ts_i)
            = timestampFold adc data offset (List.range' k n) (s.timestamp, s.ts_i) := by
  intro n
  induction n with
  | zero =>
    intro k s _ _
    exact ⟨s, rfl, rfl⟩
  | succ n ih =>
    intro k s hw hin
    obtain ⟨s1, hs1, hlen1, ht1⟩ := decodeStep_timestamp adc data offset k s hadc hw (by omega)
    obtain ⟨s2, hs2, ht2⟩ := ih (k + 1) s1 hlen1 (by omega)
    refine ⟨s2, ?_, ?_⟩
    · simp only [decodeLoop, hs1]
      have : offset + 2 * k + 2 = offset + 2 * (k + 1) := by omega
      rw [this]
      exact hs2
    · rw [ht2, ht1, List.range'_succ]
      rfl

theorem rawTimestamp_eq_fold (adc : Nat) (data : List Byte) (size offset : Nat)
    (hadc : adc ≤ 1) (hsize : size % 16 = 0) (hin : offset + size ≤ data.length) :
    rawTimestamp adc data size offset
      = some (timestampFold adc data offset (List.range' 0 (8 * (size / 16))) (0, 0)).1 := by
  have hn : (size + 1) / 2 = 8 * (size / 16) := by omega
  obtain ⟨s1, hs1, ht⟩ := decodeLoop_timestamp adc data offset hadc (8 * (size / 16)) 0
    { waveforms := List.replicate 16 [], timestamp := 0, ts_i := 0 } (by simp) (by omega)
  have hs2 : decodeChannelRaw adc data size offset (List.replicate 16 []) 0 = .ok s1 := by
    unfold decodeChannelRaw
    rw [hn]
    simpa using hs1
  simp only [rawTimestamp, hs2]
  rw [← ht]

theorem range_split (s m : Nat) (h : s + 4 ≤ m) :
    List.range' 0 (8 * m) = List.range' (8 * 0) (8 * s) ++ (List.range' (8 * s) (8 * 4)
      ++ List.range' (8 * (s + 4)) (8 * (m - (s + 4)))) := by
  have h1 := List.range'_append (8 * s) (8 * 4) (8 * (m - (s + 4))) 1
  have h2 := List.range'_append 0 (8 * s) (8 * (m - (s + 4)) + 8 * 4) 1
  rw [Nat.one_mul] at h1 h2
  have e1 : 8 * s + 8 * 4 = 8 * (s + 4) := by omega
  have e2 : 8 * (m - (s + 4)) + 8 * 4 + 8 * s = 8 * m := by omega
  rw [e1] at h1
  rw [Nat.zero_add, e2] at h2
  rw [Nat.mul_zero, h1, h2]

/-- What the loop of `decodeChannel` accumulates from 0 on a sub-block whose first
start-marker row is row `s`, followed by at least three more rows: the 28 fields
from row `s` on at positions `0 .. 27`, plus the seven fields of every row before
row `s` at positions `0 .. 6`, modulo `2 ^ 64`. -/
theorem rawTimestamp_with_marker (adc : Nat) (data : List Byte) (size offset s : Nat)
    (hadc : adc ≤ 1) (hsize : size % 16 = 0) (hin : offset + size ≤ data.length)
    (hnoise : ∀ r, r < s → statusAt data offset (8 * r + 7) &&& 1 = 0)
    (hstart : statusAt data offset (8 * s + 7) &&& 1 = 1) (hrows : s + 4 ≤ size / 16) :
    rawTimestamp adc data size offset
      = some ((noiseSum data offset s + markerSum data offset s) % 2 ^ 64) := by
  rw [rawTimestamp_eq_fold adc data size offset hadc hsize hin, range_split s _ hrows,
    timestampFold_append, timestampFold_append,
    timestampFold_noise adc data offset s 0 (by decide) hnoise,
    timestampFold_marker adc data offset s _ (Nat.mod_lt _ (by decide)) hstart,
    timestampFold_full adc data offset _ _ 28 (le_refl _), Nat.zero_add, Nat.mod_add_mod]

theorem statusRows_field (data : List Byte) (size offset r c : Nat) (hr : r < size / 16)
    (hc : c < 8) :
    ((statusRows data size offset).getD r []).getD c 0 = statusAt data offset (8 * r + c) := by
  simp [statusRows, List.getD_eq_getElem?_getD, List.getElem?_map, List.getElem?_range, hr, hc]

theorem statusRows_length (data : List Byte) (size offset : Nat) :
    (statusRows data size offset).length = size / 16 := by
  simp [statusRows]

theorem statusRows_isStart (data : List Byte) (size offset r : Nat) (hr : r < size / 16) :
    isStartRow ((statusRows data size offset).getD r []) = true
      ↔ statusAt data offset (8 * r + 7) &&& 1 = 1 := by
  unfold isStartRow
  rw [statusRows_field data size offset r 7 hr (by decide), Nat.and_one_is_mod]
  simp

theorem statusRows_findIdx (data : List Byte) (size offset s : Nat)
    (hnoise : ∀ r, r < s → statusAt data offset (8 * r + 7) &&& 1 = 0)
    (hstart : statusAt data offset (8 * s + 7) &&& 1 = 1) (hrows : s + 4 ≤ size / 16) :
    (statusRows data size offset).findIdx? isStartRow = some s := by
  have hlen := statusRows_length data size offset
  have hget : ∀ r (h : r < (statusRows data size offset).length),
      (statusRows data size offset)[r] = (statusRows data size offset).getD r [] := by
    intro r h
    rw [List.getD_eq_getElem?_getD, List.getElem?_eq_getElem h]
    rfl
  rw [List.findIdx?_eq_some_iff_getElem]
  refine ⟨by omega, ?_, ?_⟩
  · rw [hget, statusRows_isStart data size offset s (by omega)]
    exact hstart
  · intro j hj
    rw [hget, statusRows_isStart data size offset j (by omega), hnoise j hj]
    decide

theorem markerSum_eq (data : List Byte) (size offset s : Nat) (hrows : s + 4 ≤ size / 16) :
    ((List.range 28).map (fun k =>
        ((statusRows data size offset).getD (s + k / 7) []).getD (k % 7) 0 * 4 ^ k)).sum
      = markerSum data offset s := by
  have hterm : ∀ k, k ∈ List.range 28 →
      ((statusRows data size offset).getD (s + k / 7) []).getD (k % 7) 0 * 4 ^ k
        = statusAt data offset (8 * (s + k / 7) + k % 7) * 4 ^ k := by
    intro k hk
    have hk28 : k < 28 := List.mem_range.mp hk
    rw [statusRows_field data size offset (s + k / 7) (k % 7) (by omega) (by omega)]
  rw [List.map_congr_left hterm]
  simp only [markerSum, rowSum, List.range_succ, List.range_zero, List.nil_append,
    List.cons_append, List.map_cons, List.map_nil, List.sum_cons, List.sum_nil]
  norm_num
  ring

theorem claimed_eq_markerSum (data : List Byte) (size offset s : Nat)
    (hnoise : ∀ r, r < s → statusAt data offset (8 * r + 7) &&& 1 = 0)
    (hstart : statusAt data offset (8 * s + 7) &&& 1 = 1) (hrows : s + 4 ≤ size / 16) :
    claimedRawTimestamp (statusRows data size offset) = some (markerSum data offset s) := by
  have hlen := statusRows_length data size offset
  have hlt : s + 3 < (statusRows data size offset).length := by omega
  simp only [claimedRawTimestamp, statusRows_findIdx data size offset s hnoise hstart hrows, hlt, if_true,
    markerSum_eq data size offset s hrows]

theorem statusAt_le (data : List Byte) (offset j : Nat) : statusAt data offset j ≤ 3 := by
  unfold statusAt
  rw [sampleStatus_eq]
  have h := (data.getD (offset + 2 * j + 1) 0).isLt
  omega

theorem rowSum_le (data : List Byte) (offset r sh : Nat) :
    rowSum data offset r sh ≤ ((List.range 7).map (fun c => 3 * 4 ^ (sh + c))).sum := by
  unfold rowSum
  apply List.sum_le_sum
  intro c _
  exact Nat.mul_le_mul_right _ (statusAt_le data offset (8 * r + c))

theorem markerSum_lt (data : List Byte) (offset s : Nat) : markerSum data offset s < 2 ^ 56 := by
  have h0 := rowSum_le data offset s 0
  have h1 := rowSum_le data offset (s + 1) 7
  have h2 := rowSum_le data offset (s + 2) 14
  have h3 := rowSum_le data offset (s + 3) 21
  have e0 : ((List.range 7).map (fun c => 3 * 4 ^ (0 + c))).sum = 16383 := by decide
  have e1 : ((List.range 7).map (fun c => 3 * 4 ^ (7 + c))).sum = 268419072 := by decide
  have e2 : ((List.range 7).map (fun c => 3 * 4 ^ (14 + c))).sum = 4397778075648 := by decide
  have e3 : ((List.range 7).map (fun c => 3 * 4 ^ (21 + c))).sum = 72053195991416832 := by
    decide
  rw [e0] at h0
  rw [e1] at h1
  rw [e2] at h2
  rw [e3] at h3
  unfold markerSum
  have hpow : (2 : Nat) ^ 56 = 72057594037927936 := by decide
  omega

theorem noiseSum_zero (data : List Byte) (offset s : Nat)
    (hzero : ∀ r c, r < s → c < 7 → statusAt data offset (8 * r + c) = 0) :
    noiseSum data offset s = 0 := by
  unfold noiseSum
  apply List.sum_eq_zero
  intro x hx
  obtain ⟨r, hr, rfl⟩ := List.mem_map.mp hx
  unfold rowSum
  apply List.sum_eq_zero
  intro y hy
  obtain ⟨c, hc, rfl⟩ := List.mem_map.mp hy
  rw [hzero r c (List.mem_range.mp hr) (List.mem_range.mp hc), Nat.zero_mul]

/-- The raw timestamp of the code against the raw timestamp of the specification:
on a sub-block whose first start-marker row is row `s`, followed by at least three
more rows, the loop returns the specified sum `c` plus the fields of the rows before
row `s` (modulo `2 ^ 64`). -/
theorem rawTimestamp_vs_specification (adc : Nat) (data : List Byte) (size offset s : Nat)
    (hadc : adc ≤ 1) (hsize : size % 16 = 0) (hin : offset + size ≤ data.length)
    (hnoise : ∀ r, r < s → statusAt data offset (8 * r + 7) &&& 1 = 0)
    (hstart : statusAt data offset (8 * s + 7) &&& 1 = 1) (hrows : s + 4 ≤ size / 16) :
    ∃ c, claimedRawTimestamp (statusRows data size offset) = some c
      ∧ c < 2 ^ 56
      ∧ rawTimestamp adc data size offset = some ((noiseSum data offset s + c) % 2 ^ 64) :=
  ⟨markerSum data offset s, claimed_eq_markerSum data size offset s hnoise hstart hrows,
    markerSum_lt data offset s,
    rawTimestamp_with_marker adc data size offset s hadc hsize hin hnoise hstart hrows⟩

/-- When every field of the non-status channels before the first start-marker row
is zero (in particular when the sub-block begins with the start-marker row), the
loop returns the raw timestamp of the specification. -/
theorem rawTimestamp_clean (adc : Nat) (data : List Byte) (size offset s : Nat)
    (hadc : adc ≤ 1) (hsize : size % 16 = 0) (hin : offset + size ≤ data.length)
    (hnoise : ∀ r, r < s → statusAt data offset (8 * r + 7) &&& 1 = 0)
    (hstart : statusAt data offset (8 * s + 7) &&& 1 = 1) (hrows : s + 4 ≤ size / 16)
    (hzero : ∀ r c, r < s → c < 7 → statusAt data offset (8 * r + c) = 0) :
    rawTimestamp adc data size offset = claimedRawTimestamp (statusRows data size offset) := by
  rw [rawTimestamp_with_marker adc data size offset s hadc hsize hin hnoise hstart hrows,
    claimed_eq_markerSum data size offset s hnoise hstart hrows,
    noiseSum_zero data offset s hzero, Nat.zero_add]
  have h := markerSum_lt data offset s
  have hlt : markerSum data offset s < 2 ^ 64 := by
    have hpow : (2 : Nat) ^ 56 < 2 ^ 64 := by decide
    omega
  rw [Nat.mod_eq_of_lt hlt]

/-! ## The peak search returns the first maximum of the window -/

theorem getD_of_lt (wf : List Nat) (j : Nat) (h : j < wf.length) : wf.getD j 0 = wf[j] := by
  rw [List.getD_eq_getElem?_getD, List.getElem?_eq_getElem h]
  rfl

theorem maxElementLoop_firstMax (wf : List Nat) (a : Nat) :
    ∀ (n first largest : Nat), first + n ≤ wf.length → IsFirstMax wf a first largest →
      ∃ p, maxElementLoop wf n first largest = .ok p ∧ IsFirstMax wf a (first + n) p := by
  intro n
  induction n with
  | zero =>
    intro first largest _ h
    exact ⟨largest, rfl, h⟩
  | succ n ih =>
    intro first largest hlen h
    obtain ⟨h1, h2, h3, h4⟩ := h
    have hl : largest < wf.length := by omega
    have hf : first < wf.length := by omega
    have e1 : wf[largest]? = some wf[largest] := List.getElem?_eq_getElem hl
    have e2 : wf[first]? = some wf[first] := List.getElem?_eq_getElem hf
    have d1 := getD_of_lt wf largest hl
    have d2 := getD_of_lt wf first hf
    simp only [maxElementLoop, e1, e2]
    have hstep : first + 1 + n = first + (n + 1) := by omega
    by_cases hc : wf[largest] < wf[first]
    · rw [if_pos hc]
      obtain ⟨p, hp, hq⟩ := ih (first + 1) first (by omega) ⟨by omega, by omega, by
        intro j hj1 hj2
        by_cases hjf : j = first
        · rw [hjf]
        · have := h3 j hj1 (by omega)
          omega, by
        intro j hj1 hj2
        have := h3 j hj1 hj2
        omega⟩
      rw [hstep] at hq
      exact ⟨p, hp, hq⟩
    · rw [if_neg hc]
      obtain ⟨p, hp, hq⟩ := ih (first + 1) largest (by omega) ⟨h1, by omega, by
        intro j hj1 hj2
        by_cases hjf : j = first
        · rw [hjf]
          omega
        · exact h3 j hj1 (by omega), h4⟩
      rw [hstep] at hq
      exact ⟨p, hp, hq⟩

theorem maxElement_firstMax (wf : List Nat) (ampStart ampEnd : Int) (h0 : 0 ≤ ampStart)
    (hlt : ampStart < ampEnd) (hlen : ampEnd ≤ wf.length) :
    ∃ p : Nat, maxElement wf ampStart ampEnd = .ok p
      ∧ IsFirstMax wf ampStart.toNat ampEnd.toNat p := by
  have hcond : 0 ≤ ampStart ∧ ampStart ≤ ampEnd ∧ ampEnd ≤ wf.length :=
    ⟨h0, le_of_lt hlt, hlen⟩
  have hne : ¬ ampStart = ampEnd := ne_of_lt hlt
  obtain ⟨p, hp, hq⟩ := maxElementLoop_firstMax wf ampStart.toNat
    (ampEnd - ampStart - 1).toNat (ampStart.toNat + 1) ampStart.toNat (by omega)
    ⟨le_refl _, by omega, by
      intro j hj1 hj2
      have : j = ampStart.toNat := by omega
      rw [this], by
      intro j hj1 hj2
      omega⟩
  have hend : ampStart.toNat + 1 + (ampEnd - ampStart - 1).toNat = ampEnd.toNat := by omega
  rw [hend] at hq
  refine ⟨p, ?_, hq⟩
  simp only [maxElement, hcond, and_self, if_true, hne, if_false]
  exact hp

theorem IsFirstMax_unique (wf : List Nat) (a b p q : Nat) (hp : IsFirstMax wf a b p)
    (hq : IsFirstMax wf a b q) : p = q := by
  obtain ⟨p1, p2, p3, p4⟩ := hp
  obtain ⟨q1, q2, q3, q4⟩ := hq
  by_contra hne
  rcases Nat.lt_or_gt_of_ne hne with h | h
  · have := q4 p p1 h
    have := p3 q q1 q2
    omega
  · have := p4 q q1 h
    have := q3 p p1 p2
    omega

theorem IsFirstMax_congr (wf wf2 : List Nat) (a b p : Nat)
    (hagree : ∀ j, a ≤ j → j < b → wf2.getD j 0 = wf.getD j 0) (hp : IsFirstMax wf2 a b p) :
    IsFirstMax wf a b p := by
  obtain ⟨p1, p2, p3, p4⟩ := hp
  refine ⟨p1, p2, ?_, ?_⟩
  · intro j hj1 hj2
    rw [← hagree j hj1 hj2, ← hagree p p1 p2]
    exact p3 j hj1 hj2
  · intro j hj1 hj2
    rw [← hagree j hj1 (by omega), ← hagree p p1 p2]
    exact p4 j hj1 hj2

/-- C17. For a waveform with at least `ampEnd` samples and `0 ≤ ampStart < ampEnd`,
the peak search of lines 210-211 returns a position `p` with
`ampStart ≤ p < ampEnd`; the sample at `p` is at least every sample of the window
`[ampStart, ampEnd)`, every sample of the window before `p` is strictly smaller
(so `p` is the smallest index attaining the maximum), and any waveform that agrees
with this one on the window gives the same `p`. -/
theorem maxElement_first_maximum (wf : List Nat) (ampStart ampEnd : Int) (h0 : 0 ≤ ampStart)
    (hlt : ampStart < ampEnd) (hlen : ampEnd ≤ wf.length) :
    ∃ p : Nat, maxElement wf ampStart ampEnd = .ok p
      ∧ ampStart ≤ p ∧ (p : Int) < ampEnd
      ∧ (∀ j : Nat, ampStart ≤ j → (j : Int) < ampEnd → wf.getD j 0 ≤ wf.getD p 0)
      ∧ (∀ j : Nat, ampStart ≤ j → j < p → wf.getD j 0 < wf.getD p 0)
      ∧ (∀ wf2 : List Nat, ampEnd ≤ wf2.length →
          (∀ j : Nat, ampStart ≤ j → (j : Int) < ampEnd → wf2.getD j 0 = wf.getD j 0) →
          maxElement wf2 ampStart ampEnd = .ok p) := by
  obtain ⟨p, hp, hq⟩ := maxElement_firstMax wf ampStart ampEnd h0 hlt hlen
  have hq' := hq
  obtain ⟨q1, q2, q3, q4⟩ := hq
  refine ⟨p, hp, by omega, by omega, ?_, ?_, ?_⟩
  · intro j hj1 hj2
    exact q3 j (by omega) (by omega)
  · intro j hj1 hj2
    exact q4 j (by omega) hj2
  · intro wf2 hlen2 hagree
    obtain ⟨p2, hp2, hq2⟩ := maxElement_firstMax wf2 ampStart ampEnd h0 hlt hlen2
    have hcongr := IsFirstMax_congr wf wf2 _ _ p2
      (fun j hj1 hj2 => hagree j (by omega) (by omega)) hq2
    rw [hp2, IsFirstMax_unique wf _ _ p2 p hcongr hq']

/-- The waveform `[5, 9, 2, 9, 9, 1]` with the window `[1, 5)`: the maximum 9 is first
attained at index 1. -/
theorem maxElement_first_maximum_witness :
    maxElement [5, 9, 2, 9, 9, 1] 1 5 = .ok 1
    ∧ ∃ p : Nat, maxElement [5, 9, 2, 9, 9, 1] 1 5 = .ok p ∧ (1 : Int) ≤ p ∧ (p : Int) < 5 := by
  obtain ⟨p, hp, h1, h2, _⟩ := maxElement_first_maximum [5, 9, 2, 9, 9, 1] 1 5
    (by decide) (by decide) (by decide)
  exact ⟨by decide, p, hp, h1, h2⟩

theorem mapping_nodup : mapping.Nodup := by decide

theorem mapping_inside : ∀ xy ∈ mapping, 0 ≤ xy.1 ∧ xy.1 < 4 ∧ 0 ≤ xy.2 ∧ xy.2 < 4 := by decide

theorem mapping_onto : ∀ x ∈ List.range 4, ∀ y ∈ List.range 4, ((x : Int), (y : Int)) ∈ mapping := by
  decide

theorem calibrationKey_values : mapping.map calibrationKey =
    ["calibration_px12", "calibration_px02", "calibration_px11", "calibration_px10",
     "calibration_px03", "calibration_px01", "calibration_px00", "calibration_px20",
     "calibration_px21", "calibration_px30", "calibration_px32", "calibration_px33",
     "calibration_px31", "calibration_px22", "calibration_px23", "calibration_px13"] := by
  decide

theorem calibrationKey_nodup : (mapping.map calibrationKey).Nodup := by
  rw [calibrationKey_values]
  decide

theorem decodeStep_length (adc : Nat) (data : List Byte) (offset i : Nat) (s s1 : DecState)
    (h : decodeStep adc data offset i s = .ok s1) :
    s1.waveforms.length = s.waveforms.length := by
  unfold decodeStep at h
  cases h0 : data[i]? with
  | none => rw [h0] at h; exact absurd h (by simp)
  | some lo =>
    cases h1 : data[i + 1]? with
    | none => rw [h0, h1] at h; exact absurd h (by simp)
    | some hi =>
      rw [h0, h1] at h
      simp only at h
      cases hw : s.waveforms[adc * 8 + (i - offset) / 2 % 8]? with
      | none => rw [hw] at h; exact absurd h (by simp)
      | some wf =>
        rw [hw] at h
        injection h with h
        rw [← h]
        simp

theorem decodeLoop_length (adc : Nat) (data : List Byte) (offset : Nat) :
    ∀ (n i : Nat) (s s1 : DecState), decodeLoop adc data offset n i s = .ok s1 →
      s1.waveforms.length = s.waveforms.length := by
  intro n
  induction n with
  | zero =>
    intro i s s1 h
    injection h with h
    rw [h]
  | succ n ih =>
    intro i s s1 h
    simp only [decodeLoop] at h
    cases hs : decodeStep adc data offset i s with
    | error f => rw [hs] at h; exact absurd h (by simp)
    | ok s2 =>
      rw [hs] at h
      rw [ih (i + 2) s2 s1 h, decodeStep_length adc data offset i s s2 hs]

theorem decodeChannel_length (env : Env) (adc : Nat) (data : List Byte) (size offset : Nat)
    (wfs wfs1 : List (List Nat)) (ts ts1 : Nat)
    (h : decodeChannel env adc data size offset wfs ts = .ok (wfs1, ts1)) :
    wfs1.length = wfs.length ∧ ts1 < 2 ^ 64 := by
  unfold decodeChannel at h
  cases hr : decodeChannelRaw adc data size offset wfs ts with
  | error f => rw [hr] at h; exact absurd h (by simp)
  | ok s =>
    rw [hr] at h
    injection h with h
    injection h with h1 h2
    unfold decodeChannelRaw at hr
    have := decodeLoop_length adc data offset _ _ _ _ hr
    rw [← h1, ← h2]
    exact ⟨this, Nat.mod_lt _ (by decide)⟩

theorem decodeBlock_length (env : Env) (block : List Byte) (dec : Decoded)
    (h : decodeBlock env block = .ok dec) :
    dec.waveforms.length = 16 ∧ dec.timestamp0 < 2 ^ 64 := by
  unfold decodeBlock at h
  cases h0 : sizeField block 0 with
  | error f => rw [h0] at h; exact absurd h (by simp)
  | ok s0 =>
    rw [h0] at h
    simp only at h
    cases h1 : sizeField block (8 + s0) with
    | error f => rw [h1] at h; exact absurd h (by simp)
    | ok s1 =>
      rw [h1] at h
      simp only at h
      cases hd0 : decodeChannel env 0 block s0 8 (List.replicate 16 []) 0 with
      | error f => rw [hd0] at h; exact absurd h (by simp)
      | ok r0 =>
        obtain ⟨wfs0, t0⟩ := r0
        rw [hd0] at h
        simp only at h
        cases hd1 : decodeChannel env 1 block s1 (2 * 8 + s0) wfs0 0 with
        | error f => rw [hd1] at h; exact absurd h (by simp)
        | ok r1 =>
          obtain ⟨wfs1, t1⟩ := r1
          rw [hd1] at h
          simp only at h
          injection h with h
          have l0 := decodeChannel_length env 0 block s0 8 _ _ _ _ hd0
          have l1 := decodeChannel_length env 1 block s1 _ _ _ _ _ hd1
          rw [← h]
          refine ⟨?_, l0.2⟩
          show wfs1.length = 16
          rw [l1.1, l0.1]
          simp

theorem Converting_returned_true (env : Env) (st : ConvState) (block : List Byte)
    (d2 : StandardEvent) (conf : Configuration) (h : st.Sized)
    (htrue : (Converting env st block d2 conf).outcome = .returned true) :
    ∃ burst dec plane, burstLength block = .ok burst
      ∧ ¬ block.length < evtLength burst
      ∧ decodeBlock env block = .ok dec
      ∧ (afterConfigure st conf).m_waveform_filename = ""
      ∧ pixelLoop env (afterRunStart (afterConfigure st conf) dec.timestamp0) dec.timestamp0
          dec.waveforms dec.waveforms.length 0 emptyPlane = .ok plane
      ∧ Converting env st block d2 conf = successResult (afterConfigure st conf) dec plane d2 := by
  cases hb : burstLength block with
  | error f =>
    rw [Converting_header_fault env st block d2 conf h f hb] at htrue
    exact absurd htrue (by simp)
  | ok burst =>
    by_cases hlen : block.length < evtLength burst
    · rw [Converting_insufficient env st block d2 conf h burst hb hlen] at htrue
      exact absurd htrue (by simp)
    · cases hd : decodeBlock env block with
      | error f =>
        rw [Converting_decode_fault env st block d2 conf h burst f hb hlen hd] at htrue
        exact absurd htrue (by simp)
      | ok dec =>
        by_cases hdump : (afterConfigure st conf).m_waveform_filename = ""
        · have hconv := Converting_pixels env st block d2 conf h burst dec hb hlen hd hdump
          cases hp : pixelLoop env (afterRunStart (afterConfigure st conf) dec.timestamp0)
              dec.timestamp0 dec.waveforms dec.waveforms.length 0 emptyPlane with
          | error f =>
            rw [hconv, hp] at htrue
            exact absurd htrue (by simp)
          | ok plane =>
            rw [hp] at hconv
            exact ⟨burst, dec, plane, rfl, hlen, rfl, hdump, hp, hconv⟩
        · exact absurd htrue
            (Converting_dump env st block d2 conf h burst dec hb hlen hd hdump).1

theorem pixelLoop_ok_defined (env : Env) (st : ConvState) (ts : Nat) (wfs : List (List Nat)) :
    ∀ (n ch : Nat) (plane plane1 : StandardPlane),
      pixelLoop env st ts wfs n ch plane = .ok plane1 →
      ∀ c, ch ≤ c → c < ch + n → ∃ r, channelPixel env st ts c (wfs.getD c []) = .ok r := by
  intro n
  induction n with
  | zero =>
    intro ch plane plane1 _ c h1 h2
    omega
  | succ n ih =>
    intro ch plane plane1 h c h1 h2
    simp only [pixelLoop] at h
    cases hw : wfs[ch]? with
    | none => rw [hw] at h; exact absurd h (by simp)
    | some wf =>
      rw [hw] at h
      simp only at h
      have hD : wfs.getD ch [] = wf := by
        rw [List.getD_eq_getElem?_getD, hw]
        rfl
      cases hc : channelPixel env st ts ch wf with
      | error f => rw [hc] at h; exact absurd h (by simp)
      | ok r =>
        rw [hc] at h
        by_cases hcc : c = ch
        · rw [hcc, hD]
          exact ⟨r, hc⟩
        · cases r with
          | none => exact ih (ch + 1) plane plane1 h c (by omega) (by omega)
          | some px => exact ih (ch + 1) _ plane1 h c (by omega) (by omega)

theorem channelPixel_some (env : Env) (st : ConvState) (ts ch : Nat) (wf : List Nat) (px : Pixel)
    (h : channelPixel env st ts ch wf = .ok (some px)) :
    mapping[ch]? = some (px.x, px.y) ∧ px.time = ts
      ∧ ∃ p : Nat, maxElement wf st.m_ampStart st.m_ampEnd = .ok p
          ∧ ¬ (p : Int) - st.m_blStart < 0 := by
  unfold channelPixel at h
  cases hm : maxElement wf st.m_ampStart st.m_ampEnd with
  | error f => rw [hm] at h; exact absurd h (by simp)
  | ok p =>
    rw [hm] at h
    simp only at h
    by_cases hg : (p : Int) - st.m_blStart < 0
    · rw [if_pos hg] at h
      exact absurd h (by simp)
    · rw [if_neg hg] at h
      split at h
      · exact absurd h (by simp)
      cases hb : baselineLoop wf
          (((p : Int) - st.m_blEnd) - toInt32 ((p : Int) - st.m_blStart)).toNat
          (toInt32 ((p : Int) - st.m_blStart)).toNat 0 with
      | error f => rw [hb] at h; exact absurd h (by simp)
      | ok sum =>
        rw [hb] at h
        simp only at h
        split at h
        · exact absurd h (by simp)
        cases hf : st.m_calib_functions[ch]? with
        | none => rw [hf] at h; exact absurd h (by simp)
        | some fn =>
          cases hp : wf[p]? with
          | none => rw [hf, hp] at h; exact absurd h (by simp)
          | some peak =>
            cases hxy : mapping[ch]? with
            | none => rw [hf, hp, hxy] at h; exact absurd h (by simp)
            | some xy =>
              rw [hf, hp, hxy] at h
              simp only at h
              injection h with h
              injection h with h
              rw [← h]
              exact ⟨rfl, rfl, p, rfl, hg⟩

theorem channelPixel_none (env : Env) (st : ConvState) (ts ch : Nat) (wf : List Nat)
    (h : channelPixel env st ts ch wf = .ok none) :
    ∃ p : Nat, maxElement wf st.m_ampStart st.m_ampEnd = .ok p
      ∧ (p : Int) - st.m_blStart < 0 := by
  unfold channelPixel at h
  cases hm : maxElement wf st.m_ampStart st.m_ampEnd with
  | error f => rw [hm] at h; exact absurd h (by simp)
  | ok p =>
    rw [hm] at h
    simp only at h
    by_cases hg : (p : Int) - st.m_blStart < 0
    · exact ⟨p, rfl, hg⟩
    · rw [if_neg hg] at h
      split at h
      · exact absurd h (by simp)
      cases hb : baselineLoop wf
          (((p : Int) - st.m_blEnd) - toInt32 ((p : Int) - st.m_blStart)).toNat
          (toInt32 ((p : Int) - st.m_blStart)).toNat 0 with
      | error f => rw [hb] at h; exact absurd h (by simp)
      | ok sum =>
        rw [hb] at h
        simp only at h
        split at h
        · exact absurd h (by simp)
        cases hf : st.m_calib_functions[ch]? with
        | none => rw [hf] at h; exact absurd h (by simp)
        | some fn =>
          cases hp : wf[p]? with
          | none => rw [hf, hp] at h; exact absurd h (by simp)
          | some peak =>
            cases hxy : mapping[ch]? with
            | none => rw [hf, hp, hxy] at h; exact absurd h (by simp)
            | some xy =>
              rw [hf, hp, hxy] at h
              exact absurd h (by simp)

theorem baselineReads_eq : ∀ (n i : Nat), baselineReads n i = List.range' i n := by
  intro n
  induction n with
  | zero => intro i; rfl
  | succ n ih => intro i; simp [baselineReads, ih, List.range'_succ]

theorem baselineLoop_reads (wf : List Nat) :
    ∀ (n i : Nat) (acc : ℚ), (∀ j ∈ baselineReads n i, j < wf.length) →
      baselineLoop wf n i acc
        = .ok (acc + ((((baselineReads n i).map (fun j => wf.getD j 0)).sum : Nat) : ℚ)) := by
  intro n
  induction n with
  | zero => intro i acc _; simp [baselineLoop, baselineReads]
  | succ n ih =>
    intro i acc h
    have hi : i < wf.length := h i (by simp [baselineReads])
    have e : wf[i]? = some wf[i] := List.getElem?_eq_getElem hi
    have eD : wf.getD i 0 = wf[i] := getD_of_lt wf i hi
    simp only [baselineLoop, e, baselineReads, List.map_cons, List.sum_cons, eD]
    rw [ih (i + 1) _ (fun j hj => h j (by simp [baselineReads, hj]))]
    push_cast
    rw [add_assoc]

/-- C21. For a channel whose peak position `p` passes the guard of line 214
(`p - blStart ≥ 0`) with `0 ≤ blEnd ≤ blStart`: every index at which the baseline
loop of lines 221-223 reads the waveform is below `p`, hence inside the waveform and
strictly before the peak; the loop reads exactly the indices
`p - blStart, ..., p - blEnd - 1`; their number is the divisor `blStart - blEnd` of
line 224; the loop completes with the sum of the samples at these indices; and the
`int` loop index of line 221 holds these indices unchanged (narrowing the start to
`int` keeps its value, and the bound of the loop is at most the largest `int`). -/
theorem baselineLoop_reads_before_peak (st : ConvState) (wf : List Nat) (p : Nat)
    (hmax : maxElement wf st.m_ampStart st.m_ampEnd = .ok p)
    (hguard : ¬ (p : Int) - st.m_blStart < 0)
    (hblEnd : 0 ≤ st.m_blEnd) (hbl : st.m_blEnd ≤ st.m_blStart) :
    (∀ j ∈ baselineReads (((p : Int) - st.m_blEnd) - ((p : Int) - st.m_blStart)).toNat
        ((p : Int) - st.m_blStart).toNat, j < p ∧ j < wf.length)
    ∧ baselineReads (((p : Int) - st.m_blEnd) - ((p : Int) - st.m_blStart)).toNat
        ((p : Int) - st.m_blStart).toNat
        = List.range' ((p : Int) - st.m_blStart).toNat (st.m_blStart - st.m_blEnd).toNat
    ∧ (((p : Int) - st.m_blStart).toNat : Int) = (p : Int) - st.m_blStart
    ∧ ((baselineReads (((p : Int) - st.m_blEnd) - ((p : Int) - st.m_blStart)).toNat
        ((p : Int) - st.m_blStart).toNat).length : Int) = st.m_blStart - st.m_blEnd
    ∧ baselineLoop wf (((p : Int) - st.m_blEnd) - ((p : Int) - st.m_blStart)).toNat
        ((p : Int) - st.m_blStart).toNat 0
        = .ok ((((baselineReads (((p : Int) - st.m_blEnd) - ((p : Int) - st.m_blStart)).toNat
            ((p : Int) - st.m_blStart).toNat).map (fun j => wf.getD j 0)).sum : Nat) : ℚ)
    ∧ toInt32 ((p : Int) - st.m_blStart) = (p : Int) - st.m_blStart
    ∧ (p : Int) - st.m_blEnd ≤ 2 ^ 31 - 1 := by
  have hp := (maxElement_le_length wf _ _ p hmax).2.2.1
  have hp31 := maxElement_int32 st wf p hmax
  have hn : (((p : Int) - st.m_blEnd) - ((p : Int) - st.m_blStart)).toNat
      = (st.m_blStart - st.m_blEnd).toNat := by congr 1; omega
  have hin : ∀ j ∈ baselineReads (((p : Int) - st.m_blEnd) - ((p : Int) - st.m_blStart)).toNat
      ((p : Int) - st.m_blStart).toNat, j < p ∧ j < wf.length := by
    intro j hj
    rw [baselineReads_eq, List.mem_range'_1] at hj
    omega
  refine ⟨hin, ?_, ?_, ?_, ?_, toInt32_of_int32 _ (by unfold IsInt32; omega), by omega⟩
  · rw [baselineReads_eq, hn]
  · omega
  · rw [baselineReads_eq, List.length_range']
    omega
  · rw [baselineLoop_reads wf _ _ 0 (fun j hj => (hin j hj).2)]
    simp

theorem baselineLoop_reads_before_peak_witness :
    maxElement [5, 5, 5, 5, 9, 1] shortWindowState.m_ampStart shortWindowState.m_ampEnd = .ok 4
    ∧ ¬ ((4 : Nat) : Int) - shortWindowState.m_blStart < 0
    ∧ (0 : Int) ≤ shortWindowState.m_blEnd
    ∧ shortWindowState.m_blEnd ≤ shortWindowState.m_blStart
    ∧ baselineReads (((4 : Nat) : Int) - shortWindowState.m_blEnd
        - (((4 : Nat) : Int) - shortWindowState.m_blStart)).toNat
        (((4 : Nat) : Int) - shortWindowState.m_blStart).toNat = [1, 2]
    ∧ ∀ j ∈ baselineReads (((4 : Nat) : Int) - shortWindowState.m_blEnd
        - (((4 : Nat) : Int) - shortWindowState.m_blStart)).toNat
        (((4 : Nat) : Int) - shortWindowState.m_blStart).toNat,
        j < 4 ∧ j < [5, 5, 5, 5, 9, 1].length :=
  ⟨by decide, by decide, by decide, by decide, by decide,
   (baselineLoop_reads_before_peak shortWindowState [5, 5, 5, 5, 9, 1] 4 (by decide) (by decide)
     (by decide) (by decide)).1⟩

theorem Converting_success_shape (env : Env) (st : ConvState) (block : List Byte)
    (d2 : StandardEvent) (conf : Configuration) (h : st.Sized)
    (htrue : (Converting env st block d2 conf).outcome = .returned true) :
    ∃ dec, decodeBlock env block = .ok dec
      ∧ dec.waveforms.length = 16
      ∧ dec.timestamp0 < 2 ^ 64
      ∧ (afterConfigure st conf).m_waveform_filename = ""
      ∧ (∀ ch, ch < 16 → ∃ r, channelPixel env
            (afterRunStart (afterConfigure st conf) dec.timestamp0) dec.timestamp0 ch
            (dec.waveforms.getD ch []) = .ok r)
      ∧ Converting env st block d2 conf = successResult (afterConfigure st conf) dec
          { emptyPlane with pixels := ((List.range 16).filterMap
              (pixelOf env (afterRunStart (afterConfigure st conf) dec.timestamp0)
                dec.timestamp0 dec.waveforms)) } d2 := by
  obtain ⟨burst, dec, plane, _, _, hd, hdump, hp, hconv⟩ :=
    Converting_returned_true env st block d2 conf h htrue
  obtain ⟨h16, hts⟩ := decodeBlock_length env block dec hd
  have hdef : ∀ ch, ch < 16 → ∃ r, channelPixel env
      (afterRunStart (afterConfigure st conf) dec.timestamp0) dec.timestamp0 ch
      (dec.waveforms.getD ch []) = .ok r := by
    intro ch hch
    exact pixelLoop_ok_defined env _ _ _ _ 0 emptyPlane plane hp ch (by omega) (by omega)
  have hcomp := pixelLoop_complete env _ dec.timestamp0 dec.waveforms h16 hdef
  rw [hp] at hcomp
  injection hcomp with hcomp
  subst hcomp
  exact ⟨dec, hd, h16, hts, hdump, hdef, hconv⟩

theorem pixelOf_some (env : Env) (st : ConvState) (ts : Nat) (wfs : List (List Nat)) (ch : Nat)
    (px : Pixel) (h : pixelOf env st ts wfs ch = some px) :
    mapping[ch]? = some px.coords ∧ px.time = ts
      ∧ channelPixel env st ts ch (wfs.getD ch []) = .ok (some px) := by
  unfold pixelOf at h
  cases hc : channelPixel env st ts ch (wfs.getD ch []) with
  | error f => rw [hc] at h; exact absurd h (by simp)
  | ok r =>
    rw [hc] at h
    simp only at h
    subst h
    obtain ⟨h1, h2, _⟩ := channelPixel_some env st ts ch _ px hc
    exact ⟨h1, h2, rfl⟩

theorem filterMap_sublist_of {α β : Type} (f g : α → Option β)
    (h : ∀ x, f x = none ∨ f x = g x) :
    ∀ l : List α, (l.filterMap f).Sublist (l.filterMap g) := by
  intro l
  induction l with
  | nil => simp
  | cons a t ih =>
    rcases h a with ha | ha
    · rw [List.filterMap_cons, ha]
      simp only
      cases hg : g a with
      | none => rw [List.filterMap_cons, hg]; exact ih
      | some b => rw [List.filterMap_cons, hg]; exact List.Sublist.cons _ ih
    · rw [List.filterMap_cons, List.filterMap_cons, ha]
      cases hg : g a with
      | none => exact ih
      | some b => exact List.Sublist.cons₂ _ ih

theorem range_filterMap_mapping : (List.range 16).filterMap (fun c => mapping[c]?) = mapping := by
  decide

theorem pixels_coords_sublist (env : Env) (st : ConvState) (ts : Nat) (wfs : List (List Nat)) :
    (((List.range 16).filterMap (pixelOf env st ts wfs)).map Pixel.coords).Sublist mapping := by
  rw [List.map_filterMap]
  have h := filterMap_sublist_of
    (fun c => Option.map Pixel.coords (pixelOf env st ts wfs c)) (fun c => mapping[c]?)
    (by
      intro c
      cases hp : pixelOf env st ts wfs c with
      | none => left; simp [hp]
      | some px =>
        right
        simp only [hp, Option.map_some']
        exact (pixelOf_some env st ts wfs c px hp).1.symm)
    (List.range 16)
  rw [range_filterMap_mapping] at h
  exact h

theorem readCalibration_names (conf : Configuration) (rmin rmax : ℚ) :
    ∀ (n i : Nat) (strs : List String) (fns : List TF1),
      i + n = strs.length → strs.length ≤ 16 →
      (readCalibration conf rmin rmax n i strs fns).2.1.map TF1.name
        = fns.map TF1.name
          ++ ((List.range' i n).filterMap (fun c => mapping[c]?)).map calibrationKey := by
  intro n
  induction n with
  | zero => intro i strs fns _ _; simp [readCalibration]
  | succ n ih =>
    intro i strs fns h1 h2
    have hi : i < mapping.length := by rw [mapping_length]; omega
    have hs : i < strs.length := by omega
    have e1 : mapping[i]? = some mapping[i] := List.getElem?_eq_getElem hi
    have e2 : strs[i]? = some strs[i] := List.getElem?_eq_getElem hs
    simp only [readCalibration, e1, e2]
    rw [ih (i + 1) _ _ (by rw [List.length_set]; omega) (by rw [List.length_set]; omega)]
    simp [List.range'_succ, e1, calibrationKey]

theorem configure_names (st : ConvState) (conf : Configuration) (h : st.Sized) :
    (configure st conf).1.m_calib_functions.map TF1.name = mapping.map calibrationKey := by
  have h16 := h.1
  have hn := readCalibration_names conf (conf.GetDouble "calib_range_min" st.m_calib_range_min)
    (conf.GetDouble "calib_range_max" st.m_calib_range_max) st.m_calib_strings.length 0
    st.m_calib_strings [] (by omega) (by omega)
  simp only [configure]
  rw [hn, h16, ← List.range_eq_range', range_filterMap_mapping]
  rfl

theorem zeroBlock_windows :
    WindowsInside (afterConfigure initialState insideConfiguration)
      (headerBurst zeroBlock * 128) := by
  have hf := insideConfiguration_fields
  unfold WindowsInside
  rw [hf.2.1, hf.2.2.1, hf.2.2.2.1, hf.2.2.2.2, zeroBlock, burstOneBlock_header]
  decide

theorem zeroBlock_converts (d2 : StandardEvent) :
    (Converting identityEnv initialState zeroBlock d2 insideConfiguration).outcome
      = .returned true := by
  obtain ⟨dec, _, hconv⟩ := Converting_wellFormed identityEnv initialState zeroBlock d2
    insideConfiguration initialState_sized zeroBlock_wellFormed insideConfiguration_fields.1
    zeroBlock_windows
  rw [hconv]

/-- C20. The channel table has 16 pairwise distinct entries, each inside
`[0, 4) × [0, 4)`, and every cell of the 4×4 plane occurs in it, so it is a
bijection from the channels onto the plane declared by `SetSizeZS(4, 4, 0)`; in every
plane produced by a conversion that returns true the pixel coordinates are pairwise
distinct and inside the declared plane size, and there are at most 16 pixels; the 16
configuration keys `calibration_px<x><y>` are pairwise distinct, and they are the
names under which the configuration stage looks the formulas up. -/
theorem mapping_bijection_and_plane_coordinates :
    (mapping.length = 16 ∧ mapping.Nodup
      ∧ (∀ xy ∈ mapping, 0 ≤ xy.1 ∧ xy.1 < 4 ∧ 0 ≤ xy.2 ∧ xy.2 < 4)
      ∧ (∀ x ∈ List.range 4, ∀ y ∈ List.range 4, ((x : Int), (y : Int)) ∈ mapping))
    ∧ (∀ (env : Env) (st : ConvState) (block : List Byte) (d2 : StandardEvent)
        (conf : Configuration), st.Sized →
        (Converting env st block d2 conf).outcome = .returned true →
        ∃ plane, (Converting env st block d2 conf).event.planes = d2.planes ++ [plane]
          ∧ plane.xsize = 4 ∧ plane.ysize = 4
          ∧ (plane.pixels.map Pixel.coords).Nodup
          ∧ (∀ px ∈ plane.pixels, 0 ≤ px.x ∧ px.x < plane.xsize ∧ 0 ≤ px.y ∧ px.y < plane.ysize)
          ∧ plane.pixels.length ≤ 16)
    ∧ (mapping.map calibrationKey).Nodup
    ∧ (∀ (st : ConvState) (conf : Configuration), st.Sized →
        (configure st conf).1.m_calib_functions.map TF1.name = mapping.map calibrationKey) := by
  refine ⟨⟨mapping_length, mapping_nodup, mapping_inside, mapping_onto⟩, ?_,
    calibrationKey_nodup, configure_names⟩
  intro env st block d2 conf h htrue
  obtain ⟨dec, _, _, _, _, _, hconv⟩ := Converting_success_shape env st block d2 conf h htrue
  have hsub := pixels_coords_sublist env (afterRunStart (afterConfigure st conf) dec.timestamp0)
    dec.timestamp0 dec.waveforms
  refine ⟨{ emptyPlane with pixels := ((List.range 16).filterMap
      (pixelOf env (afterRunStart (afterConfigure st conf) dec.timestamp0)
        dec.timestamp0 dec.waveforms)) }, by rw [hconv]; rfl, rfl, rfl, ?_, ?_, ?_⟩
  · exact List.Nodup.sublist hsub mapping_nodup
  · intro px hpx
    have hm : px.coords ∈ mapping := hsub.subset (List.mem_map_of_mem Pixel.coords hpx)
    have := mapping_inside px.coords hm
    simpa [Pixel.coords, emptyPlane] using this
  · have := hsub.length_le
    rw [List.length_map, mapping_length] at this
    exact this

theorem mapping_bijection_and_plane_coordinates_witness :
    initialState.Sized
    ∧ (Converting identityEnv initialState zeroBlock emptyEvent insideConfiguration).outcome
        = .returned true
    ∧ ∃ plane,
        (Converting identityEnv initialState zeroBlock emptyEvent insideConfiguration).event.planes
          = emptyEvent.planes ++ [plane]
        ∧ plane.xsize = 4 ∧ plane.ysize = 4
        ∧ (plane.pixels.map Pixel.coords).Nodup
        ∧ (∀ px ∈ plane.pixels, 0 ≤ px.x ∧ px.x < plane.xsize ∧ 0 ≤ px.y ∧ px.y < plane.ysize)
        ∧ plane.pixels.length ≤ 16 :=
  ⟨initialState_sized, zeroBlock_converts emptyEvent,
   mapping_bijection_and_plane_coordinates.2.1 identityEnv initialState zeroBlock emptyEvent
     insideConfiguration initialState_sized (zeroBlock_converts emptyEvent)⟩

theorem channelPixel_guard_never (env : Env) (st : ConvState) (ts ch : Nat) (wf : List Nat)
    (hbl : st.m_blStart ≤ st.m_ampStart) :
    channelPixel env st ts ch wf ≠ .ok none := by
  intro h
  obtain ⟨p, hmax, hguard⟩ := channelPixel_none env st ts ch wf h
  have := (maxElement_le_length wf _ _ p hmax).1
  omega

theorem filterMap_all_some {α β : Type} (f : α → Option β) (g : α → β) :
    ∀ l : List α, (∀ x ∈ l, f x = some (g x)) → l.filterMap f = l.map g := by
  intro l
  induction l with
  | nil => intro _; rfl
  | cons a t ih =>
    intro h
    rw [List.filterMap_cons, h a (by simp), List.map_cons, ih (fun x hx => h x (by simp [hx]))]

theorem range_map_mapping : (List.range 16).map (fun c => mapping.getD c (0, 0)) = mapping := by
  decide

/-- C19. When `blStart ≤ ampStart` the guard of line 214 never fires: the peak
position of every channel is at least `ampStart`, hence at least `blStart`, so no
channel is skipped. Consequently, under `0 ≤ blStart ≤ ampStart < ampEnd`, the plane
appended by every conversion that returns true has exactly 16 pixels, the pixel of
channel `ch` at position `ch` with the coordinates `mapping[ch]`. The default
members (`blStart = 150`, `ampStart = 170`, `ampEnd = 270`) satisfy the condition,
and a configuration that sets none of the three keys keeps them. -/
theorem guard_never_fires_sixteen_pixels :
    (∀ (env : Env) (st : ConvState) (ts ch : Nat) (wf : List Nat) (p : Nat),
        st.m_blStart ≤ st.m_ampStart →
        maxElement wf st.m_ampStart st.m_ampEnd = .ok p →
        st.m_ampStart ≤ p ∧ st.m_blStart ≤ p ∧ ¬ (p : Int) - st.m_blStart < 0
          ∧ channelPixel env st ts ch wf ≠ .ok none)
    ∧ (∀ (env : Env) (st : ConvState) (block : List Byte) (d2 : StandardEvent)
        (conf : Configuration), st.Sized →
        0 ≤ (afterConfigure st conf).m_blStart →
        (afterConfigure st conf).m_blStart ≤ (afterConfigure st conf).m_ampStart →
        (afterConfigure st conf).m_ampStart < (afterConfigure st conf).m_ampEnd →
        (Converting env st block d2 conf).outcome = .returned true →
        ∃ plane, (Converting env st block d2 conf).event.planes = d2.planes ++ [plane]
          ∧ plane.pixels.length = 16
          ∧ plane.pixels.map Pixel.coords = mapping
          ∧ ∀ ch, ch < 16 → ∃ px, plane.pixels[ch]? = some px ∧ mapping[ch]? = some px.coords)
    ∧ (0 ≤ initialState.m_blStart ∧ initialState.m_blStart ≤ initialState.m_ampStart
        ∧ initialState.m_ampStart < initialState.m_ampEnd
        ∧ 0 ≤ (afterConfigure initialState emptyConfiguration).m_blStart
        ∧ (afterConfigure initialState emptyConfiguration).m_blStart
            ≤ (afterConfigure initialState emptyConfiguration).m_ampStart
        ∧ (afterConfigure initialState emptyConfiguration).m_ampStart
            < (afterConfigure initialState emptyConfiguration).m_ampEnd) := by
  refine ⟨?_, ?_, ?_⟩
  · intro env st ts ch wf p hbl hmax
    have h1 := (maxElement_le_length wf _ _ p hmax).1
    exact ⟨h1, by omega, by omega, channelPixel_guard_never env st ts ch wf hbl⟩
  · intro env st block d2 conf h _ hbl _ htrue
    obtain ⟨dec, _, _, _, _, hdef, hconv⟩ := Converting_success_shape env st block d2 conf h htrue
    have hbl2 : (afterRunStart (afterConfigure st conf) dec.timestamp0).m_blStart
        ≤ (afterRunStart (afterConfigure st conf) dec.timestamp0).m_ampStart := by
      have hf := afterRunStart_fields (afterConfigure st conf) dec.timestamp0
      rw [hf.2.2.1, hf.2.2.2.2.1]
      exact hbl
    have hsome : ∀ c ∈ List.range 16, ∃ px,
        pixelOf env (afterRunStart (afterConfigure st conf) dec.timestamp0) dec.timestamp0
          dec.waveforms c = some px := by
      intro c hc
      rw [List.mem_range] at hc
      obtain ⟨r, hr⟩ := hdef c hc
      cases r with
      | none => exact absurd hr (channelPixel_guard_never env _ _ c _ hbl2)
      | some px => exact ⟨px, by simp only [pixelOf, hr]⟩
    have hcoords : ((List.range 16).filterMap
        (pixelOf env (afterRunStart (afterConfigure st conf) dec.timestamp0) dec.timestamp0
          dec.waveforms)).map Pixel.coords = mapping := by
      rw [List.map_filterMap, filterMap_all_some _ (fun c => mapping.getD c (0, 0)),
        range_map_mapping]
      intro c hc
      obtain ⟨px, hpx⟩ := hsome c hc
      have hm := (pixelOf_some env _ _ _ c px hpx).1
      rw [hpx, Option.map_some', List.getD_eq_getElem?_getD, hm]
      rfl
    have hlen : ((List.range 16).filterMap
        (pixelOf env (afterRunStart (afterConfigure st conf) dec.timestamp0) dec.timestamp0
          dec.waveforms)).length = 16 := by
      have := congrArg List.length hcoords
      rw [List.length_map, mapping_length] at this
      exact this
    refine ⟨{ emptyPlane with pixels := ((List.range 16).filterMap
        (pixelOf env (afterRunStart (afterConfigure st conf) dec.timestamp0)
          dec.timestamp0 dec.waveforms)) }, by rw [hconv]; rfl, hlen, hcoords, ?_⟩
    intro ch hch
    have hlt : ch < ((List.range 16).filterMap
        (pixelOf env (afterRunStart (afterConfigure st conf) dec.timestamp0) dec.timestamp0
          dec.waveforms)).length := by rw [hlen]; exact hch
    refine ⟨_, List.getElem?_eq_getElem hlt, ?_⟩
    have := congrArg (fun l => l[ch]?) hcoords
    simp only [List.getElem?_map, List.getElem?_eq_getElem hlt, Option.map_some'] at this
    exact this.symm
  · simp [afterConfigure, configure, initialState, emptyConfiguration, Configuration.GetInt,
      toInt32]

theorem guard_never_fires_sixteen_pixels_witness :
    initialState.Sized
    ∧ (0 : Int) ≤ (afterConfigure initialState insideConfiguration).m_blStart
    ∧ (afterConfigure initialState insideConfiguration).m_blStart
        ≤ (afterConfigure initialState insideConfiguration).m_ampStart
    ∧ (afterConfigure initialState insideConfiguration).m_ampStart
        < (afterConfigure initialState insideConfiguration).m_ampEnd
    ∧ (Converting identityEnv initialState zeroBlock emptyEvent insideConfiguration).outcome
        = .returned true
    ∧ ∃ plane,
        (Converting identityEnv initialState zeroBlock emptyEvent insideConfiguration).event.planes
          = emptyEvent.planes ++ [plane]
        ∧ plane.pixels.length = 16
        ∧ plane.pixels.map Pixel.coords = mapping
        ∧ ∀ ch, ch < 16 → ∃ px, plane.pixels[ch]? = some px ∧ mapping[ch]? = some px.coords :=
  have hf := insideConfiguration_fields
  have h1 : (0 : Int) ≤ (afterConfigure initialState insideConfiguration).m_blStart := by
    rw [hf.2.2.2.1]; decide
  have h2 : (afterConfigure initialState insideConfiguration).m_blStart
      ≤ (afterConfigure initialState insideConfiguration).m_ampStart := by
    rw [hf.2.2.2.1, hf.2.1]; decide
  have h3 : (afterConfigure initialState insideConfiguration).m_ampStart
      < (afterConfigure initialState insideConfiguration).m_ampEnd := by
    rw [hf.2.1, hf.2.2.1]; decide
  ⟨initialState_sized, h1, h2, h3, zeroBlock_converts emptyEvent,
   guard_never_fires_sixteen_pixels.2.1 identityEnv initialState zeroBlock emptyEvent
     insideConfiguration initialState_sized h1 h2 h3 (zeroBlock_converts emptyEvent)⟩

theorem Converting_returned_false (env : Env) (st : ConvState) (block : List Byte)
    (d2 : StandardEvent) (conf : Configuration) (h : st.Sized)
    (hfalse : (Converting env st block d2 conf).outcome = .returned false) :
    (∃ burst, burstLength block = .ok burst ∧ block.length < evtLength burst
      ∧ Converting env st block d2 conf = ⟨.returned false, afterConfigure st conf, d2⟩)
    ∨ (∃ burst dec lines, burstLength block = .ok burst ∧ ¬ block.length < evtLength burst
      ∧ decodeBlock env block = .ok dec
      ∧ (afterConfigure st conf).m_waveform_filename ≠ ""
      ∧ Converting env st block d2 conf = dumpResult (afterConfigure st conf) dec lines d2) := by
  cases hb : burstLength block with
  | error f =>
    rw [Converting_header_fault env st block d2 conf h f hb] at hfalse
    exact absurd hfalse (by simp)
  | ok burst =>
    by_cases hlen : block.length < evtLength burst
    · exact Or.inl ⟨burst, rfl, hlen, Converting_insufficient env st block d2 conf h burst hb hlen⟩
    · cases hd : decodeBlock env block with
      | error f =>
        rw [Converting_decode_fault env st block d2 conf h burst f hb hlen hd] at hfalse
        exact absurd hfalse (by simp)
      | ok dec =>
        by_cases hdump : (afterConfigure st conf).m_waveform_filename = ""
        · have hconv := Converting_pixels env st block d2 conf h burst dec hb hlen hd hdump
          cases hp : pixelLoop env (afterRunStart (afterConfigure st conf) dec.timestamp0)
              dec.timestamp0 dec.waveforms dec.waveforms.length 0 emptyPlane with
          | error f =>
            rw [hconv, hp] at hfalse
            exact absurd hfalse (by simp)
          | ok plane =>
            rw [hconv, hp] at hfalse
            exact absurd hfalse (by simp)
        · have hconv := Converting_dump_eq env st block d2 conf h burst dec hb hlen hd hdump
          cases hl : dumpLoop (afterConfigure st conf).trig_ dec.waveforms dec.waveforms.length
              0 [] with
          | error f =>
            rw [hconv, hl] at hfalse
            exact absurd hfalse (by simp)
          | ok lines =>
            rw [hl] at hconv
            exact Or.inr ⟨burst, dec, lines, rfl, hlen, rfl, hdump, hconv⟩

theorem Converting_counter (env : Env) (st : ConvState) (block : List Byte)
    (d2 : StandardEvent) (conf : Configuration) (h : st.Sized) :
    ((Converting env st block d2 conf).outcome = .returned true →
      (Converting env st block d2 conf).state.trig_ = (st.trig_ + 1) % 2 ^ 64)
    ∧ (∀ burst, (Converting env st block d2 conf).outcome = .returned false →
        burstLength block = .ok burst → ¬ block.length < evtLength burst →
        (Converting env st block d2 conf).state.trig_ = (st.trig_ + 1) % 2 ^ 64)
    ∧ (∀ burst, burstLength block = .ok burst → block.length < evtLength burst →
        (Converting env st block d2 conf).outcome = .returned false
        ∧ (Converting env st block d2 conf).state.trig_ = st.trig_) := by
  refine ⟨?_, ?_, ?_⟩
  · intro htrue
    obtain ⟨_, dec, plane, _, _, _, _, _, hconv⟩ :=
      Converting_returned_true env st block d2 conf h htrue
    rw [hconv]
    simp [successResult, afterConfigure_trig]
  · intro burst hfalse hb hlen
    rcases Converting_returned_false env st block d2 conf h hfalse with
      ⟨b2, hb2, hlen2, _⟩ | ⟨_, dec, lines, _, _, _, _, hconv⟩
    · rw [hb] at hb2
      injection hb2 with hb2
      subst hb2
      exact absurd hlen2 hlen
    · rw [hconv]
      simp [dumpResult, afterConfigure_trig]
  · intro burst hb hlen
    rw [Converting_insufficient env st block d2 conf h burst hb hlen]
    exact ⟨rfl, afterConfigure_trig st conf⟩

/-- C12, at the failing input. The first call of `Converting`, on a block of four
zero bytes: the header announces burst length 0, so the expected event length is 16
and the call returns false at line 143; the trigger counter, 0 before the call, is
still 0 after it. -/
theorem Converting_insufficient_data_keeps_counter (env : Env) (d2 : StandardEvent)
    (conf : Configuration) :
    initialState.trig_ = 0
    ∧ burstLength ([0, 0, 0, 0] : List Byte) = .ok 0
    ∧ ([0, 0, 0, 0] : List Byte).length < evtLength 0
    ∧ (Converting env initialState [0, 0, 0, 0] d2 conf).outcome = .returned false
    ∧ (Converting env initialState [0, 0, 0, 0] d2 conf).state.trig_ = 0 := by
  have hb : burstLength ([0, 0, 0, 0] : List Byte) = .ok 0 := by decide
  have hlen : ([0, 0, 0, 0] : List Byte).length < evtLength 0 := by decide
  have hc := Converting_insufficient env initialState [0, 0, 0, 0] d2 conf initialState_sized 0
    hb hlen
  refine ⟨rfl, hb, hlen, ?_, ?_⟩
  · rw [hc]
  · rw [hc]
    exact afterConfigure_trig initialState conf

theorem afterRunStart_cache (st1 : ConvState) (t : Nat) :
    (afterRunStart st1 t).cache = st1.cache
    ∧ (afterRunStart st1 t).m_configured = st1.m_configured
    ∧ (afterRunStart st1 t).m_outfile_waveforms = st1.m_outfile_waveforms := by
  unfold afterRunStart
  split <;> exact ⟨rfl, rfl, rfl⟩

theorem afterConfigure_configured (st : ConvState) (conf : Configuration) (h : st.Sized) :
    (afterConfigure st conf).m_configured = true := by
  unfold afterConfigure
  by_cases hc : st.m_configured = true
  · rw [if_pos hc]; exact hc
  · rw [if_neg hc]; exact (configure_sized st conf h).2.2

theorem afterConfigure_of_configured (st : ConvState) (conf : Configuration)
    (hc : st.m_configured = true) : afterConfigure st conf = st := by
  unfold afterConfigure
  rw [if_pos hc]

theorem afterConfigure_runStart (st : ConvState) (conf : Configuration) :
    (afterConfigure st conf).m_runStartTime = st.m_runStartTime := by
  unfold afterConfigure
  split
  · rfl
  · rfl

theorem Converting_cache (env : Env) (st : ConvState) (block : List Byte)
    (d2 : StandardEvent) (conf : Configuration) (h : st.Sized) :
    (Converting env st block d2 conf).state.cache = (afterConfigure st conf).cache
    ∧ (Converting env st block d2 conf).state.m_configured = true := by
  have hcfg := afterConfigure_configured st conf h
  cases hb : burstLength block with
  | error f =>
    rw [Converting_header_fault env st block d2 conf h f hb]
    exact ⟨rfl, hcfg⟩
  | ok burst =>
    by_cases hlen : block.length < evtLength burst
    · rw [Converting_insufficient env st block d2 conf h burst hb hlen]
      exact ⟨rfl, hcfg⟩
    · cases hd : decodeBlock env block with
      | error f =>
        rw [Converting_decode_fault env st block d2 conf h burst f hb hlen hd]
        exact ⟨rfl, hcfg⟩
      | ok dec =>
        have hr := afterRunStart_cache (afterConfigure st conf) dec.timestamp0
        by_cases hdump : (afterConfigure st conf).m_waveform_filename = ""
        · rw [Converting_pixels env st block d2 conf h burst dec hb hlen hd hdump]
          cases hp : pixelLoop env (afterRunStart (afterConfigure st conf) dec.timestamp0)
              dec.timestamp0 dec.waveforms dec.waveforms.length 0 emptyPlane with
          | error f => exact ⟨hr.1, by rw [← hcfg]; exact hr.2.1⟩
          | ok plane =>
            refine ⟨?_, ?_⟩
            · rw [← hr.1]; rfl
            · rw [← hcfg, ← hr.2.1]
        · rw [Converting_dump_eq env st block d2 conf h burst dec hb hlen hd hdump]
          cases hl : dumpLoop (afterConfigure st conf).trig_ dec.waveforms dec.waveforms.length
              0 [] with
          | error f => exact ⟨hr.1, by rw [← hcfg]; exact hr.2.1⟩
          | ok lines =>
            refine ⟨?_, ?_⟩
            · rw [← hr.1]; rfl
            · rw [← hcfg, ← hr.2.1]

theorem Converting_cache_configured (env : Env) (st : ConvState) (block : List Byte)
    (d2 : StandardEvent) (conf : Configuration) (h : st.Sized) (hc : st.m_configured = true) :
    (Converting env st block d2 conf).state.cache = st.cache := by
  rw [(Converting_cache env st block d2 conf h).1, afterConfigure_of_configured st conf hc]

theorem stateAfter_cache (env : Env) :
    ∀ (calls : List Call) (st : ConvState), st.Sized → st.m_configured = true →
      (stateAfter env st calls).cache = st.cache
      ∧ (stateAfter env st calls).Sized
      ∧ (stateAfter env st calls).m_configured = true := by
  intro calls
  induction calls with
  | nil => intro st h hc; exact ⟨rfl, h, hc⟩
  | cons c cs ih =>
    intro st h hc
    have h1 := Converting_sized env st c.block c.event c.conf h
    have h2 := Converting_cache env st c.block c.event c.conf h
    have h3 := Converting_cache_configured env st c.block c.event c.conf h hc
    obtain ⟨i1, i2, i3⟩ := ih (c.run env st).state h1 h2.2
    exact ⟨by rw [← h3]; exact i1, i2, i3⟩

/-- C14. From the initial static members, after the first call of `Converting`
(whatever it did, and whatever its arguments) the members are marked configured, and
after any sequence of further calls, with any blocks, standard events and
configuration objects, the cached configuration is the one the first call left:
`blStart`, `blEnd`, `ampStart`, `ampEnd`, `calib_range_min`, `calib_range_max`, the
waveform file name, the 16 formula strings and the calibration functions are
unchanged. The cached values are those read from the configuration of the first
call. -/
theorem configuration_cache_invariant (env : Env) (first : Call) (later : List Call) :
    (first.run env initialState).state.m_configured = true
    ∧ (first.run env initialState).state.cache = (configure initialState first.conf).1.cache
    ∧ (stateAfter env (first.run env initialState).state later).cache
        = (first.run env initialState).state.cache
    ∧ (stateAfter env initialState (first :: later)).cache
        = (first.run env initialState).state.cache
    ∧ (stateAfter env initialState (first :: later)).cache.calib_strings.length = 16 := by
  have h1 : (first.run env initialState).state.Sized := by
    unfold Call.run
    exact Converting_sized env initialState first.block first.event first.conf initialState_sized
  have h2 : (first.run env initialState).state.cache
        = (afterConfigure initialState first.conf).cache
      ∧ (first.run env initialState).state.m_configured = true := by
    unfold Call.run
    exact Converting_cache env initialState first.block first.event first.conf initialState_sized
  have h3 := stateAfter_cache env later (first.run env initialState).state h1 h2.2
  have e4 : stateAfter env initialState (first :: later)
      = stateAfter env (first.run env initialState).state later := by
    simp only [stateAfter]
  have e : afterConfigure initialState first.conf = (configure initialState first.conf).1 := by
    unfold afterConfigure
    rw [if_neg (by decide)]
  have h5 : (stateAfter env (first.run env initialState).state later).cache.calib_strings.length
      = 16 := h3.2.1.1
  rw [e4, ← e]
  exact ⟨h2.2, h2.1, h3.1, h3.1, h5⟩

theorem relTime_toInt64 (t r : Nat) : relTime t (toInt64 r) = subMod64 t r := by
  unfold relTime toInt64 subMod64
  congr 1
  split <;> omega

theorem relTime_self (t : Nat) : relTime t (toInt64 t) = 0 := by
  rw [relTime_toInt64]
  unfold subMod64
  simp

theorem afterRunStart_runStart (st1 : ConvState) (t : Nat) :
    (afterRunStart st1 t).m_runStartTime
      = if st1.trig_ ≤ 1 then toInt64 t else st1.m_runStartTime := by
  unfold afterRunStart
  split <;> rfl

theorem runStartOf_append (T : List Nat) (t : Nat) :
    runStartOf (T ++ [t]) = if T.length ≤ 1 then toInt64 t else runStartOf T := by
  match T with
  | [] => rfl
  | [t0] => rfl
  | t0 :: t1 :: rest => simp [runStartOf]

theorem eventTimestamp_some (env : Env) (block : List Byte) (burst : Nat) (dec : Decoded)
    (hb : burstLength block = .ok burst) (hlen : ¬ block.length < evtLength burst)
    (hd : decodeBlock env block = .ok dec) : eventTimestamp env block = some dec.timestamp0 := by
  simp only [eventTimestamp, hb, hlen, if_false, hd]

theorem eventTimestamp_none (env : Env) (block : List Byte) (burst : Nat)
    (hb : burstLength block = .ok burst) (hlen : block.length < evtLength burst) :
    eventTimestamp env block = none := by
  simp only [eventTimestamp, hb, hlen, if_true]

theorem Converting_step (env : Env) (st : ConvState) (block : List Byte)
    (d2 : StandardEvent) (conf : Configuration) (h : st.Sized) (b : Bool)
    (hret : (Converting env st block d2 conf).outcome = .returned b) :
    (eventTimestamp env block = none
      ∧ (Converting env st block d2 conf).state.trig_ = st.trig_
      ∧ (Converting env st block d2 conf).state.m_runStartTime = st.m_runStartTime)
    ∨ (∃ ts0, eventTimestamp env block = some ts0
      ∧ (Converting env st block d2 conf).state.trig_ = (st.trig_ + 1) % 2 ^ 64
      ∧ (Converting env st block d2 conf).state.m_runStartTime
          = if st.trig_ ≤ 1 then toInt64 ts0 else st.m_runStartTime) := by
  have hrs := fun t => afterRunStart_runStart (afterConfigure st conf) t
  rw [afterConfigure_trig, afterConfigure_runStart] at hrs
  cases b with
  | true =>
    obtain ⟨burst, dec, plane, hb, hlen, hd, _, _, hconv⟩ :=
      Converting_returned_true env st block d2 conf h hret
    refine Or.inr ⟨dec.timestamp0, eventTimestamp_some env block burst dec hb hlen hd, ?_, ?_⟩
    · rw [hconv]
      simp [successResult, afterConfigure_trig]
    · rw [hconv]
      exact hrs dec.timestamp0
  | false =>
    rcases Converting_returned_false env st block d2 conf h hret with
      ⟨burst, hb, hlen, hconv⟩ | ⟨burst, dec, lines, hb, hlen, hd, _, hconv⟩
    · refine Or.inl ⟨eventTimestamp_none env block burst hb hlen, ?_, ?_⟩
      · rw [hconv]
        exact afterConfigure_trig st conf
      · rw [hconv]
        exact afterConfigure_runStart st conf
    · refine Or.inr ⟨dec.timestamp0, eventTimestamp_some env block burst dec hb hlen hd, ?_, ?_⟩
      · rw [hconv]
        simp [dumpResult, afterConfigure_trig]
      · rw [hconv]
        exact hrs dec.timestamp0

theorem stateAfter_runStart (env : Env) :
    ∀ (calls : List Call) (st : ConvState) (T : List Nat), st.Sized →
      st.trig_ = T.length → st.m_runStartTime = runStartOf T →
      (∀ r ∈ results env st calls, ∃ b, r.outcome = .returned b) →
      T.length + calls.length < 2 ^ 64 →
      (stateAfter env st calls).Sized
      ∧ (stateAfter env st calls).trig_
          = (T ++ calls.filterMap (fun c => eventTimestamp env c.block)).length
      ∧ (stateAfter env st calls).m_runStartTime
          = runStartOf (T ++ calls.filterMap (fun c => eventTimestamp env c.block)) := by
  intro calls
  induction calls with
  | nil =>
    intro st T h ht hr _ _
    simp only [stateAfter, List.filterMap_nil, List.append_nil]
    exact ⟨h, ht, hr⟩
  | cons c cs ih =>
    intro st T h ht hr hret hlen
    have hs : (c.run env st).state.Sized := by
      unfold Call.run
      exact Converting_sized env st c.block c.event c.conf h
    have hret1 : ∃ b, (c.run env st).outcome = .returned b :=
      hret (c.run env st) (by simp [results])
    have hret2 : ∀ r ∈ results env (c.run env st).state cs, ∃ b, r.outcome = .returned b :=
      fun r hr => hret r (by simp [results, hr])
    obtain ⟨b, hb⟩ := hret1
    have hstep : (eventTimestamp env c.block = none
        ∧ (c.run env st).state.trig_ = st.trig_
        ∧ (c.run env st).state.m_runStartTime = st.m_runStartTime)
      ∨ (∃ ts0, eventTimestamp env c.block = some ts0
        ∧ (c.run env st).state.trig_ = (st.trig_ + 1) % 2 ^ 64
        ∧ (c.run env st).state.m_runStartTime
            = if st.trig_ ≤ 1 then toInt64 ts0 else st.m_runStartTime) := by
      unfold Call.run at hb ⊢
      exact Converting_step env st c.block c.event c.conf h b hb
    simp only [List.length_cons] at hlen
    rcases hstep with ⟨hnone, h1, h2⟩ | ⟨ts0, hsome, h1, h2⟩
    · have := ih (c.run env st).state T hs (by rw [h1, ht]) (by rw [h2, hr]) hret2 (by omega)
      simp only [stateAfter, List.filterMap_cons, hnone]
      exact this
    · have hT : (T ++ [ts0]).length = T.length + 1 := by simp
      have := ih (c.run env st).state (T ++ [ts0]) hs
        (by rw [h1, ht, hT]; exact Nat.mod_eq_of_lt (by omega))
        (by rw [h2, runStartOf_append, ht, hr])
        hret2 (by rw [hT]; omega)
      simp only [stateAfter, List.filterMap_cons, hsome]
      rw [List.append_assoc] at this
      exact this

/-- C13. Take any sequence of calls from the initial static members, each of which
returned, and let `T` be the timestamps (rescaled ADC-half-0 timestamps) of those
that reached line 173, oldest first; these are the calls that advanced the trigger
counter, which now equals the length of `T`. If the next call returns true, then its
block has a timestamp `ts0`, time-begin and time-end written to the standard event
are equal, and both are `(ts0 - runStart) mod 2 ^ 64` for the run start then stored;
when `T` has at most one entry (trigger counter 0 or 1) the run start is `ts0`
itself and both times are 0; when `T` has two or more entries the run start is its
second entry `T[1]` and both times are `(ts0 - T[1]) mod 2 ^ 64`. -/
theorem time_relative_to_run_start (env : Env) (calls : List Call) (c : Call)
    (hret : ∀ r ∈ results env initialState calls, ∃ b, r.outcome = .returned b)
    (hlen : calls.length < 2 ^ 64)
    (htrue : (c.run env (stateAfter env initialState calls)).outcome = .returned true) :
    ∃ ts0, eventTimestamp env c.block = some ts0
      ∧ (stateAfter env initialState calls).trig_
          = (calls.filterMap (fun c => eventTimestamp env c.block)).length
      ∧ (stateAfter env initialState calls).m_runStartTime
          = runStartOf (calls.filterMap (fun c => eventTimestamp env c.block))
      ∧ (c.run env (stateAfter env initialState calls)).event.timeBegin
          = (c.run env (stateAfter env initialState calls)).event.timeEnd
      ∧ (c.run env (stateAfter env initialState calls)).event.timeBegin
          = relTime ts0 (c.run env (stateAfter env initialState calls)).state.m_runStartTime
      ∧ ((calls.filterMap (fun c => eventTimestamp env c.block)).length ≤ 1 →
          (c.run env (stateAfter env initialState calls)).state.m_runStartTime = toInt64 ts0
          ∧ (c.run env (stateAfter env initialState calls)).event.timeBegin = 0
          ∧ (c.run env (stateAfter env initialState calls)).event.timeEnd = 0)
      ∧ (2 ≤ (calls.filterMap (fun c => eventTimestamp env c.block)).length →
          (c.run env (stateAfter env initialState calls)).state.m_runStartTime
            = toInt64 ((calls.filterMap (fun c => eventTimestamp env c.block)).getD 1 0)
          ∧ (c.run env (stateAfter env initialState calls)).event.timeBegin
            = subMod64 ts0 ((calls.filterMap (fun c => eventTimestamp env c.block)).getD 1 0)
          ∧ (c.run env (stateAfter env initialState calls)).event.timeEnd
            = subMod64 ts0 ((calls.filterMap (fun c => eventTimestamp env c.block)).getD 1 0))
    := by
  obtain ⟨hs, ht, hr⟩ := stateAfter_runStart env calls initialState [] initialState_sized rfl rfl
    hret (by simpa using hlen)
  simp only [List.nil_append] at ht hr
  generalize stateAfter env initialState calls = st at hs ht hr htrue ⊢
  generalize calls.filterMap (fun c => eventTimestamp env c.block) = T at ht hr ⊢
  unfold Call.run at htrue ⊢
  obtain ⟨burst, dec, plane, hb, hlen2, hd, _, _, hconv⟩ :=
    Converting_returned_true env st c.block c.event c.conf hs htrue
  have hrs := afterRunStart_runStart (afterConfigure st c.conf) dec.timestamp0
  rw [afterConfigure_trig, afterConfigure_runStart] at hrs
  have hstate : (Converting env st c.block c.event c.conf).state.m_runStartTime
      = if st.trig_ ≤ 1 then toInt64 dec.timestamp0 else st.m_runStartTime := by
    rw [hconv]; exact hrs
  have hbegin : (Converting env st c.block c.event c.conf).event.timeBegin
      = relTime dec.timestamp0 (Converting env st c.block c.event c.conf).state.m_runStartTime
      := by
    rw [hconv]; rfl
  have hend : (Converting env st c.block c.event c.conf).event.timeEnd
      = relTime dec.timestamp0 (Converting env st c.block c.event c.conf).state.m_runStartTime
      := by
    rw [hconv]; rfl
  refine ⟨dec.timestamp0, eventTimestamp_some env c.block burst dec hb hlen2 hd, ht, hr,
    by rw [hbegin, hend], hbegin, ?_, ?_⟩
  · intro h1
    have e : (Converting env st c.block c.event c.conf).state.m_runStartTime
        = toInt64 dec.timestamp0 := by
      rw [hstate, if_pos (by omega)]
    refine ⟨e, ?_, ?_⟩
    · rw [hbegin, e, relTime_self]
    · rw [hend, e, relTime_self]
  · intro h2
    have e : (Converting env st c.block c.event c.conf).state.m_runStartTime
        = toInt64 (T.getD 1 0) := by
      rw [hstate, if_neg (by omega), hr]
      match T, h2 with
      | t0 :: t1 :: rest, _ => rfl
    refine ⟨e, ?_, ?_⟩
    · rw [hbegin, e, relTime_toInt64]
    · rw [hend, e, relTime_toInt64]

theorem Converting_wellFormed_configured (env : Env) (st : ConvState) (block : List Byte)
    (d2 : StandardEvent) (conf : Configuration) (h : st.Sized) (hc : st.m_configured = true)
    (hwf : WellFormedBlock block) (hdump : st.m_waveform_filename = "")
    (hwin : WindowsInside st (headerBurst block * 128)) :
    ∃ dec, decodeBlock env block = .ok dec ∧
      Converting env st block d2 conf = successResult st dec
        { emptyPlane with pixels := ((List.range 16).filterMap
            (pixelOf env (afterRunStart st dec.timestamp0) dec.timestamp0 dec.waveforms)) } d2
    := by
  have e := afterConfigure_of_configured st conf hc
  obtain ⟨dec, hd, hconv⟩ := Converting_wellFormed env st block d2 conf h hwf
    (by rw [e]; exact hdump) (by rw [e]; exact hwin)
  rw [e] at hconv
  exact ⟨dec, hd, hconv⟩

theorem WindowsInside_cache (st st2 : ConvState) (len : Nat) (h : st2.cache = st.cache)
    (hwin : WindowsInside st len) : WindowsInside st2 len := by
  have h1 : st2.m_ampStart = st.m_ampStart := congrArg ConfigurationCache.ampStart h
  have h2 : st2.m_ampEnd = st.m_ampEnd := congrArg ConfigurationCache.ampEnd h
  have h3 : st2.m_blStart = st.m_blStart := congrArg ConfigurationCache.blStart h
  have h4 : st2.m_blEnd = st.m_blEnd := congrArg ConfigurationCache.blEnd h
  unfold WindowsInside peakBound at hwin ⊢
  rw [h1, h2, h3, h4]
  exact hwin

theorem zeroBlock_first (d2 : StandardEvent) :
    ∃ dec, decodeBlock identityEnv zeroBlock = .ok dec
      ∧ Converting identityEnv initialState zeroBlock d2 insideConfiguration
        = successResult (afterConfigure initialState insideConfiguration) dec
          { emptyPlane with pixels := ((List.range 16).filterMap
              (pixelOf identityEnv
                (afterRunStart (afterConfigure initialState insideConfiguration) dec.timestamp0)
                dec.timestamp0 dec.waveforms)) } d2 := by
  obtain ⟨dec, hd, hconv⟩ := Converting_wellFormed identityEnv initialState zeroBlock d2
    insideConfiguration initialState_sized zeroBlock_wellFormed insideConfiguration_fields.1
    zeroBlock_windows
  refine ⟨dec, hd, ?_⟩
  rw [hconv]
  unfold successResult
  rw [afterConfigure_trig]

theorem cache_filename (st st2 : ConvState) (h : st2.cache = st.cache) :
    st2.m_waveform_filename = st.m_waveform_filename :=
  congrArg ConfigurationCache.waveform_filename h

theorem zeroBlock_state (d2 : StandardEvent) :
    (Converting identityEnv initialState zeroBlock d2 insideConfiguration).state.Sized
    ∧ (Converting identityEnv initialState zeroBlock d2 insideConfiguration).state.m_configured
        = true
    ∧ (Converting identityEnv initialState zeroBlock d2 insideConfiguration).state.m_waveform_filename
        = ""
    ∧ WindowsInside (Converting identityEnv initialState zeroBlock d2 insideConfiguration).state
        (headerBurst zeroBlock * 128)
    ∧ (Converting identityEnv initialState zeroBlock d2 insideConfiguration).state.trig_ = 1
    ∧ (Converting identityEnv initialState zeroBlock d2 insideConfiguration).event.triggerN = 0
    := by
  have hs := Converting_sized identityEnv initialState zeroBlock d2 insideConfiguration
    initialState_sized
  have hc := Converting_cache identityEnv initialState zeroBlock d2 insideConfiguration
    initialState_sized
  have ht := (Converting_counter identityEnv initialState zeroBlock d2 insideConfiguration
    initialState_sized).1 (zeroBlock_converts d2)
  obtain ⟨dec, _, hconv⟩ := zeroBlock_first d2
  have hev : (Converting identityEnv initialState zeroBlock d2 insideConfiguration).event.triggerN
      = (afterConfigure initialState insideConfiguration).trig_ := by
    rw [hconv]
    rfl
  have ht0 : (afterConfigure initialState insideConfiguration).trig_ = 0 :=
    afterConfigure_trig initialState insideConfiguration
  have ht1 : (initialState.trig_ + 1) % 2 ^ 64 = 1 := by decide
  generalize Converting identityEnv initialState zeroBlock d2 insideConfiguration = r
    at hs hc ht hev ⊢
  have hf := cache_filename _ _ hc.1
  exact ⟨hs, hc.2, by rw [hf]; exact insideConfiguration_fields.1,
    WindowsInside_cache _ _ _ hc.1 zeroBlock_windows, by rw [ht, ht1], by rw [hev, ht0]⟩

theorem successResult_fields (st1 : ConvState) (dec : Decoded) (plane : StandardPlane)
    (d2 : StandardEvent) :
    (successResult st1 dec plane d2).outcome = .returned true
    ∧ (successResult st1 dec plane d2).event.triggerN = st1.trig_
    ∧ (successResult st1 dec plane d2).event.planes = d2.planes ++ [plane]
    ∧ (successResult st1 dec plane d2).state.trig_ = (st1.trig_ + 1) % 2 ^ 64 :=
  ⟨rfl, rfl, rfl, rfl⟩

theorem zeroBlock_second (d1 d2 : StandardEvent) :
    (Converting identityEnv
      (Converting identityEnv initialState zeroBlock d1 insideConfiguration).state
      zeroBlock d2 insideConfiguration).outcome = .returned true
    ∧ (Converting identityEnv
      (Converting identityEnv initialState zeroBlock d1 insideConfiguration).state
      zeroBlock d2 insideConfiguration).event.triggerN = 1 := by
  have h := zeroBlock_state d1
  generalize (Converting identityEnv initialState zeroBlock d1 insideConfiguration).state = s1
    at h ⊢
  obtain ⟨hs, hc, hf, hw, ht, _⟩ := h
  obtain ⟨dec, _, hconv⟩ := Converting_wellFormed_configured identityEnv s1 zeroBlock d2
    insideConfiguration hs hc zeroBlock_wellFormed hf hw
  rw [hconv]
  refine ⟨rfl, ?_⟩
  rw [(successResult_fields _ _ _ _).2.1]
  exact ht

theorem zeroCall_run (st : ConvState) :
    zeroCall.run identityEnv st
      = Converting identityEnv st zeroBlock emptyEvent insideConfiguration := by
  simp only [Call.run, zeroCall]

theorem stateAfter_singleton (env : Env) (st : ConvState) (c : Call) :
    stateAfter env st [c] = (c.run env st).state := rfl

theorem results_singleton (env : Env) (st : ConvState) (c : Call) :
    results env st [c] = [c.run env st] := rfl

theorem zeroCall_results :
    (∀ r ∈ results identityEnv initialState [zeroCall], ∃ b, r.outcome = .returned b)
    ∧ (zeroCall.run identityEnv (stateAfter identityEnv initialState [zeroCall])).outcome
        = .returned true := by
  refine ⟨?_, ?_⟩
  · intro r hr
    rw [results_singleton, List.mem_singleton] at hr
    rw [hr, zeroCall_run]
    exact ⟨true, zeroBlock_converts emptyEvent⟩
  · rw [stateAfter_singleton, zeroCall_run, zeroCall_run]
    exact (zeroBlock_second emptyEvent emptyEvent).1

theorem time_relative_to_run_start_witness :
    (∀ r ∈ results identityEnv initialState [zeroCall], ∃ b, r.outcome = .returned b)
    ∧ [zeroCall].length < 2 ^ 64
    ∧ (zeroCall.run identityEnv (stateAfter identityEnv initialState [zeroCall])).outcome
        = .returned true
    ∧ (zeroCall.run identityEnv (stateAfter identityEnv initialState [zeroCall])).event.timeBegin
        = 0
    ∧ (zeroCall.run identityEnv (stateAfter identityEnv initialState [zeroCall])).event.timeEnd
        = 0 := by
  have hlen : [zeroCall].length < 2 ^ 64 := by
    rw [List.length_singleton]
    norm_num
  obtain ⟨ts0, _, _, _, _, _, h1, _⟩ := time_relative_to_run_start identityEnv [zeroCall] zeroCall
    zeroCall_results.1 hlen zeroCall_results.2
  have hle : ([zeroCall].filterMap (fun c => eventTimestamp identityEnv c.block)).length ≤ 1 :=
    (List.length_filterMap_le _ _).trans (by rw [List.length_singleton])
  exact ⟨zeroCall_results.1, hlen, zeroCall_results.2, (h1 hle).2.1, (h1 hle).2.2⟩

theorem channelPixel_cache (env : Env) (st st2 : ConvState) (h : st.cache = st2.cache)
    (ts ch : Nat) (wf : List Nat) :
    channelPixel env st ts ch wf = channelPixel env st2 ts ch wf := by
  have h1 : st.m_ampStart = st2.m_ampStart := congrArg ConfigurationCache.ampStart h
  have h2 : st.m_ampEnd = st2.m_ampEnd := congrArg ConfigurationCache.ampEnd h
  have h3 : st.m_blStart = st2.m_blStart := congrArg ConfigurationCache.blStart h
  have h4 : st.m_blEnd = st2.m_blEnd := congrArg ConfigurationCache.blEnd h
  have h5 : st.m_calib_range_min = st2.m_calib_range_min :=
    congrArg ConfigurationCache.calib_range_min h
  have h6 : st.m_calib_range_max = st2.m_calib_range_max :=
    congrArg ConfigurationCache.calib_range_max h
  have h7 : st.m_calib_functions = st2.m_calib_functions :=
    congrArg ConfigurationCache.calib_functions h
  unfold channelPixel
  rw [h1, h2, h3, h4, h5, h6, h7]

theorem pixelLoop_cache (env : Env) (st st2 : ConvState) (h : st.cache = st2.cache)
    (ts : Nat) (wfs : List (List Nat)) :
    ∀ (n ch : Nat) (plane : StandardPlane),
      pixelLoop env st ts wfs n ch plane = pixelLoop env st2 ts wfs n ch plane := by
  intro n
  induction n with
  | zero => intro ch plane; rfl
  | succ n ih =>
    intro ch plane
    simp only [pixelLoop, channelPixel_cache env st st2 h, ih]

theorem dumpLoop_ok (trig : Nat) (wfs : List (List Nat)) :
    ∀ (n ch : Nat) (out : List DumpLine), ch + n ≤ wfs.length → ch + n ≤ 16 →
      ∃ lines, dumpLoop trig wfs n ch out = .ok lines := by
  intro n
  induction n with
  | zero => intro ch out _ _; exact ⟨out, rfl⟩
  | succ n ih =>
    intro ch out h1 h2
    have hm : ch < mapping.length := by rw [mapping_length]; omega
    have hw : ch < wfs.length := by omega
    have e1 : mapping[ch]? = some mapping[ch] := List.getElem?_eq_getElem hm
    have e2 : wfs[ch]? = some wfs[ch] := List.getElem?_eq_getElem hw
    simp only [dumpLoop, e1, e2]
    exact ih (ch + 1) _ (by omega) (by omega)

theorem dumpResult_fields (st1 : ConvState) (dec : Decoded) (lines : List DumpLine)
    (d2 : StandardEvent) :
    (dumpResult st1 dec lines d2).outcome = .returned false
    ∧ (dumpResult st1 dec lines d2).event = d2
    ∧ (dumpResult st1 dec lines d2).state.trig_ = (st1.trig_ + 1) % 2 ^ 64 :=
  ⟨rfl, rfl, rfl⟩

theorem successResult_times (st1 : ConvState) (dec : Decoded) (plane : StandardPlane)
    (d2 : StandardEvent) :
    (successResult st1 dec plane d2).event.timeBegin
      = relTime dec.timestamp0 (afterRunStart st1 dec.timestamp0).m_runStartTime
    ∧ (successResult st1 dec plane d2).event.timeEnd
      = relTime dec.timestamp0 (afterRunStart st1 dec.timestamp0).m_runStartTime
    ∧ (successResult st1 dec plane d2).event.detectorType = "AD9249"
    ∧ (successResult st1 dec plane d2).state.m_runStartTime
      = (afterRunStart st1 dec.timestamp0).m_runStartTime :=
  ⟨rfl, rfl, rfl, rfl⟩

theorem Converting_configured_true (env : Env) (s1 st1 : ConvState) (block : List Byte)
    (d2 : StandardEvent) (conf : Configuration) (hs : s1.Sized) (hc : s1.m_configured = true)
    (hcache : s1.cache = st1.cache) (burst : Nat) (dec : Decoded) (plane : StandardPlane)
    (hb : burstLength block = .ok burst) (hlen : ¬ block.length < evtLength burst)
    (hd : decodeBlock env block = .ok dec) (hdump : st1.m_waveform_filename = "")
    (hp : pixelLoop env (afterRunStart st1 dec.timestamp0) dec.timestamp0 dec.waveforms
      dec.waveforms.length 0 emptyPlane = .ok plane) :
    Converting env s1 block d2 conf = successResult s1 dec plane d2 := by
  have e := afterConfigure_of_configured s1 conf hc
  have hf : s1.m_waveform_filename = st1.m_waveform_filename := cache_filename _ _ hcache
  have hconv := Converting_pixels env s1 block d2 conf hs burst dec hb hlen hd
    (by rw [e, hf]; exact hdump)
  have hcache2 : (afterRunStart s1 dec.timestamp0).cache
      = (afterRunStart st1 dec.timestamp0).cache := by
    rw [(afterRunStart_cache s1 _).1, (afterRunStart_cache st1 _).1]
    exact hcache
  rw [e, pixelLoop_cache env _ _ hcache2, hp] at hconv
  exact hconv

theorem Converting_configured_dump (env : Env) (s1 st1 : ConvState) (block : List Byte)
    (d2 : StandardEvent) (conf : Configuration) (hs : s1.Sized) (hc : s1.m_configured = true)
    (hcache : s1.cache = st1.cache) (burst : Nat) (dec : Decoded)
    (hb : burstLength block = .ok burst) (hlen : ¬ block.length < evtLength burst)
    (hd : decodeBlock env block = .ok dec) (hdump : st1.m_waveform_filename ≠ "") :
    ∃ lines, Converting env s1 block d2 conf = dumpResult s1 dec lines d2 := by
  have e := afterConfigure_of_configured s1 conf hc
  have hf : s1.m_waveform_filename = st1.m_waveform_filename := cache_filename _ _ hcache
  have hconv := Converting_dump_eq env s1 block d2 conf hs burst dec hb hlen hd
    (by rw [e, hf]; exact hdump)
  have h16 := (decodeBlock_length env block dec hd).1
  obtain ⟨lines, hl⟩ := dumpLoop_ok (afterConfigure s1 conf).trig_ dec.waveforms
    dec.waveforms.length 0 [] (by omega) (by omega)
  rw [hl, e] at hconv
  exact ⟨lines, hconv⟩

theorem runStart_again (st1 s1 : ConvState) (ts0 : Nat) (hwrap : st1.trig_ + 1 < 2 ^ 64)
    (ht : s1.trig_ = (st1.trig_ + 1) % 2 ^ 64)
    (hr : s1.m_runStartTime = (afterRunStart st1 ts0).m_runStartTime) :
    (afterRunStart s1 ts0).m_runStartTime = (afterRunStart st1 ts0).m_runStartTime := by
  rw [afterRunStart_runStart s1, hr, afterRunStart_runStart st1, ht,
    Nat.mod_eq_of_lt hwrap]
  by_cases h0 : st1.trig_ = 0
  · rw [h0]
    simp
  · rw [if_neg (by omega)]

theorem events_differ (e1 e2 : StandardEvent) (n : Nat) (h1 : e1.triggerN = n)
    (h2 : e2.triggerN = n + 1) : e1 ≠ e2 := by
  intro h
  rw [h, h2] at h1
  omega

/-- C15, as amended. Two successive calls of `Converting` on the same block and
configuration, each into the same standard event `d2` as it was before the calls,
from static members whose trigger counter is below `2 ^ 64 - 1`: if the first call
returns the boolean `b`, the second call returns `b` too. When `b` is false both
calls leave the standard event unchanged. When `b` is true both calls append the same
plane, write the same time-begin, time-end and detector type, and the trigger number
written by the first call is the trigger counter before it while the second call
writes that number plus one, so the two resulting standard events differ. -/
theorem Converting_twice (env : Env) (st : ConvState) (block : List Byte) (d2 : StandardEvent)
    (conf : Configuration) (b : Bool) (h : st.Sized) (hwrap : st.trig_ + 1 < 2 ^ 64)
    (hret : (Converting env st block d2 conf).outcome = .returned b) :
    (Converting env (Converting env st block d2 conf).state block d2 conf).outcome = .returned b
    ∧ (b = false → (Converting env st block d2 conf).event = d2
        ∧ (Converting env (Converting env st block d2 conf).state block d2 conf).event = d2)
    ∧ (b = true → ∃ plane,
        (Converting env st block d2 conf).event.planes = d2.planes ++ [plane]
        ∧ (Converting env (Converting env st block d2 conf).state block d2 conf).event.planes
            = d2.planes ++ [plane]
        ∧ (Converting env (Converting env st block d2 conf).state block d2 conf).event.timeBegin
            = (Converting env st block d2 conf).event.timeBegin
        ∧ (Converting env (Converting env st block d2 conf).state block d2 conf).event.timeEnd
            = (Converting env st block d2 conf).event.timeEnd
        ∧ (Converting env (Converting env st block d2 conf).state block d2 conf).event.detectorType
            = (Converting env st block d2 conf).event.detectorType
        ∧ (Converting env st block d2 conf).event.triggerN = st.trig_
        ∧ (Converting env (Converting env st block d2 conf).state block d2 conf).event.triggerN
            = st.trig_ + 1
        ∧ (Converting env st block d2 conf).event
            ≠ (Converting env (Converting env st block d2 conf).state block d2 conf).event) := by
  have hs := Converting_sized env st block d2 conf h
  have hc := Converting_cache env st block d2 conf h
  have htr := afterConfigure_trig st conf
  cases b with
  | true =>
    obtain ⟨burst, dec, plane, hb, hlen, hd, hdump, hp, hconv⟩ :=
      Converting_returned_true env st block d2 conf h hret
    have hst : (Converting env st block d2 conf).state
        = (successResult (afterConfigure st conf) dec plane d2).state := by rw [hconv]
    have ht : (Converting env st block d2 conf).state.trig_
        = ((afterConfigure st conf).trig_ + 1) % 2 ^ 64 := by
      rw [hst]
      exact (successResult_fields _ _ _ _).2.2.2
    have hr : (Converting env st block d2 conf).state.m_runStartTime
        = (afterRunStart (afterConfigure st conf) dec.timestamp0).m_runStartTime := by
      rw [hst]
      exact (successResult_times _ _ _ _).2.2.2
    have hev : (Converting env st block d2 conf).event
        = (successResult (afterConfigure st conf) dec plane d2).event := by rw [hconv]
    generalize (Converting env st block d2 conf).state = s1 at hs hc ht hr ⊢
    generalize (Converting env st block d2 conf).event = ev1 at hev ⊢
    have hconv2 := Converting_configured_true env s1 (afterConfigure st conf) block d2 conf hs
      hc.2 hc.1 burst dec plane hb hlen hd hdump hp
    have hrs := runStart_again (afterConfigure st conf) s1 dec.timestamp0
      (by rw [htr]; exact hwrap) ht hr
    have hf1 := successResult_fields (afterConfigure st conf) dec plane d2
    have hf2 := successResult_fields s1 dec plane d2
    have ht1 := successResult_times (afterConfigure st conf) dec plane d2
    have ht2 := successResult_times s1 dec plane d2
    have hs1 : s1.trig_ = st.trig_ + 1 := by
      rw [ht, htr]
      exact Nat.mod_eq_of_lt hwrap
    have hn1 : ev1.triggerN = st.trig_ := by rw [hev, hf1.2.1, htr]
    rw [hconv2]
    have hn2 : (successResult s1 dec plane d2).event.triggerN = st.trig_ + 1 := by
      rw [hf2.2.1, hs1]
    refine ⟨hf2.1, fun hb => absurd hb (by simp), fun _ => ⟨plane, ?_, hf2.2.2.1, ?_, ?_, ?_,
      hn1, hn2, events_differ _ _ _ hn1 hn2⟩⟩
    · rw [hev, hf1.2.2.1]
    · rw [hev, ht2.1, ht1.1, hrs]
    · rw [hev, ht2.2.1, ht1.2.1, hrs]
    · rw [hev, ht2.2.2.1, ht1.2.2.1]
  | false =>
    rcases Converting_returned_false env st block d2 conf h hret with
      ⟨burst, hb, hlen, hconv⟩ | ⟨burst, dec, lines, hb, hlen, hd, hdump, hconv⟩
    · have hev : (Converting env st block d2 conf).event = d2 := by rw [hconv]
      generalize (Converting env st block d2 conf).state = s1 at hs hc ⊢
      generalize (Converting env st block d2 conf).event = ev1 at hev ⊢
      have hconv2 := Converting_insufficient env s1 block d2 conf hs burst hb hlen
      rw [hconv2]
      exact ⟨rfl, fun _ => ⟨hev, rfl⟩, fun hb => absurd hb (by simp)⟩
    · have hev : (Converting env st block d2 conf).event = d2 := by
        rw [hconv]
        exact (dumpResult_fields _ _ _ _).2.1
      generalize (Converting env st block d2 conf).state = s1 at hs hc ⊢
      generalize (Converting env st block d2 conf).event = ev1 at hev ⊢
      obtain ⟨lines2, hconv2⟩ := Converting_configured_dump env s1 (afterConfigure st conf) block
        d2 conf hs hc.2 hc.1 burst dec hb hlen hd hdump
      rw [hconv2]
      have hf := dumpResult_fields s1 dec lines2 d2
      exact ⟨hf.1, fun _ => ⟨hev, hf.2.1⟩, fun hb => absurd hb (by simp)⟩

theorem Converting_twice_witness :
    initialState.Sized
    ∧ initialState.trig_ + 1 < 2 ^ 64
    ∧ (Converting identityEnv initialState zeroBlock emptyEvent insideConfiguration).outcome
        = .returned true
    ∧ (Converting identityEnv
        (Converting identityEnv initialState zeroBlock emptyEvent insideConfiguration).state
        zeroBlock emptyEvent insideConfiguration).outcome = .returned true :=
  have hw : initialState.trig_ + 1 < 2 ^ 64 := by
    show (0 : Nat) + 1 < 2 ^ 64
    norm_num
  ⟨initialState_sized, hw, zeroBlock_converts emptyEvent,
   (Converting_twice identityEnv initialState zeroBlock emptyEvent insideConfiguration true
     initialState_sized hw (zeroBlock_converts emptyEvent)).1⟩

/-- C15, as stated, fails. From the initial static members, the all-zero block of
burst length 1 is converted twice with the same configuration, each time into a
fresh empty standard event: both calls return true, the first writes trigger number
0 and the second writes trigger number 1, so the two standard events are not
equal. -/
theorem Converting_repeated_trigger_number_differs :
    (Converting identityEnv initialState zeroBlock emptyEvent insideConfiguration).outcome
        = .returned true
    ∧ (Converting identityEnv
        (Converting identityEnv initialState zeroBlock emptyEvent insideConfiguration).state
        zeroBlock emptyEvent insideConfiguration).outcome = .returned true
    ∧ (Converting identityEnv initialState zeroBlock emptyEvent insideConfiguration).event.triggerN
        = 0
    ∧ (Converting identityEnv
        (Converting identityEnv initialState zeroBlock emptyEvent insideConfiguration).state
        zeroBlock emptyEvent insideConfiguration).event.triggerN = 1
    ∧ (Converting identityEnv initialState zeroBlock emptyEvent insideConfiguration).event
        ≠ (Converting identityEnv
            (Converting identityEnv initialState zeroBlock emptyEvent insideConfiguration).state
            zeroBlock emptyEvent insideConfiguration).event :=
  ⟨zeroBlock_converts emptyEvent, (zeroBlock_second emptyEvent emptyEvent).1,
   (zeroBlock_state emptyEvent).2.2.2.2.2, (zeroBlock_second emptyEvent emptyEvent).2,
   events_differ _ _ 0 (zeroBlock_state emptyEvent).2.2.2.2.2
     (zeroBlock_second emptyEvent emptyEvent).2⟩

theorem oversizedBlock_decode (env : Env) :
    decodeBlock env oversizedBlock = .error .outOfRange := by
  have h0 : sizeField oversizedBlock 0 = .ok 16 := by decide
  have h1 : sizeField oversizedBlock (8 + 16) = .error .outOfRange := by decide
  simp only [decodeBlock, h0, h1]

/-- C16, at the failing input. The first call of `Converting` on a block of 16 bytes
whose header announces burst length 0 and whose first size field is 16: the block is
as long as the expected event length (16), so the length check of line 139 passes;
the second size field is then read at indices 28 to 31 (lines 157-163), beyond the
block, and the bounds-checked access throws, so the call does not return a
boolean. -/
theorem Converting_oversized_size_field_throws (env : Env) (d2 : StandardEvent)
    (conf : Configuration) :
    oversizedBlock.length = 16
    ∧ burstLength oversizedBlock = .ok 0
    ∧ evtLength 0 = 16
    ∧ ¬ oversizedBlock.length < evtLength 0
    ∧ sizeField oversizedBlock 0 = .ok 16
    ∧ sizeField oversizedBlock (8 + 16) = .error .outOfRange
    ∧ (Converting env initialState oversizedBlock d2 conf).outcome = .fault .outOfRange
    ∧ (Converting env initialState oversizedBlock d2 conf).event = d2 := by
  have hb : burstLength oversizedBlock = .ok 0 := by decide
  have hlen : ¬ oversizedBlock.length < evtLength 0 := by decide
  have hc := Converting_decode_fault env initialState oversizedBlock d2 conf initialState_sized 0
    .outOfRange hb hlen (oversizedBlock_decode env)
  refine ⟨rfl, hb, by decide, hlen, by decide, by decide, ?_, ?_⟩
  · rw [hc]
  · rw [hc]

theorem toString_bit (data n : Nat) :
    toString ((data >>> n) &&& 1) = String.mk [bitChar data n] := by
  rw [Nat.and_one_is_mod, Nat.shiftRight_eq_div_pow]
  unfold bitChar
  rcases Nat.mod_two_eq_zero_or_one (data / 2 ^ n) with h | h
  · rw [h]
    rfl
  · rw [h]
    rfl

theorem bitLoop_eq (data width : Nat) :
    ∀ (n : Nat) (stream : String), n ≤ width →
      bitLoop data width n stream = .ok (stream ++ String.mk (bitsMSB data n)) := by
  intro n
  induction n with
  | zero =>
    intro stream _
    simp only [bitLoop, bitsMSB]
    congr 1
    apply String.ext
    simp
  | succ n ih =>
    intro stream h
    have hn : ¬ width ≤ n := by omega
    simp only [bitLoop, hn, if_false, toString_bit, bitsMSB]
    rw [ih _ (by omega)]
    congr 1
    apply String.ext
    simp

theorem bitLoop_fault (data width : Nat) :
    ∀ (n : Nat) (stream : String), width < n →
      bitLoop data width n stream = .error .undefined := by
  intro n
  induction n with
  | zero => intro stream h; omega
  | succ n ih =>
    intro stream h
    by_cases hn : width ≤ n
    · simp only [bitLoop, hn, if_true]
    · omega

theorem bitsMSB_length (data : Nat) : ∀ n, (bitsMSB data n).length = n := by
  intro n
  induction n with
  | zero => rfl
  | succ n ih => simp [bitsMSB, ih]

theorem bitsMSB_chars (data : Nat) : ∀ n, ∀ c ∈ bitsMSB data n, c = '0' ∨ c = '1' := by
  intro n
  induction n with
  | zero => intro c hc; simp [bitsMSB] at hc
  | succ n ih =>
    intro c hc
    simp only [bitsMSB, List.mem_cons] at hc
    rcases hc with hc | hc
    · rw [hc]
      unfold bitChar
      split
      · right; rfl
      · left; rfl
    · exact ih c hc

theorem bitsMSB_getElem (data : Nat) :
    ∀ (n i : Nat), i < n → (bitsMSB data n)[i]? = some (bitChar data (n - 1 - i)) := by
  intro n
  induction n with
  | zero => intro i h; omega
  | succ n ih =>
    intro i h
    cases i with
    | zero => simp [bitsMSB]
    | succ j =>
      simp only [bitsMSB, List.getElem?_cons_succ]
      rw [ih j (by omega)]
      congr 2
      omega

theorem binaryValue_foldl (cs : List Char) :
    ∀ acc : Nat, cs.foldl (fun acc c => 2 * acc + (if c = '1' then 1 else 0)) acc
      = acc * 2 ^ cs.length + binaryValue cs := by
  induction cs with
  | nil => intro acc; simp [binaryValue]
  | cons c t ih =>
    intro acc
    simp only [List.foldl_cons, binaryValue, List.length_cons]
    rw [ih, ih (2 * 0 + _)]
    ring

theorem binaryValue_bitsMSB (data : Nat) : ∀ n, binaryValue (bitsMSB data n) = data % 2 ^ n := by
  intro n
  induction n with
  | zero => simp [bitsMSB, binaryValue, Nat.mod_one]
  | succ n ih =>
    have hb : (if bitChar data n = '1' then 1 else 0) = data / 2 ^ n % 2 := by
      unfold bitChar
      rcases Nat.mod_two_eq_zero_or_one (data / 2 ^ n) with h | h
      · rw [h]; simp
      · rw [h]; simp
    simp only [bitsMSB, binaryValue, List.foldl_cons]
    rw [binaryValue_foldl, bitsMSB_length, ih, hb, Nat.mod_pow_succ]
    ring

theorem to_bit_string_length (digits data : Nat) (L : Nat) ( baseprefix : Bool)
    (hL : L ≤ digits) :
    to_bit_string digits false data (L : Int) baseprefix
      = .ok ((if baseprefix then "0b" else "") ++ String.mk (bitsMSB data L)) := by
  have h0 : ¬ ((L : Int) < 0) := by omega
  have hw : L ≤ promotedWidth digits false := by
    unfold promotedWidth
    simp only [Bool.false_eq_true, if_false, Nat.add_zero]
    omega
  simp only [to_bit_string, h0, if_false, Int.toNat_ofNat]
  exact bitLoop_eq data _ L _ hw

theorem to_bit_string_default (digits data : Nat) ( baseprefix : Bool) :
    to_bit_string digits false data (-1) baseprefix
      = .ok ((if baseprefix then "0b" else "") ++ String.mk (bitsMSB data digits)) := by
  have hw : digits ≤ promotedWidth digits false := by
    unfold promotedWidth
    simp only [Bool.false_eq_true, if_false, Nat.add_zero]
    omega
  have h0 : ((-1 : Int) < 0) := by omega
  simp only [to_bit_string, h0, if_true, Bool.false_eq_true, if_false, Int.toNat_ofNat]
  exact bitLoop_eq data _ digits _ hw

theorem empty_append_mk (l : List Char) : "" ++ String.mk l = String.mk l := by
  apply String.ext
  simp

/-- C18. For a value `d` of an unsigned type of `w` bits and a length `L` with
`0 ≤ L ≤ w`, `to_bit_string(d, L)` returns a string of exactly `L` characters, each
'0' or '1', whose character `i` is bit `L - 1 - i` of `d` (most significant bit
first) and whose value as a binary numeral is `d mod 2 ^ L`; with the default length
the string has `w` characters and its value is `d` itself; with `baseprefix = true`
the result is "0b" followed by that same string. -/
theorem to_bit_string_unsigned (w d L : Nat) (hd : d < 2 ^ w) (hL : L ≤ w) :
    (∃ bits : List Char,
      to_bit_string w false d (L : Int) false = .ok (String.mk bits)
      ∧ (String.mk bits).length = L
      ∧ (∀ c ∈ bits, c = '0' ∨ c = '1')
      ∧ (∀ i, i < L → bits[i]? = some (if d / 2 ^ (L - 1 - i) % 2 = 1 then '1' else '0'))
      ∧ binaryValue bits = d % 2 ^ L
      ∧ to_bit_string w false d (L : Int) true = .ok ("0b" ++ String.mk bits))
    ∧ (∃ bits : List Char,
      to_bit_string w false d (-1) false = .ok (String.mk bits)
      ∧ (String.mk bits).length = w
      ∧ (∀ c ∈ bits, c = '0' ∨ c = '1')
      ∧ binaryValue bits = d
      ∧ to_bit_string w false d (-1) true = .ok ("0b" ++ String.mk bits)) := by
  refine ⟨⟨bitsMSB d L, ?_, ?_, bitsMSB_chars d L, ?_, binaryValue_bitsMSB d L, ?_⟩,
    ⟨bitsMSB d w, ?_, ?_, bitsMSB_chars d w, ?_, ?_⟩⟩
  · rw [to_bit_string_length w d L false hL]
    simp only [Bool.false_eq_true, if_false, empty_append_mk]
  · rw [String.length_mk, bitsMSB_length]
  · intro i hi
    rw [bitsMSB_getElem d L i hi]
    rfl
  · rw [to_bit_string_length w d L true hL]
    simp only [if_true]
  · rw [to_bit_string_default w d false]
    simp only [Bool.false_eq_true, if_false, empty_append_mk]
  · rw [String.length_mk, bitsMSB_length]
  · rw [binaryValue_bitsMSB, Nat.mod_eq_of_lt hd]
  · rw [to_bit_string_default w d true]
    simp only [if_true]

theorem to_bit_string_unsigned_witness :
    (5 : Nat) < 2 ^ 8 ∧ (4 : Nat) ≤ 8
    ∧ to_bit_string 8 false 5 4 false = .ok "0101"
    ∧ to_bit_string 8 false 5 (-1) true = .ok "0b00000101"
    ∧ ∃ bits : List Char,
        to_bit_string 8 false 5 ((4 : Nat) : Int) false = .ok (String.mk bits)
        ∧ (String.mk bits).length = 4
        ∧ (∀ c ∈ bits, c = '0' ∨ c = '1')
        ∧ (∀ i, i < 4 → bits[i]? = some (if 5 / 2 ^ (4 - 1 - i) % 2 = 1 then '1' else '0'))
        ∧ binaryValue bits = 5 % 2 ^ 4
        ∧ to_bit_string 8 false 5 ((4 : Nat) : Int) true = .ok ("0b" ++ String.mk bits) :=
  ⟨by norm_num, by norm_num, by decide, by decide,
   (to_bit_string_unsigned 8 5 4 (by norm_num) (by norm_num)).1⟩

theorem decodeBlock_samples (env : Env) (block : List Byte) (hwf : WellFormedBlock block) :
    ∃ dec, decodeBlock env block = .ok dec
      ∧ dec.waveforms.length = 16
      ∧ ∀ ch, ch < 16 → dec.waveforms.getD ch []
          = (List.range (headerBurst block * 128)).map (blockSample block ch) := by
  obtain ⟨hlen, hs0, hs1⟩ := hwf
  obtain ⟨wfs0, ts0, hd0, hl0, hsame0, hother0⟩ := decodeChannel_waveforms env 0 block
    (headerBurst block * 128 * 2 * 8) 8 (List.replicate 16 []) 0 (by omega) (by omega)
    (by omega) (by simp)
  obtain ⟨wfs1, ts1, hd1, hl1, hsame1, hother1⟩ := decodeChannel_waveforms env 1 block
    (headerBurst block * 128 * 2 * 8) (2 * 8 + headerBurst block * 128 * 2 * 8) wfs0 0
    (by omega) (by omega) (by omega) hl0
  refine ⟨⟨wfs1, ts0, ts1⟩, ?_, hl1, ?_⟩
  · simp only [decodeBlock, hs0, hs1, hd0, hd1]
  · intro ch hch
    have hdiv : headerBurst block * 128 * 2 * 8 / 16 = headerBurst block * 128 := by omega
    have hrep : ∀ c, (List.replicate 16 ([] : List Nat)).getD c [] = [] := by
      intro c
      rw [List.getD_eq_getElem?_getD, List.getElem?_replicate]
      split <;> rfl
    by_cases h8 : ch < 8
    · have e1 := hother1 ch (Or.inl (by omega))
      have e0 := hsame0 ch h8
      simp only [Nat.zero_mul, Nat.zero_add] at e0
      rw [e1, e0, hrep, hdiv, List.nil_append]
      apply List.map_congr_left
      intro k _
      unfold blockSample
      rw [if_pos h8, Nat.mod_eq_of_lt h8]
    · have e1 := hsame1 (ch - 8) (by omega)
      have e0 := hother0 (1 * 8 + (ch - 8)) (Or.inr (by omega))
      have hidx : 1 * 8 + (ch - 8) = ch := by omega
      rw [hidx] at e1 e0
      rw [e1, e0, hrep, hdiv, List.nil_append]
      apply List.map_congr_left
      intro k _
      unfold blockSample
      rw [if_neg h8]
      have hm : ch % 8 = ch - 8 := by omega
      rw [hm]

theorem map_range_getD (n : Nat) (f : Nat → Nat) (j : Nat) (h : j < n) :
    ((List.range n).map f).getD j 0 = f j := by
  rw [List.getD_eq_getElem?_getD, List.getElem?_map, List.getElem?_range h]
  rfl

theorem window_zero (wf : List Nat) (lo m : Nat) (hlen : lo + m ≤ wf.length)
    (h : ∀ j, lo ≤ j → j < lo + m → wf.getD j 0 = 0) : (window wf lo m).sum = 0 := by
  have hall : ∀ v ∈ window wf lo m, v = 0 := by
    intro v hv
    unfold window at hv
    obtain ⟨i, hi, hget⟩ := List.getElem_of_mem hv
    rw [List.length_take, List.length_drop] at hi
    rw [List.getElem_take, List.getElem_drop] at hget
    have := h (lo + i) (by omega) (by omega)
    rw [getD_of_lt wf (lo + i) (by omega)] at this
    rw [← hget]
    exact this
  rw [sum_of_constant _ 0 hall]
  rfl

theorem maxElement_spike (n idx s : Nat) (a b : Int) (hs : 0 < s) (h0 : 0 ≤ a)
    (h1 : a ≤ idx) (h2 : (idx : Int) < b) (h3 : b ≤ n) :
    maxElement ((List.range n).map (fun k => if k = idx then s else 0)) a b = .ok idx := by
  have hlen : ((List.range n).map (fun k => if k = idx then s else 0)).length = n := by simp
  obtain ⟨p, hp, hfirst⟩ := maxElement_firstMax
    ((List.range n).map (fun k => if k = idx then s else 0)) a b h0 (by omega)
    (by rw [hlen]; exact h3)
  have hidx : IsFirstMax ((List.range n).map (fun k => if k = idx then s else 0))
      a.toNat b.toNat idx := by
    refine ⟨by omega, by omega, ?_, ?_⟩
    · intro j _ hj
      rw [map_range_getD n _ j (by omega), map_range_getD n _ idx (by omega), if_pos rfl]
      split <;> omega
    · intro j _ hj
      rw [map_range_getD n _ j (by omega), map_range_getD n _ idx (by omega), if_pos rfl,
        if_neg (by omega)]
      exact hs
  rw [hp, IsFirstMax_unique _ _ _ _ _ hfirst hidx]

theorem maxElement_flat (n : Nat) (a b : Int) (h0 : 0 ≤ a) (h1 : a < b) (h3 : b ≤ n) :
    maxElement ((List.range n).map (fun _ => 0)) a b = .ok a.toNat := by
  have hlen : ((List.range n).map (fun _ => (0 : Nat))).length = n := by simp
  obtain ⟨p, hp, hfirst⟩ := maxElement_firstMax
    ((List.range n).map (fun _ => 0)) a b h0 h1 (by rw [hlen]; exact h3)
  have hidx : IsFirstMax ((List.range n).map (fun _ => (0 : Nat))) a.toNat b.toNat a.toNat := by
    refine ⟨le_refl _, by omega, ?_, ?_⟩
    · intro j _ hj
      rw [map_range_getD n _ j (by omega), map_range_getD n _ a.toNat (by omega)]
    · intro j hj1 hj2
      omega
  rw [hp, IsFirstMax_unique _ _ _ _ _ hfirst hidx]

theorem clipAmplitude_zero (rmin rmax : ℚ) (h : 0 ≤ rmax) :
    clipAmplitude rmin rmax (Double.num 0) = Double.num 0 := by
  rw [clipAmplitude_num, if_neg (not_lt.mpr h)]
  by_cases hr : (0 : ℚ) < rmin
  · simp only [if_pos hr]
  · simp only [if_neg hr]

theorem channelPixel_spike (env : Env) (st : ConvState) (ts ch n idx s : Nat)
    (hid : ∀ fn (x : ℚ), env.tf1Eval fn x = x) (hfn : st.m_calib_functions.length = 16)
    (hch : ch < 16) (hs : 0 < s)
    (ha0 : 0 ≤ st.m_ampStart) (ha1 : st.m_ampStart ≤ idx) (ha2 : (idx : Int) < st.m_ampEnd)
    (ha3 : st.m_ampEnd ≤ n) (hb0 : 0 ≤ st.m_blEnd) (hb1 : st.m_blEnd < st.m_blStart)
    (hb2 : st.m_blStart ≤ idx)
    (hr0 : st.m_calib_range_min ≤ s) (hr1 : (s : ℚ) ≤ st.m_calib_range_max) :
    channelPixel env st ts ch ((List.range n).map (fun k => if k = idx then s else 0))
      = .ok (some ⟨(mapping.getD ch (0, 0)).1, (mapping.getD ch (0, 0)).2, (s : ℚ), ts⟩) := by
  have hlen : ((List.range n).map (fun k => if k = idx then s else 0)).length = n := by simp
  have hm : ch < mapping.length := by rw [mapping_length]; exact hch
  have hidx : idx < n := by omega
  have hmax := maxElement_spike n idx s _ _ hs ha0 ha1 ha2 ha3
  have hin : ((idx : Int) - st.m_blStart).toNat + (st.m_blStart - st.m_blEnd).toNat
      ≤ ((List.range n).map (fun k => if k = idx then s else 0)).length := by
    rw [hlen]; omega
  have hidx2 : idx < ((List.range n).map (fun k => if k = idx then s else 0)).length := by
    rw [hlen]; exact hidx
  have hfnlt : ch < st.m_calib_functions.length := by omega
  have hp31 := maxElement_int32 st _ idx hmax
  have hblStart := st.int_range.1
  unfold IsInt32 at hblStart
  have hpush := channelPixel_pushed_num env st ts ch _ idx st.m_calib_functions[ch] mapping[ch]
    hmax (by omega) (by omega) (Or.inr ⟨by rw [hlen]; omega, by omega⟩)
    (by unfold IsInt32; omega) (by omega) hidx2
    (List.getElem?_eq_getElem hfnlt) (List.getElem?_eq_getElem hm)
  have hsum := window_zero ((List.range n).map (fun k => if k = idx then s else 0))
    ((idx : Int) - st.m_blStart).toNat (st.m_blStart - st.m_blEnd).toNat hin
    (by
      intro j _ hj
      rw [map_range_getD n _ j (by omega), if_neg (by omega)])
  have hpeak : ((List.range n).map (fun k => if k = idx then s else 0))[idx] = s := by
    simp
  have hD : mapping.getD ch (0, 0) = mapping[ch] := by
    rw [List.getD_eq_getElem?_getD, List.getElem?_eq_getElem hm]
    rfl
  rw [hpush, hsum, hpeak, hid, hD]
  simp only [Nat.cast_zero, zero_div, sub_zero]
  rw [clipAmplitude_inside _ _ _ hr0 hr1]

theorem channelPixel_flat (env : Env) (st : ConvState) (ts ch n : Nat)
    (hid : ∀ fn (x : ℚ), env.tf1Eval fn x = x) (hfn : st.m_calib_functions.length = 16)
    (hch : ch < 16)
    (ha0 : 0 ≤ st.m_ampStart) (ha1 : st.m_ampStart < st.m_ampEnd)
    (ha3 : st.m_ampEnd ≤ n) (hb0 : 0 ≤ st.m_blEnd) (hb1 : st.m_blEnd < st.m_blStart)
    (hr1 : 0 ≤ st.m_calib_range_max) :
    channelPixel env st ts ch ((List.range n).map (fun _ => 0))
      = .ok (if st.m_ampStart < st.m_blStart then none
          else some ⟨(mapping.getD ch (0, 0)).1, (mapping.getD ch (0, 0)).2, 0, ts⟩) := by
  have hlen : ((List.range n).map (fun _ => (0 : Nat))).length = n := by simp
  have hm : ch < mapping.length := by rw [mapping_length]; exact hch
  have hmax := maxElement_flat n _ _ ha0 ha1 ha3
  by_cases hg : st.m_ampStart < st.m_blStart
  · rw [if_pos hg]
    exact channelPixel_skipped env st ts ch _ _ hmax (by omega)
  · rw [if_neg hg]
    have hin : ((st.m_ampStart.toNat : Int) - st.m_blStart).toNat
        + (st.m_blStart - st.m_blEnd).toNat
        ≤ ((List.range n).map (fun _ => (0 : Nat))).length := by
      rw [hlen]; omega
    have hp : st.m_ampStart.toNat < n := by omega
    have hp2 : st.m_ampStart.toNat < ((List.range n).map (fun _ => (0 : Nat))).length := by
      rw [hlen]; exact hp
    have hfnlt : ch < st.m_calib_functions.length := by omega
    have hp31 := maxElement_int32 st _ _ hmax
    have hblStart := st.int_range.1
    unfold IsInt32 at hblStart
    have hpush := channelPixel_pushed_num env st ts ch _ st.m_ampStart.toNat
      st.m_calib_functions[ch] mapping[ch]
      hmax (by omega) (by omega) (Or.inr ⟨by rw [hlen]; omega, by omega⟩)
      (by unfold IsInt32; omega) (by omega) hp2
      (List.getElem?_eq_getElem hfnlt) (List.getElem?_eq_getElem hm)
    have hsum := window_zero ((List.range n).map (fun _ => (0 : Nat)))
      ((st.m_ampStart.toNat : Int) - st.m_blStart).toNat (st.m_blStart - st.m_blEnd).toNat hin
      (by
        intro j _ hj
        rw [map_range_getD n _ j (by omega)])
    have hpeak : ((List.range n).map (fun _ => (0 : Nat)))[st.m_ampStart.toNat] = 0 := by
      simp
    have hD : mapping.getD ch (0, 0) = mapping[ch] := by
      rw [List.getD_eq_getElem?_getD, List.getElem?_eq_getElem hm]
      rfl
    rw [hpush, hsum, hpeak, hid, hD]
    simp only [Nat.cast_zero, zero_div, sub_zero]
    rw [clipAmplitude_zero _ _ hr1]
    rfl

theorem filterMap_pointwise {α β : Type} (f g : α → Option β) :
    ∀ l : List α, (∀ x ∈ l, f x = g x) → l.filterMap f = l.filterMap g := by
  intro l
  induction l with
  | nil => intro _; rfl
  | cons a t ih =>
    intro h
    rw [List.filterMap_cons, List.filterMap_cons, h a (by simp),
      ih (fun x hx => h x (by simp [hx]))]

theorem Converting_spike (env : Env) (st : ConvState) (block : List Byte) (d2 : StandardEvent)
    (conf : Configuration) (c idx s : Nat) (h : st.Sized) (hwf : WellFormedBlock block)
    (hburst : headerBurst block = 1)
    (hsamples : ∀ ch k, ch < 16 → k < 128 →
      blockSample block ch k = if ch = c ∧ k = idx then s else 0)
    (hs : 0 < s) (hid : ∀ fn (x : ℚ), env.tf1Eval fn x = x)
    (hdump : (afterConfigure st conf).m_waveform_filename = "")
    (ha0 : 0 ≤ (afterConfigure st conf).m_ampStart)
    (ha1 : (afterConfigure st conf).m_ampStart ≤ idx)
    (ha2 : (idx : Int) < (afterConfigure st conf).m_ampEnd)
    (ha3 : (afterConfigure st conf).m_ampEnd ≤ 128)
    (hb0 : 0 ≤ (afterConfigure st conf).m_blEnd)
    (hb1 : (afterConfigure st conf).m_blEnd < (afterConfigure st conf).m_blStart)
    (hb2 : (afterConfigure st conf).m_blStart ≤ idx)
    (hr0 : (afterConfigure st conf).m_calib_range_min ≤ s)
    (hr1 : (s : ℚ) ≤ (afterConfigure st conf).m_calib_range_max) :
    ∃ dec, decodeBlock env block = .ok dec
      ∧ Converting env st block d2 conf = successResult (afterConfigure st conf) dec
          { emptyPlane with pixels := ((List.range 16).filterMap
              (spikePixel (afterConfigure st conf) c s dec.timestamp0)) } d2 := by
  have hwin : WindowsInside (afterConfigure st conf) (headerBurst block * 128) := by
    rw [hburst]
    have hblStart := (afterConfigure st conf).int_range.1
    unfold IsInt32 at hblStart
    refine ⟨ha0, by omega, by omega, Or.inr ?_⟩
    rw [peakBound, if_pos (by omega)]
    exact ⟨by omega, by omega, by omega, Or.inr (by omega)⟩
  obtain ⟨dec, hd, hconv⟩ := Converting_wellFormed env st block d2 conf h hwf hdump hwin
  obtain ⟨dec2, hd2, _, hw⟩ := decodeBlock_samples env block hwf
  rw [hd] at hd2
  injection hd2 with hd2
  subst hd2
  refine ⟨dec, hd, ?_⟩
  have hf := afterRunStart_fields (afterConfigure st conf) dec.timestamp0
  have hsz := (afterConfigure_sized st conf h).2
  have hs0 : (0 : ℚ) ≤ (afterConfigure st conf).m_calib_range_max :=
    le_trans (Nat.cast_nonneg s) hr1
  have hpix : ∀ ch ∈ List.range 16,
      pixelOf env (afterRunStart (afterConfigure st conf) dec.timestamp0) dec.timestamp0
        dec.waveforms ch = spikePixel (afterConfigure st conf) c s dec.timestamp0 ch := by
    intro ch hch
    rw [List.mem_range] at hch
    have hwave : dec.waveforms.getD ch []
        = (List.range 128).map (fun k => if ch = c ∧ k = idx then s else 0) := by
      rw [hw ch hch, hburst]
      apply List.map_congr_left
      intro k hk
      rw [List.mem_range] at hk
      exact hsamples ch k hch (by omega)
    unfold pixelOf spikePixel
    rw [hwave]
    by_cases hc : ch = c
    · have e : (fun k => if ch = c ∧ k = idx then s else 0)
          = (fun k => if k = idx then s else 0) := by
        funext k
        simp [hc]
      rw [e, if_pos hc, channelPixel_spike env _ _ ch 128 idx s hid
        (by rw [hf.2.2.2.2.2.2.1]; exact hsz) hch hs
        (by rw [hf.2.2.2.2.1]; exact ha0) (by rw [hf.2.2.2.2.1]; exact ha1)
        (by rw [hf.2.2.2.2.2.1]; exact ha2) (by rw [hf.2.2.2.2.2.1]; exact ha3)
        (by rw [hf.2.2.2.1]; exact hb0) (by rw [hf.2.2.2.1, hf.2.2.1]; exact hb1)
        (by rw [hf.2.2.1]; exact hb2)
        (by rw [hf.2.2.2.2.2.2.2.1]; exact hr0) (by rw [hf.2.2.2.2.2.2.2.2]; exact hr1)]
    · have e : (fun k => if ch = c ∧ k = idx then s else 0) = (fun _ => (0 : Nat)) := by
        funext k
        simp [hc]
      rw [e, if_neg hc, channelPixel_flat env _ _ ch 128 hid
        (by rw [hf.2.2.2.2.2.2.1]; exact hsz) hch
        (by rw [hf.2.2.2.2.1]; exact ha0)
        (by rw [hf.2.2.2.2.1, hf.2.2.2.2.2.1]; omega)
        (by rw [hf.2.2.2.2.2.1]; exact ha3)
        (by rw [hf.2.2.2.1]; exact hb0) (by rw [hf.2.2.2.1, hf.2.2.1]; exact hb1)
        (by rw [hf.2.2.2.2.2.2.2.2]; exact hs0), hf.2.2.2.2.1, hf.2.2.1]
  rw [hconv, filterMap_pointwise _ _ _ hpix]
  unfold successResult
  rw [afterConfigure_trig]

theorem spikePixels_all (st : ConvState) (c s ts : Nat) (hle : st.m_blStart ≤ st.m_ampStart) :
    (List.range 16).filterMap (spikePixel st c s ts)
      = (List.range 16).map (fun ch => (⟨(mapping.getD ch (0, 0)).1, (mapping.getD ch (0, 0)).2,
          if ch = c then (s : ℚ) else 0, ts⟩ : Pixel)) := by
  apply filterMap_all_some
  intro ch _
  unfold spikePixel
  by_cases hc : ch = c
  · simp only [hc, if_true]
  · simp only [hc, if_false, not_lt.mpr hle]

theorem filterMap_single {β : Type} (f : Nat → β) (c : Nat) (hc : c < 16) :
    (List.range 16).filterMap (fun ch => if ch = c then some (f ch) else none) = [f c] := by
  interval_cases c <;> rfl

theorem spikePixels_one (st : ConvState) (c s ts : Nat) (hc : c < 16)
    (hlt : st.m_ampStart < st.m_blStart) :
    (List.range 16).filterMap (spikePixel st c s ts)
      = [⟨(mapping.getD c (0, 0)).1, (mapping.getD c (0, 0)).2, (s : ℚ), ts⟩] := by
  have e : spikePixel st c s ts = (fun ch => if ch = c then some
      (⟨(mapping.getD ch (0, 0)).1, (mapping.getD ch (0, 0)).2, (s : ℚ), ts⟩ : Pixel)
      else none) := by
    funext ch
    unfold spikePixel
    by_cases h : ch = c
    · simp only [h, if_true]
    · simp only [h, if_false, hlt, if_true]
  rw [e, filterMap_single _ c hc]

/-- C11, as amended. A well-formed block of burst length 1 whose samples are all
zero except sample `idx` of channel `c`, which is `s > 0`; identity calibration; no
dump file; amplitude window `[ampStart, ampEnd)` inside the 128 samples and
containing `idx`; `0 ≤ blEnd < blStart ≤ idx` (the baseline window then lies before
the spike and is all zero); `s` inside the calibration range. Then `Converting`
returns true and appends one plane, which holds the pixel of channel `c` at its
mapped coordinates with amplitude `s`. A flat channel has its peak at `ampStart`:
when `ampStart < blStart` every flat channel is skipped and the plane holds exactly
that one pixel; when `blStart ≤ ampStart` every flat channel contributes a pixel of
amplitude 0 at its own mapped coordinates and the plane holds 16 pixels. -/
theorem Converting_single_spike (env : Env) (st : ConvState) (block : List Byte)
    (d2 : StandardEvent) (conf : Configuration) (c idx s : Nat) (h : st.Sized)
    (hwf : WellFormedBlock block) (hburst : headerBurst block = 1)
    (hsamples : ∀ ch k, ch < 16 → k < 128 →
      blockSample block ch k = if ch = c ∧ k = idx then s else 0)
    (hc : c < 16) (hs : 0 < s) (hid : ∀ fn (x : ℚ), env.tf1Eval fn x = x)
    (hdump : (afterConfigure st conf).m_waveform_filename = "")
    (ha0 : 0 ≤ (afterConfigure st conf).m_ampStart)
    (ha1 : (afterConfigure st conf).m_ampStart ≤ idx)
    (ha2 : (idx : Int) < (afterConfigure st conf).m_ampEnd)
    (ha3 : (afterConfigure st conf).m_ampEnd ≤ 128)
    (hb0 : 0 ≤ (afterConfigure st conf).m_blEnd)
    (hb1 : (afterConfigure st conf).m_blEnd < (afterConfigure st conf).m_blStart)
    (hb2 : (afterConfigure st conf).m_blStart ≤ idx)
    (hr0 : (afterConfigure st conf).m_calib_range_min ≤ s)
    (hr1 : (s : ℚ) ≤ (afterConfigure st conf).m_calib_range_max) :
    ∃ dec plane, decodeBlock env block = .ok dec
      ∧ (Converting env st block d2 conf).outcome = .returned true
      ∧ (Converting env st block d2 conf).event.planes = d2.planes ++ [plane]
      ∧ plane.pixels = (List.range 16).filterMap
          (spikePixel (afterConfigure st conf) c s dec.timestamp0)
      ∧ (⟨(mapping.getD c (0, 0)).1, (mapping.getD c (0, 0)).2, (s : ℚ), dec.timestamp0⟩ : Pixel)
          ∈ plane.pixels
      ∧ ((afterConfigure st conf).m_ampStart < (afterConfigure st conf).m_blStart →
          plane.pixels
            = [⟨(mapping.getD c (0, 0)).1, (mapping.getD c (0, 0)).2, (s : ℚ), dec.timestamp0⟩])
      ∧ ((afterConfigure st conf).m_blStart ≤ (afterConfigure st conf).m_ampStart →
          plane.pixels.length = 16
          ∧ ∀ ch, ch < 16 → plane.pixels[ch]?
              = some ⟨(mapping.getD ch (0, 0)).1, (mapping.getD ch (0, 0)).2,
                  if ch = c then (s : ℚ) else 0, dec.timestamp0⟩) := by
  obtain ⟨dec, hd, hconv⟩ := Converting_spike env st block d2 conf c idx s h hwf hburst hsamples
    hs hid hdump ha0 ha1 ha2 ha3 hb0 hb1 hb2 hr0 hr1
  refine ⟨dec, { emptyPlane with pixels := ((List.range 16).filterMap
    (spikePixel (afterConfigure st conf) c s dec.timestamp0)) }, hd, ?_, ?_, rfl, ?_, ?_, ?_⟩
  · rw [hconv]
    exact (successResult_fields _ _ _ _).1
  · rw [hconv]
    exact (successResult_fields _ _ _ _).2.2.1
  · show _ ∈ (List.range 16).filterMap (spikePixel (afterConfigure st conf) c s dec.timestamp0)
    rw [List.mem_filterMap]
    refine ⟨c, List.mem_range.mpr hc, ?_⟩
    unfold spikePixel
    rw [if_pos rfl]
  · intro hlt
    exact spikePixels_one _ c s _ hc hlt
  · intro hle
    show ((List.range 16).filterMap (spikePixel (afterConfigure st conf) c s
        dec.timestamp0)).length = 16
      ∧ ∀ ch, ch < 16 → ((List.range 16).filterMap (spikePixel (afterConfigure st conf) c s
        dec.timestamp0))[ch]? = _
    rw [spikePixels_all _ c s _ hle]
    refine ⟨by simp, ?_⟩
    intro ch hch
    rw [List.getElem?_map, List.getElem?_range hch]
    rfl

theorem burstOneBlock_byte0 (s0 s1 : List Byte) (j : Nat) (hj : j < s0.length) :
    (burstOneBlock s0 s1).getD (8 + j) 0 = s0.getD j 0 := by
  unfold burstOneBlock
  rw [List.getD_eq_getElem?_getD, List.getD_eq_getElem?_getD, List.append_assoc,
    List.append_assoc, List.getElem?_append_right (by simp),
    List.getElem?_append_left (by simp; omega)]
  congr 2
  simp

theorem burstOneBlock_byte1 (s0 s1 : List Byte) (j : Nat) :
    (burstOneBlock s0 s1).getD (2 * 8 + s0.length + j) 0 = s1.getD j 0 := by
  unfold burstOneBlock
  rw [List.getD_eq_getElem?_getD, List.getD_eq_getElem?_getD,
    List.getElem?_append_right (by simp; omega)]
  congr 2
  simp
  omega

theorem spikeSamples_length : spikeSamples.length = 2048 := by
  simp [spikeSamples]

theorem spikeSamples_byte (j : Nat) :
    spikeSamples.getD j 0 = if j = 1606 then 232 else if j = 1607 then 3 else 0 := by
  unfold spikeSamples
  rw [List.getD_eq_getElem?_getD]
  by_cases h1 : j < 1606
  · rw [List.append_assoc, List.getElem?_append_left (by simp; omega), List.getElem?_replicate,
      if_pos h1, if_neg (by omega), if_neg (by omega)]
    rfl
  · by_cases h2 : j < 1608
    · rw [List.append_assoc, List.getElem?_append_right (by simp; omega),
        List.getElem?_append_left (by simp; omega)]
      have hj : j = 1606 ∨ j = 1607 := by omega
      rcases hj with hj | hj
      · rw [hj]; rfl
      · rw [hj]; rfl
    · have e1 : ¬ j = 1606 := by omega
      have e2 : ¬ j = 1607 := by omega
      rw [List.getElem?_append_right (by simp; omega), List.getElem?_replicate,
        if_neg e1, if_neg e2]
      split <;> rfl

theorem zeroSamples_byte (n j : Nat) : (List.replicate n (0 : Byte)).getD j 0 = 0 := by
  rw [List.getD_eq_getElem?_getD, List.getElem?_replicate]
  split <;> rfl

theorem spikeBlock_wellFormed : WellFormedBlock spikeBlock :=
  burstOneBlock_wellFormed _ _ spikeSamples_length (List.length_replicate _ _)

theorem spikeBlock_samples :
    ∀ ch k, ch < 16 → k < 128 →
      blockSample spikeBlock ch k = if ch = 3 ∧ k = 100 then 1000 else 0 := by
  intro ch k hch hk
  have hburst : headerBurst spikeBlock = 1 := burstOneBlock_header _ _
  unfold blockSample sampleAt
  rw [hburst]
  by_cases h8 : ch < 8
  · rw [if_pos h8]
    have e0 := burstOneBlock_byte0 spikeSamples (List.replicate 2048 0) (2 * (8 * k + ch % 8))
      (by rw [spikeSamples_length]; omega)
    have e1 := burstOneBlock_byte0 spikeSamples (List.replicate 2048 0)
      (2 * (8 * k + ch % 8) + 1) (by rw [spikeSamples_length]; omega)
    rw [← Nat.add_assoc] at e1
    unfold spikeBlock
    rw [e0, e1, spikeSamples_byte, spikeSamples_byte]
    by_cases hsp : ch = 3 ∧ k = 100
    · rw [if_pos hsp, if_pos (by omega), if_neg (by omega), if_pos (by omega)]
      decide
    · rw [if_neg hsp, if_neg (by omega), if_neg (by omega), if_neg (by omega),
        if_neg (by omega)]
      decide
  · rw [if_neg h8, if_neg (by omega)]
    have e0 := burstOneBlock_byte1 spikeSamples (List.replicate 2048 0) (2 * (8 * k + ch % 8))
    have e1 := burstOneBlock_byte1 spikeSamples (List.replicate 2048 0)
      (2 * (8 * k + ch % 8) + 1)
    rw [spikeSamples_length] at e0 e1
    rw [← Nat.add_assoc] at e1
    have hoff : 2 * 8 + 1 * 128 * 2 * 8 = 2 * 8 + 2048 := by norm_num
    unfold spikeBlock
    rw [hoff, e0, e1, zeroSamples_byte, zeroSamples_byte]
    decide

theorem spikeConfiguration_fields :
    (afterConfigure initialState spikeConfiguration).m_waveform_filename = ""
    ∧ (afterConfigure initialState spikeConfiguration).m_ampStart = 70
    ∧ (afterConfigure initialState spikeConfiguration).m_ampEnd = 120
    ∧ (afterConfigure initialState spikeConfiguration).m_blStart = 50
    ∧ (afterConfigure initialState spikeConfiguration).m_blEnd = 25
    ∧ (afterConfigure initialState spikeConfiguration).m_calib_range_min = 0
    ∧ (afterConfigure initialState spikeConfiguration).m_calib_range_max = 16384 := by
  simp [afterConfigure, configure, initialState, spikeConfiguration, Configuration.GetInt,
    Configuration.GetString, Configuration.GetDouble, toInt32]

theorem spikeBlock_converts (d2 : StandardEvent) :
    ∃ dec, decodeBlock identityEnv spikeBlock = .ok dec
      ∧ Converting identityEnv initialState spikeBlock d2 spikeConfiguration
        = successResult (afterConfigure initialState spikeConfiguration) dec
          { emptyPlane with pixels := ((List.range 16).filterMap
              (spikePixel (afterConfigure initialState spikeConfiguration) 3 1000
                dec.timestamp0)) } d2 := by
  have hf := spikeConfiguration_fields
  exact Converting_spike identityEnv initialState spikeBlock d2 spikeConfiguration 3 100 1000
    initialState_sized spikeBlock_wellFormed (burstOneBlock_header _ _) spikeBlock_samples
    (by norm_num) (fun _ _ => rfl) hf.1
    (by rw [hf.2.1]; norm_num) (by rw [hf.2.1]; norm_num) (by rw [hf.2.2.1]; norm_num)
    (by rw [hf.2.2.1]; norm_num) (by rw [hf.2.2.2.2.1]; norm_num)
    (by rw [hf.2.2.2.2.1, hf.2.2.2.1]; norm_num) (by rw [hf.2.2.2.1]; norm_num)
    (by rw [hf.2.2.2.2.2.1]; norm_num) (by rw [hf.2.2.2.2.2.2]; norm_num)

/-- C11, as stated, fails. The block `spikeBlock` has burst length 1 (128 samples per
channel) and all samples zero except sample 100 of channel 3, which is 1000; the
configuration sets the amplitude window `[70, 120)` and `blStart = 50`, `blEnd = 25`,
so the spike is inside the amplitude window and its baseline window `[50, 75)` is all
zero; the calibration is the identity. `Converting` returns true and the plane it
appends holds 16 pixels, not one: the pixel of channel 3 at `(1, 0)` with amplitude
1000, and a pixel of amplitude 0 for each of the other 15 channels, for instance
channel 0 at `(1, 2)`. -/
theorem Converting_single_spike_sixteen_pixels :
    WellFormedBlock spikeBlock
    ∧ headerBurst spikeBlock = 1
    ∧ (∀ ch k, ch < 16 → k < 128 →
        blockSample spikeBlock ch k = if ch = 3 ∧ k = 100 then 1000 else 0)
    ∧ (afterConfigure initialState spikeConfiguration).m_ampStart = 70
    ∧ (afterConfigure initialState spikeConfiguration).m_ampEnd = 120
    ∧ (afterConfigure initialState spikeConfiguration).m_blStart = 50
    ∧ (afterConfigure initialState spikeConfiguration).m_blEnd = 25
    ∧ ∃ dec plane, decodeBlock identityEnv spikeBlock = .ok dec
        ∧ (Converting identityEnv initialState spikeBlock emptyEvent spikeConfiguration).outcome
            = .returned true
        ∧ (Converting identityEnv initialState spikeBlock emptyEvent spikeConfiguration).event.planes
            = [plane]
        ∧ plane.pixels.length = 16
        ∧ plane.pixels[3]? = some ⟨1, 0, 1000, dec.timestamp0⟩
        ∧ plane.pixels[0]? = some ⟨1, 2, 0, dec.timestamp0⟩ := by
  have hf := spikeConfiguration_fields
  obtain ⟨dec, hd, hconv⟩ := spikeBlock_converts emptyEvent
  have hle : (afterConfigure initialState spikeConfiguration).m_blStart
      ≤ (afterConfigure initialState spikeConfiguration).m_ampStart := by
    rw [hf.2.2.2.1, hf.2.1]; norm_num
  have hall := spikePixels_all (afterConfigure initialState spikeConfiguration) 3 1000
    dec.timestamp0 hle
  refine ⟨spikeBlock_wellFormed, burstOneBlock_header _ _, spikeBlock_samples, hf.2.1, hf.2.2.1,
    hf.2.2.2.1, hf.2.2.2.2.1, dec, { emptyPlane with pixels := ((List.range 16).filterMap
      (spikePixel (afterConfigure initialState spikeConfiguration) 3 1000 dec.timestamp0)) },
    hd, ?_, ?_, ?_, ?_, ?_⟩
  · rw [hconv]
    exact (successResult_fields _ _ _ _).1
  · rw [hconv, (successResult_fields _ _ _ _).2.2.1]
    rfl
  · show ((List.range 16).filterMap (spikePixel (afterConfigure initialState spikeConfiguration)
      3 1000 dec.timestamp0)).length = 16
    rw [hall]
    simp
  · show ((List.range 16).filterMap (spikePixel (afterConfigure initialState spikeConfiguration)
      3 1000 dec.timestamp0))[3]? = _
    rw [hall, List.getElem?_map, List.getElem?_range (by norm_num)]
    simp [mapping]
    rfl
  · show ((List.range 16).filterMap (spikePixel (afterConfigure initialState spikeConfiguration)
      3 1000 dec.timestamp0))[0]? = _
    rw [hall, List.getElem?_map, List.getElem?_range (by norm_num)]
    simp [mapping]

theorem Converting_single_spike_witness :
    initialState.Sized ∧ WellFormedBlock spikeBlock ∧ headerBurst spikeBlock = 1
    ∧ (∀ ch k, ch < 16 → k < 128 →
        blockSample spikeBlock ch k = if ch = 3 ∧ k = 100 then 1000 else 0)
    ∧ (afterConfigure initialState spikeConfiguration).m_waveform_filename = ""
    ∧ (afterConfigure initialState spikeConfiguration).m_ampStart = 70
    ∧ (afterConfigure initialState spikeConfiguration).m_ampEnd = 120
    ∧ (afterConfigure initialState spikeConfiguration).m_blStart = 50
    ∧ (afterConfigure initialState spikeConfiguration).m_blEnd = 25
    ∧ (afterConfigure initialState spikeConfiguration).m_calib_range_min = 0
    ∧ (afterConfigure initialState spikeConfiguration).m_calib_range_max = 16384
    ∧ ∃ dec plane, decodeBlock identityEnv spikeBlock = .ok dec
        ∧ (Converting identityEnv initialState spikeBlock emptyEvent spikeConfiguration).outcome
            = .returned true
        ∧ (Converting identityEnv initialState spikeBlock emptyEvent spikeConfiguration).event.planes
            = emptyEvent.planes ++ [plane]
        ∧ (⟨(mapping.getD 3 (0, 0)).1, (mapping.getD 3 (0, 0)).2, ((1000 : Nat) : ℚ),
            dec.timestamp0⟩ : Pixel) ∈ plane.pixels := by
  have hf := spikeConfiguration_fields
  obtain ⟨dec, plane, hd, hout, hplanes, _, hmem, _⟩ :=
    Converting_single_spike identityEnv initialState spikeBlock emptyEvent spikeConfiguration
      3 100 1000 initialState_sized spikeBlock_wellFormed (burstOneBlock_header _ _)
      spikeBlock_samples (by norm_num) (by norm_num) (fun _ _ => rfl) hf.1
      (by rw [hf.2.1]; norm_num) (by rw [hf.2.1]; norm_num) (by rw [hf.2.2.1]; norm_num)
      (by rw [hf.2.2.1]; norm_num) (by rw [hf.2.2.2.2.1]; norm_num)
      (by rw [hf.2.2.2.2.1, hf.2.2.2.1]; norm_num) (by rw [hf.2.2.2.1]; norm_num)
      (by rw [hf.2.2.2.2.2.1]; norm_num) (by rw [hf.2.2.2.2.2.2]; norm_num)
  exact ⟨initialState_sized, spikeBlock_wellFormed, burstOneBlock_header _ _, spikeBlock_samples,
    hf.1, hf.2.1, hf.2.2.1, hf.2.2.2.1, hf.2.2.2.2.1, hf.2.2.2.2.2.1, hf.2.2.2.2.2.2,
    dec, plane, hd, hout, hplanes, hmem⟩

theorem channelPixel_peak_outside (env : Env) (st : ConvState) (ts ch : Nat) (wf : List Nat)
    (he : st.m_ampStart = st.m_ampEnd) (hlen : st.m_ampEnd = wf.length)
    (hb0 : 0 ≤ st.m_blEnd) (hb1 : st.m_blEnd ≤ st.m_blStart) (hb2 : st.m_blStart ≤ st.m_ampEnd)
    (hfn : ch < st.m_calib_functions.length) :
    channelPixel env st ts ch wf = .error .undefined := by
  have hcond : 0 ≤ st.m_ampStart ∧ st.m_ampStart ≤ st.m_ampEnd ∧ st.m_ampEnd ≤ wf.length := by
    omega
  have hmax : maxElement wf st.m_ampStart st.m_ampEnd = .ok wf.length := by
    unfold maxElement
    rw [if_pos hcond, if_pos he, hlen]
    rfl
  have hguard : ¬ ((wf.length : Nat) : Int) - st.m_blStart < 0 := by omega
  have hp31 := maxElement_int32 st wf _ hmax
  have hfirst : toInt32 ((wf.length : Int) - st.m_blStart) = (wf.length : Int) - st.m_blStart :=
    toInt32_of_int32 _ (by unfold IsInt32; omega)
  have hc : ¬ ((wf.length : Int) - st.m_blStart < (wf.length : Int) - st.m_blEnd
      ∧ 2 ^ 31 - 1 < (wf.length : Int) - st.m_blEnd) := by
    omega
  have hcount : ((wf.length : Int) - st.m_blEnd) - ((wf.length : Int) - st.m_blStart)
      = st.m_blStart - st.m_blEnd := by ring
  have hloop := baselineLoop_window wf (st.m_blStart - st.m_blEnd).toNat
    ((wf.length : Int) - st.m_blStart).toNat 0 (by omega)
  have hdiv : IsInt32 (st.m_blStart - st.m_blEnd) := by unfold IsInt32; omega
  have hpeak : wf[wf.length]? = none := List.getElem?_eq_none (le_refl _)
  have hfn2 : st.m_calib_functions[ch]? = some st.m_calib_functions[ch] :=
    List.getElem?_eq_getElem hfn
  simp only [channelPixel, hmax, hguard, if_false, hfirst, false_or, hc, hcount, hloop, hdiv,
    not_true_eq_false, hfn2, hpeak]

theorem channelPixel_narrowed (env : Env) (st : ConvState) (ts ch : Nat) (wf : List Nat)
    (p : Nat) (hmax : maxElement wf st.m_ampStart st.m_ampEnd = .ok p)
    (hwrap : 2 ^ 31 ≤ (p : Int) - st.m_blStart) :
    channelPixel env st ts ch wf = .error .undefined := by
  have hguard : ¬ (p : Int) - st.m_blStart < 0 := by omega
  have hp31 := maxElement_int32 st wf p hmax
  have h1 := st.int_range.1
  have h2 := st.int_range.2.1
  unfold IsInt32 at h1 h2
  have hfirst : toInt32 ((p : Int) - st.m_blStart) = (p : Int) - st.m_blStart - 2 ^ 32 := by
    unfold toInt32
    split <;> omega
  have hc : (p : Int) - st.m_blStart - 2 ^ 32 < (p : Int) - st.m_blEnd
      ∧ ((p : Int) - st.m_blStart - 2 ^ 32 < 0
        ∨ 2 ^ 31 - 1 < (p : Int) - st.m_blEnd) := ⟨by omega, Or.inl (by omega)⟩
  simp only [channelPixel, hmax, hguard, if_false, hfirst, hc, and_self, if_true]

theorem channelPixel_divisor_overflow (env : Env) (st : ConvState) (ts ch : Nat) (wf : List Nat)
    (p : Nat) (hmax : maxElement wf st.m_ampStart st.m_ampEnd = .ok p)
    (hguard : ¬ (p : Int) - st.m_blStart < 0) (hnarrow : (p : Int) - st.m_blStart < 2 ^ 31)
    (hdiv : st.m_blStart - st.m_blEnd < -2 ^ 31) :
    channelPixel env st ts ch wf = .error .undefined := by
  have hfirst : toInt32 ((p : Int) - st.m_blStart) = (p : Int) - st.m_blStart :=
    toInt32_of_int32 _ (by unfold IsInt32; omega)
  have hc : ¬ ((p : Int) - st.m_blStart < (p : Int) - st.m_blEnd
      ∧ 2 ^ 31 - 1 < (p : Int) - st.m_blEnd) := by
    omega
  have hcount : ((p : Int) - st.m_blEnd) - ((p : Int) - st.m_blStart)
      = st.m_blStart - st.m_blEnd := by ring
  have hloop := baselineLoop_window wf (st.m_blStart - st.m_blEnd).toNat
    ((p : Int) - st.m_blStart).toNat 0 (by omega)
  have hnd : ¬ IsInt32 (st.m_blStart - st.m_blEnd) := by unfold IsInt32; omega
  simp only [channelPixel, hmax, hguard, if_false, hfirst, false_or, hc, hcount, hloop, hnd,
    not_false_eq_true, if_true]

theorem Converting_first_channel_fault (env : Env) (st : ConvState) (block : List Byte)
    (d2 : StandardEvent) (conf : Configuration) (f : Fault) (h : st.Sized)
    (hwf : WellFormedBlock block)
    (hdump : (afterConfigure st conf).m_waveform_filename = "")
    (hch : ∀ (ts : Nat) (wf : List Nat), wf.length = headerBurst block * 128 →
      channelPixel env (afterRunStart (afterConfigure st conf) ts) ts 0 wf = .error f) :
    (Converting env st block d2 conf).outcome = .fault f := by
  obtain ⟨dec, hdec, hlen16, hlens⟩ := decodeBlock_wellFormed env block hwf
  have h4 : 4 ≤ block.length := by have := hwf.1; omega
  have hb := burstLength_long block h4
  have hlen : ¬ block.length < evtLength (headerBurst block) := by
    rw [evtLength_eq _ (headerBurst_lt block)]
    have := hwf.1
    omega
  have hw0 : dec.waveforms[0]? = some (dec.waveforms.getD 0 []) := by
    have h0 : 0 < dec.waveforms.length := by omega
    rw [List.getD_eq_getElem?_getD, List.getElem?_eq_getElem h0]
    rfl
  have hloop := pixelLoop_fault_first env
    (afterRunStart (afterConfigure st conf) dec.timestamp0)
    dec.timestamp0 dec.waveforms 15 0 emptyPlane _ _ hw0
    (hch dec.timestamp0 _ (hlens 0 (by omega)))
  rw [Converting_pixels env st block d2 conf h _ dec hb hlen hdec hdump, hlen16, hloop]

theorem endWindowConfiguration_fields :
    (afterConfigure initialState endWindowConfiguration).m_waveform_filename = ""
    ∧ (afterConfigure initialState endWindowConfiguration).m_ampStart = 128
    ∧ (afterConfigure initialState endWindowConfiguration).m_ampEnd = 128
    ∧ (afterConfigure initialState endWindowConfiguration).m_blStart = 10
    ∧ (afterConfigure initialState endWindowConfiguration).m_blEnd = 5 := by
  simp [afterConfigure, configure, initialState, endWindowConfiguration, Configuration.GetInt,
    Configuration.GetString, toInt32]

theorem wrappingConfiguration_fields :
    (afterConfigure initialState wrappingConfiguration).m_waveform_filename = ""
    ∧ (afterConfigure initialState wrappingConfiguration).m_ampStart = 20
    ∧ (afterConfigure initialState wrappingConfiguration).m_ampEnd = 100
    ∧ (afterConfigure initialState wrappingConfiguration).m_blStart = -2147483647
    ∧ (afterConfigure initialState wrappingConfiguration).m_blEnd = 0 := by
  simp [afterConfigure, configure, initialState, wrappingConfiguration, Configuration.GetInt,
    Configuration.GetString, toInt32]

theorem divisorConfiguration_fields :
    (afterConfigure initialState divisorConfiguration).m_waveform_filename = ""
    ∧ (afterConfigure initialState divisorConfiguration).m_ampStart = 20
    ∧ (afterConfigure initialState divisorConfiguration).m_ampEnd = 100
    ∧ (afterConfigure initialState divisorConfiguration).m_blStart = -1073741825
    ∧ (afterConfigure initialState divisorConfiguration).m_blEnd = 1073741824 := by
  simp [afterConfigure, configure, initialState, divisorConfiguration, Configuration.GetInt,
    Configuration.GetString, toInt32]

theorem configured_windows (conf : Configuration) (ts : Nat) (a b c d : Int)
    (hf : (afterConfigure initialState conf).m_ampStart = a
      ∧ (afterConfigure initialState conf).m_ampEnd = b
      ∧ (afterConfigure initialState conf).m_blStart = c
      ∧ (afterConfigure initialState conf).m_blEnd = d) :
    (afterRunStart (afterConfigure initialState conf) ts).m_ampStart = a
    ∧ (afterRunStart (afterConfigure initialState conf) ts).m_ampEnd = b
    ∧ (afterRunStart (afterConfigure initialState conf) ts).m_blStart = c
    ∧ (afterRunStart (afterConfigure initialState conf) ts).m_blEnd = d
    ∧ (afterRunStart (afterConfigure initialState conf) ts).m_calib_functions.length = 16 := by
  have hr := afterRunStart_fields (afterConfigure initialState conf) ts
  have hs := (afterConfigure_sized initialState conf initialState_sized).2
  exact ⟨by rw [hr.2.2.2.2.1, hf.1], by rw [hr.2.2.2.2.2.1, hf.2.1], by rw [hr.2.2.1, hf.2.2.1],
    by rw [hr.2.2.2.1, hf.2.2.2], by rw [hr.2.2.2.2.2.2.1, hs]⟩

/-- The peak position has to be a position of the waveform. On the well-formed block
`zeroBlock` (128 samples per channel) with the empty amplitude window `[128, 128)`,
`blStart = 10` and `blEnd = 5`, the peak search of line 210 returns the end of the
waveform, position 128; the guard of line 214 passes (`128 - 10 ≥ 0`), the baseline
loop reads the samples 118 to 122, and line 227 dereferences the end iterator: the
call does not return. -/
theorem Converting_peak_read_outside :
    WellFormedBlock zeroBlock
    ∧ headerBurst zeroBlock * 128 = 128
    ∧ (afterConfigure initialState endWindowConfiguration).m_waveform_filename = ""
    ∧ (afterConfigure initialState endWindowConfiguration).m_ampStart = 128
    ∧ (afterConfigure initialState endWindowConfiguration).m_ampEnd = 128
    ∧ (afterConfigure initialState endWindowConfiguration).m_blStart = 10
    ∧ (afterConfigure initialState endWindowConfiguration).m_blEnd = 5
    ∧ (Converting identityEnv initialState zeroBlock emptyEvent endWindowConfiguration).outcome
        = .fault .undefined := by
  have hf := endWindowConfiguration_fields
  have hburst : headerBurst zeroBlock = 1 := burstOneBlock_header _ _
  refine ⟨zeroBlock_wellFormed, by rw [hburst], hf.1, hf.2.1, hf.2.2.1, hf.2.2.2.1, hf.2.2.2.2,
    ?_⟩
  apply Converting_first_channel_fault _ _ _ _ _ _ initialState_sized zeroBlock_wellFormed hf.1
  intro ts wf hwf
  obtain ⟨e1, e2, e3, e4, e5⟩ := configured_windows endWindowConfiguration ts _ _ _ _ hf.2
  rw [hburst] at hwf
  exact channelPixel_peak_outside _ _ _ _ _ (by rw [e1, e2]) (by rw [e2, hwf]; rfl)
    (by rw [e4]; decide) (by rw [e3, e4]; decide) (by rw [e2, e3]; decide) (by rw [e5]; decide)

/-- The start of the baseline loop has to fit an `int`. On `zeroBlock` with the
amplitude window `[20, 100)`, `blStart = -2147483647` and `blEnd = 0`, a peak at
position `p ≥ 20` passes the guard of line 214, `int i` of line 221 receives
`p + 2147483647`, which narrows to `p - 2147483649 < 0`, and the loop, which runs
up to `p`, reads `waveforms[ch][i]` at a negative index: the call does not return. -/
theorem Converting_narrowed_loop_index :
    WellFormedBlock zeroBlock
    ∧ headerBurst zeroBlock * 128 = 128
    ∧ (afterConfigure initialState wrappingConfiguration).m_waveform_filename = ""
    ∧ (afterConfigure initialState wrappingConfiguration).m_ampStart = 20
    ∧ (afterConfigure initialState wrappingConfiguration).m_ampEnd = 100
    ∧ (afterConfigure initialState wrappingConfiguration).m_blStart = -2147483647
    ∧ (afterConfigure initialState wrappingConfiguration).m_blEnd = 0
    ∧ toInt32 (20 - (-2147483647)) = -2147483629
    ∧ (Converting identityEnv initialState zeroBlock emptyEvent wrappingConfiguration).outcome
        = .fault .undefined := by
  have hf := wrappingConfiguration_fields
  have hburst : headerBurst zeroBlock = 1 := burstOneBlock_header _ _
  refine ⟨zeroBlock_wellFormed, by rw [hburst], hf.1, hf.2.1, hf.2.2.1, hf.2.2.2.1, hf.2.2.2.2,
    by decide, ?_⟩
  apply Converting_first_channel_fault _ _ _ _ _ _ initialState_sized zeroBlock_wellFormed hf.1
  intro ts wf hwf
  obtain ⟨e1, e2, e3, e4, e5⟩ := configured_windows wrappingConfiguration ts _ _ _ _ hf.2
  rw [hburst] at hwf
  obtain ⟨p, hmax, hp1, hp2⟩ := maxElement_inWindow wf
    (afterRunStart (afterConfigure initialState wrappingConfiguration) ts).m_ampStart
    (afterRunStart (afterConfigure initialState wrappingConfiguration) ts).m_ampEnd
    (by rw [e1]; decide) (by rw [e1, e2]; decide) (by rw [e2, hwf]; decide)
  rw [e1] at hp1
  exact channelPixel_narrowed _ _ _ _ _ p hmax (by rw [e3]; omega)

/-- The `int` difference `blStart - blEnd` of line 224 has to fit an `int`. On
`zeroBlock` with the amplitude window `[20, 100)`, `blStart = -1073741825` and
`blEnd = 1073741824`, a peak at position `p` passes the guard, the baseline loop is
empty, and `m_blStart - m_blEnd = -2147483649` overflows: the call does not
return. -/
theorem Converting_divisor_overflow :
    WellFormedBlock zeroBlock
    ∧ headerBurst zeroBlock * 128 = 128
    ∧ (afterConfigure initialState divisorConfiguration).m_waveform_filename = ""
    ∧ (afterConfigure initialState divisorConfiguration).m_ampStart = 20
    ∧ (afterConfigure initialState divisorConfiguration).m_ampEnd = 100
    ∧ (afterConfigure initialState divisorConfiguration).m_blStart = -1073741825
    ∧ (afterConfigure initialState divisorConfiguration).m_blEnd = 1073741824
    ∧ (Converting identityEnv initialState zeroBlock emptyEvent divisorConfiguration).outcome
        = .fault .undefined := by
  have hf := divisorConfiguration_fields
  have hburst : headerBurst zeroBlock = 1 := burstOneBlock_header _ _
  refine ⟨zeroBlock_wellFormed, by rw [hburst], hf.1, hf.2.1, hf.2.2.1, hf.2.2.2.1, hf.2.2.2.2,
    ?_⟩
  apply Converting_first_channel_fault _ _ _ _ _ _ initialState_sized zeroBlock_wellFormed hf.1
  intro ts wf hwf
  obtain ⟨e1, e2, e3, e4, e5⟩ := configured_windows divisorConfiguration ts _ _ _ _ hf.2
  rw [hburst] at hwf
  obtain ⟨p, hmax, hp1, hp2⟩ := maxElement_inWindow wf
    (afterRunStart (afterConfigure initialState divisorConfiguration) ts).m_ampStart
    (afterRunStart (afterConfigure initialState divisorConfiguration) ts).m_ampEnd
    (by rw [e1]; decide) (by rw [e1, e2]; decide) (by rw [e2, hwf]; decide)
  rw [e1] at hp1
  rw [e2] at hp2
  exact channelPixel_divisor_overflow _ _ _ _ _ p hmax (by rw [e3]; omega) (by rw [e3]; omega)
    (by rw [e3, e4]; decide)

end AD9249
